import Mathlib

/-!
# tun_udp: a TUN <-> UDP relay

Shallow embedding of `src/tun_udp.go` and a verification of its relay
pipeline.

The program is four goroutines connected by two buffered channels and two
`sync.Pool`s.  It is embedded as a transition system:

* heap objects (`*DataPacket`, `*SocketMessages`) live in two heaps, lists
  indexed by address;
* each goroutine is a program counter carrying its local variables, one
  constructor per source statement;
* `step` executes one statement of one goroutine; the values an I/O call
  returns (bytes read, lengths, errors) and the choice made by `sync.Pool.Get`
  are carried by the action, so every behaviour of the environment and every
  interleaving of the goroutines is a list of actions;
* a Go run-time panic (slice or index out of range, nil dereference) and
  `log.Fatal` both stop the whole process: they set `halted`, after which no
  statement runs.

Integers of Go type `int` are `Int`; bytes are `Nat` (the relay never computes
on a byte value).  Slices created by `make([]T, n)` and never re-sliced have
`cap = len`, so a slice is the list of its elements.
-/

namespace TunUdp

/-! ## Data model (lines 15-47) -/

/-- One byte of packet data. -/
abbrev Byte := Nat

/-- Constant `mtu` (line 18). -/
def mtu : Nat := 1500

/-- Capacity of `tunReadChan` and of `udpReadChan` (lines 46-47). -/
def chanCap : Nat := 1000

/-- Number of messages of one batch, `make([]ipv4.Message, 25)` (line 60). -/
def batchLen : Nat := 25

/-- Struct `DataPacket` (lines 29-32). -/
structure DataPacket where
  data : List Byte
  packetLen : Int
  deriving DecidableEq, Repr

/-- Struct `ipv4.Message` (= `socket.Message`) of golang.org/x/net: the payload
buffers, the out-of-band buffer, and the fields a batched read fills in.  The
sender address is not read by the program and is left out. -/
structure Message where
  Buffers : List (List Byte)
  OOB : List Byte
  N : Int
  NN : Int
  Flags : Int
  deriving DecidableEq, Repr

/-- Struct `SocketMessages` (lines 34-37). -/
structure SocketMessages where
  messages : List Message
  msgCount : Int
  deriving DecidableEq, Repr

/-! ## Go slice primitives -/

/-- Slice expression `s[:n]` on a slice with `cap = len`: `none` is the
run-time panic "slice bounds out of range". -/
def sliceTo {α : Type} (s : List α) (n : Int) : Option (List α) :=
  if 0 ≤ n ∧ n ≤ (s.length : Int) then some (s.take n.toNat) else none

/-- Builtin `copy(dst, src)`: overwrites the first `min(len dst, len src)`
elements of `dst`; the result is the new contents of `dst`. -/
def goCopy {α : Type} (dst src : List α) : List α :=
  src.take dst.length ++ dst.drop src.length

/-! ## Pools (lines 49-91) -/

/-- The `New` function of `packetPool` (line 52). -/
def newDataPacket : DataPacket :=
  { data := List.replicate mtu 0, packetLen := 0 }

/-- Zero value of `ipv4.Message`, the elements of `make([]ipv4.Message, 25)`. -/
def zeroMessage : Message :=
  { Buffers := [], OOB := [], N := 0, NN := 0, Flags := 0 }

/-- The message literal of lines 62-65. -/
def newMessage : Message :=
  { Buffers := [List.replicate mtu 0], OOB := List.replicate 10 0, N := 0, NN := 0, Flags := 0 }

/-- The `New` function of `messagesPool` (lines 59-68): allocate 25 zero
messages, then the loop `for i := 0; i < len(ms); i++` assigns each slot. -/
def newSocketMessages : SocketMessages :=
  let ms := List.replicate batchLen zeroMessage
  { messages := (List.range ms.length).foldl (fun acc i => acc.set i newMessage) ms
    msgCount := 0 }

/-! ## Goroutines -/

/-- Program counter of the goroutine of `runTunReadThread` (lines 95-106).
The buffer `packet` (line 95) is kept in the state. -/
inductive TunReadPC where
  /-- at line 97, `tunInterface.Read(packet)` -/
  | read
  /-- at line 98, `if err != nil`; `err` set means `err != nil` -/
  | check (plen : Int) (err : Bool)
  /-- at line 101, `getDataPacket()` -/
  | get (plen : Int)
  /-- at line 102, `copy(dataPacket.data, packet[:plen])` -/
  | fill (plen : Int) (dataPacket : Nat)
  /-- at line 103, `dataPacket.packetLen = plen` -/
  | setLen (plen : Int) (dataPacket : Nat)
  /-- at line 104, `tunReadChan <- dataPacket` -/
  | push (dataPacket : Nat)
  deriving DecidableEq, Repr

/-- Program counter of the goroutine of `runUDPWriteThread` (lines 192-199). -/
inductive UdpWritePC where
  /-- at line 192, receiving from `tunReadChan` -/
  | pop
  /-- at line 193, `udpWriterConn.WriteTo(pkt.data[:pkt.packetLen], addr)` -/
  | send (pkt : Nat)
  /-- at line 194, `putDataPacket(pkt)`; `err` set means `err != nil` -/
  | put (pkt : Nat) (err : Bool)
  /-- at line 195, `if err != nil` -/
  | check (err : Bool)
  deriving DecidableEq, Repr

/-- Program counter of the goroutine of `runUDPReadThread` (lines 172-181). -/
inductive UdpReadPC where
  /-- at line 173, `getSocketMessages()` -/
  | get
  /-- at line 174, `udpListenConn.ReadBatch(ms.messages, ...)` -/
  | recv (ms : Nat)
  /-- at line 175, `if err != nil`; `err` set means `err != nil` -/
  | check (ms : Nat) (msgCount : Int) (err : Bool)
  /-- at line 178, `ms.msgCount = msgCount` -/
  | setCount (ms : Nat) (msgCount : Int)
  /-- at line 179, `udpReadChan <- ms` -/
  | push (ms : Nat)
  deriving DecidableEq, Repr

/-- Program counter of the goroutine of `runTunWriteThread` (lines 112-124). -/
inductive TunWritePC where
  /-- at line 112, receiving from `udpReadChan` -/
  | pop
  /-- at line 113, the loop test `i < ms.msgCount`, followed by lines 114-117 -/
  | loop (ms : Nat) (i : Nat)
  /-- at line 118, `tunInterface.Write(ms.messages[i].Buffers[0][:plen])` -/
  | write (ms : Nat) (i : Nat) (plen : Int)
  /-- at line 119, `if err != nil`; `err` set means `err != nil` -/
  | check (ms : Nat) (i : Nat) (err : Bool)
  deriving DecidableEq, Repr

/-- Why the process stopped: one of the four `log.Fatal` calls of the
goroutines, or a Go run-time panic. -/
inductive Halt where
  | fatalTunRead
  | fatalTunWrite
  | fatalUdpRead
  | fatalUdpWrite
  | panic
  deriving DecidableEq, Repr

/-- A call of `udpWriterConn.WriteTo` as issued: its arguments and whether it
returned an error. -/
structure SendCall where
  payload : List Byte
  addr : String
  failed : Bool
  deriving DecidableEq, Repr

/-- A call of `tunInterface.Write` as issued: its argument and whether it
returned an error. -/
structure WriteCall where
  payload : List Byte
  failed : Bool
  deriving DecidableEq, Repr

/-- State of the process.  The last four fields are observation logs of the
I/O performed; no statement reads them. -/
structure State where
  /-- the resolved peer address `addr` (line 186) -/
  addr : String
  /-- heap of `DataPacket` objects; a `*DataPacket` is an index -/
  packetHeap : List DataPacket
  /-- heap of `SocketMessages` objects; a `*SocketMessages` is an index -/
  batchHeap : List SocketMessages
  /-- objects held by `packetPool` -/
  packetPool : List Nat
  /-- objects held by `messagesPool` -/
  messagesPool : List Nat
  /-- contents of the channel `tunReadChan`, oldest first -/
  tunReadChan : List Nat
  /-- contents of the channel `udpReadChan`, oldest first -/
  udpReadChan : List Nat
  /-- the buffer `packet` of line 95 -/
  packet : List Byte
  tunReader : TunReadPC
  udpWriter : UdpWritePC
  udpReader : UdpReadPC
  tunWriter : TunWritePC
  halted : Option Halt
  /-- `packet[:plen]` of every device read that returned no error -/
  tunReads : List (List Byte)
  /-- every `WriteTo` call issued -/
  udpSends : List SendCall
  /-- the first `msgCount` messages of every batched read that returned no error -/
  udpRecvs : List Message
  /-- every device `Write` call issued -/
  tunWrites : List WriteCall
  deriving DecidableEq, Repr

/-- State after `main` has started the four goroutines: empty pools and
channels, every goroutine at the top of its loop. -/
def init (addr : String) : State :=
  { addr := addr
    packetHeap := []
    batchHeap := []
    packetPool := []
    messagesPool := []
    tunReadChan := []
    udpReadChan := []
    packet := List.replicate mtu 0
    tunReader := .read
    udpWriter := .pop
    udpReader := .get
    tunWriter := .pop
    halted := none
    tunReads := []
    udpSends := []
    udpRecvs := []
    tunWrites := [] }

/-- What the environment or the scheduler contributes to a step of the
goroutine of `runTunReadThread`. -/
inductive TunReadAct where
  /-- `Read` returns: the new contents of `packet`, `plen`, and `err != nil` -/
  | read (buf : List Byte) (plen : Int) (err : Bool)
  /-- `packetPool.Get()`: `none` calls `New`, `some p` hands out pooled `p` -/
  | get (reuse : Option Nat)
  /-- a statement without input -/
  | run
  deriving DecidableEq, Repr

/-- Input of a step of the goroutine of `runUDPWriteThread`. -/
inductive UdpWriteAct where
  /-- `WriteTo` returns, with `err != nil` or not -/
  | send (err : Bool)
  | run
  deriving DecidableEq, Repr

/-- Input of a step of the goroutine of `runUDPReadThread`. -/
inductive UdpReadAct where
  /-- `messagesPool.Get()` -/
  | get (reuse : Option Nat)
  /-- `ReadBatch` returns: the new contents of `ms.messages`, the count, `err != nil` -/
  | recv (msgs : List Message) (msgCount : Int) (err : Bool)
  | run
  deriving DecidableEq, Repr

/-- Input of a step of the goroutine of `runTunWriteThread`. -/
inductive TunWriteAct where
  /-- `Write` returns, with `err != nil` or not -/
  | write (err : Bool)
  | run
  deriving DecidableEq, Repr

/-- One step of one goroutine. -/
inductive Action where
  | tunReader (a : TunReadAct)
  | udpWriter (a : UdpWriteAct)
  | udpReader (a : UdpReadAct)
  | tunWriter (a : TunWriteAct)
  deriving DecidableEq, Repr

/-- The process stops. -/
def State.halt (s : State) (h : Halt) : State := { s with halted := some h }

/-- `getDataPacket` (lines 77-79), `packetPool.Get()`: with `reuse = none` the
pool calls `New` and the fresh packet gets the next address; with
`reuse = some p` it hands out and removes the pooled packet `p`, which it can
only do when it holds `p`.  Returns the address and the new state. -/
def getDataPacket (reuse : Option Nat) (s : State) : Option (Nat × State) :=
  match reuse with
  | none =>
    some (s.packetHeap.length, { s with packetHeap := s.packetHeap ++ [newDataPacket] })
  | some p =>
    if p ∈ s.packetPool then some (p, { s with packetPool := s.packetPool.erase p })
    else none

/-- `putDataPacket` (lines 81-83), `packetPool.Put(p)`. -/
def putDataPacket (p : Nat) (s : State) : State :=
  { s with packetPool := p :: s.packetPool }

/-- `getSocketMessages` (lines 85-87), `messagesPool.Get()`. -/
def getSocketMessages (reuse : Option Nat) (s : State) : Option (Nat × State) :=
  match reuse with
  | none =>
    some (s.batchHeap.length, { s with batchHeap := s.batchHeap ++ [newSocketMessages] })
  | some p =>
    if p ∈ s.messagesPool then some (p, { s with messagesPool := s.messagesPool.erase p })
    else none

/-- `putSocketMessages` (lines 89-91), `messagesPool.Put(p)`.  No function of
the program calls it. -/
def putSocketMessages (p : Nat) (s : State) : State :=
  { s with messagesPool := p :: s.messagesPool }

/-- What a callee may not change of a message it is handed: the lengths of
its buffers. -/
def shapeOf (m : Message) : List Nat × Nat := (m.Buffers.map List.length, m.OOB.length)

/-- The goroutine of `runTunReadThread`, one statement (lines 97-104).  The
call of `Read` and the test of its error are two statements: between them the
other goroutines run.
`none`: the goroutine is not at a statement taking this input, or it is
blocked. -/
def runTunReadThread (a : TunReadAct) (s : State) : Option State :=
  match s.tunReader, a with
  | .read, .read buf plen err =>
    -- `Read` writes into `packet`; it cannot change its length
    if buf.length ≠ s.packet.length then none
    else
      some { s with packet := buf, tunReader := .check plen err,
                    tunReads := if err then s.tunReads
                                else s.tunReads ++ [buf.take plen.toNat] }
  | .check plen err, .run =>
    if err then some (s.halt .fatalTunRead)
    else some { s with tunReader := .get plen }
  | .get plen, .get reuse =>
    match getDataPacket reuse s with
    | some (dp, s1) => some { s1 with tunReader := .fill plen dp }
    | none => none
  | .fill plen dp, .run =>
    match sliceTo s.packet plen, s.packetHeap[dp]? with
    | some src, some p =>
      some { s with packetHeap := s.packetHeap.set dp { p with data := goCopy p.data src },
                    tunReader := .setLen plen dp }
    | _, _ => some (s.halt .panic)
  | .setLen plen dp, .run =>
    match s.packetHeap[dp]? with
    | some p =>
      some { s with packetHeap := s.packetHeap.set dp { p with packetLen := plen },
                    tunReader := .push dp }
    | none => some (s.halt .panic)
  | .push dp, .run =>
    if s.tunReadChan.length < chanCap then
      some { s with tunReadChan := s.tunReadChan ++ [dp], tunReader := .read }
    else none
  | _, _ => none

/-- The argument `pkt.data[:pkt.packetLen]` of line 193; `none` is a panic. -/
def sendPayload (heap : List DataPacket) (pkt : Nat) : Option (List Byte) :=
  match heap[pkt]? with
  | some p => sliceTo p.data p.packetLen
  | none => none

/-- The goroutine of `runUDPWriteThread`, one statement (lines 192-197); the
address is resolved (lines 186-189) before the goroutine starts. -/
def runUDPWriteThread (a : UdpWriteAct) (s : State) : Option State :=
  match s.udpWriter, a with
  | .pop, .run =>
    match s.tunReadChan with
    | [] => none
    | pkt :: rest => some { s with tunReadChan := rest, udpWriter := .send pkt }
  | .send pkt, .send err =>
    match sendPayload s.packetHeap pkt with
    | some payload =>
      some { s with udpSends := s.udpSends ++ [⟨payload, s.addr, err⟩],
                    udpWriter := .put pkt err }
    | none => some (s.halt .panic)
  | .put pkt err, .run =>
    some { putDataPacket pkt s with udpWriter := .check err }
  | .check err, .run =>
    if err then some (s.halt .fatalUdpWrite)
    else some { s with udpWriter := .pop }
  | _, _ => none

/-- The goroutine of `runUDPReadThread`, one statement (lines 173-179).  The
call of `ReadBatch` and the test of its error are two statements. -/
def runUDPReadThread (a : UdpReadAct) (s : State) : Option State :=
  match s.udpReader, a with
  | .get, .get reuse =>
    match getSocketMessages reuse s with
    | some (ms, s1) => some { s1 with udpReader := .recv ms }
    | none => none
  | .recv ms, .recv msgs msgCount err =>
    match s.batchHeap[ms]? with
    | some b =>
      -- `ReadBatch` writes into the messages; it cannot change a buffer length
      if msgs.map shapeOf ≠ b.messages.map shapeOf then none
      else
        some { s with batchHeap := s.batchHeap.set ms { b with messages := msgs },
                      udpReader := .check ms msgCount err,
                      udpRecvs := if err then s.udpRecvs
                                  else s.udpRecvs ++ msgs.take msgCount.toNat }
    | none => some (s.halt .panic)
  | .check ms msgCount err, .run =>
    if err then some (s.halt .fatalUdpRead)
    else some { s with udpReader := .setCount ms msgCount }
  | .setCount ms msgCount, .run =>
    match s.batchHeap[ms]? with
    | some b =>
      some { s with batchHeap := s.batchHeap.set ms { b with msgCount := msgCount },
                    udpReader := .push ms }
    | none => some (s.halt .panic)
  | .push ms, .run =>
    if s.udpReadChan.length < chanCap then
      some { s with udpReadChan := s.udpReadChan ++ [ms], udpReader := .get }
    else none
  | _, _ => none

/-- The argument `ms.messages[i].Buffers[0][:plen]` of line 118; `none` is a
panic. -/
def writePayload (heap : List SocketMessages) (ms i : Nat) (plen : Int) :
    Option (List Byte) :=
  match heap[ms]? with
  | some b =>
    match b.messages[i]? with
    | some m =>
      match m.Buffers[0]? with
      | some buf => sliceTo buf plen
      | none => none
    | none => none
  | none => none

/-- The goroutine of `runTunWriteThread`, one statement (lines 112-121).  When
the loop of line 113 ends the goroutine goes back to the channel receive: the
source has no call of `putSocketMessages` here. -/
def runTunWriteThread (a : TunWriteAct) (s : State) : Option State :=
  match s.tunWriter, a with
  | .pop, .run =>
    match s.udpReadChan with
    | [] => none
    | ms :: rest => some { s with udpReadChan := rest, tunWriter := .loop ms 0 }
  | .loop ms i, .run =>
    match s.batchHeap[ms]? with
    | some b =>
      if (i : Int) < b.msgCount then
        match b.messages[i]? with
        | some m =>
          if m.N = 0 then some { s with tunWriter := .loop ms (i + 1) }
          else some { s with tunWriter := .write ms i m.N }
        | none => some (s.halt .panic)
      else some { s with tunWriter := .pop }
    | none => some (s.halt .panic)
  | .write ms i plen, .write err =>
    match writePayload s.batchHeap ms i plen with
    | some payload =>
      some { s with tunWrites := s.tunWrites ++ [⟨payload, err⟩],
                    tunWriter := .check ms i err }
    | none => some (s.halt .panic)
  | .check ms i err, .run =>
    if err then some (s.halt .fatalTunWrite)
    else some { s with tunWriter := .loop ms (i + 1) }
  | _, _ => none

/-- One step of the process; `none` when the action is not enabled.  Nothing
runs once the process has stopped. -/
def step (a : Action) (s : State) : Option State :=
  if s.halted.isSome then none
  else
    match a with
    | .tunReader x => runTunReadThread x s
    | .udpWriter x => runUDPWriteThread x s
    | .udpReader x => runUDPReadThread x s
    | .tunWriter x => runTunWriteThread x s

/-- A schedule slot: the action runs when it is enabled, and otherwise nothing
happens. -/
def next (s : State) (a : Action) : State := (step a s).getD s

/-- Run a schedule. -/
def exec (acts : List Action) (s : State) : State := acts.foldl next s

/-! ## Auxiliary definitions: ownership, pending data, invariants, schedules -/

/-- The packet the reading goroutine holds. -/
def heldTunReader : TunReadPC → List Nat
  | .fill _ dp => [dp]
  | .setLen _ dp => [dp]
  | .push dp => [dp]
  | _ => []

/-- The packet the sending goroutine holds. -/
def heldUdpWriter : UdpWritePC → List Nat
  | .send pkt => [pkt]
  | .put pkt _ => [pkt]
  | _ => []

/-- How many owners packet `id` has: the pool, the channel, the two goroutines. -/
def ownersP (s : State) (id : Nat) : Nat :=
  s.packetPool.count id + s.tunReadChan.count id +
    (heldTunReader s.tunReader).count id + (heldUdpWriter s.udpWriter).count id

/-- Payload `data[:packetLen]` of the packet at address `id`. -/
def payloadAt (heap : List DataPacket) (id : Nat) : List Byte :=
  match heap[id]? with
  | some p => p.data.take p.packetLen.toNat
  | none => []

/-- The packet read from the device that the reading goroutine has not yet
put on the channel. -/
def pendingTunReader (pc : TunReadPC) (packet : List Byte) (heap : List DataPacket) :
    List (List Byte) :=
  match pc with
  | .read => []
  | .check plen err => if err then [] else [packet.take plen.toNat]
  | .get plen => [packet.take plen.toNat]
  | .fill plen _ => [packet.take plen.toNat]
  | .setLen plen _ => [packet.take plen.toNat]
  | .push dp => [payloadAt heap dp]

/-- The packet the sending goroutine has taken from the channel and not yet
sent. -/
def pendingUdpWriter (pc : UdpWritePC) (heap : List DataPacket) : List (List Byte) :=
  match pc with
  | .send pkt => [payloadAt heap pkt]
  | _ => []

/-- Packets read from the device and not yet handed to `WriteTo`, oldest first. -/
def pendingP (s : State) : List (List Byte) :=
  pendingUdpWriter s.udpWriter s.packetHeap ++ s.tunReadChan.map (payloadAt s.packetHeap) ++
    pendingTunReader s.tunReader s.packet s.packetHeap

/-- Invariant of the device-to-socket direction. -/
structure InvP (s : State) : Prop where
  packet_len : s.packet.length = mtu
  heap_ok : ∀ p ∈ s.packetHeap,
    p.data.length = mtu ∧ 0 ≤ p.packetLen ∧ p.packetLen ≤ (mtu : Int)
  own : ∀ id, ownersP s id ≤ 1 ∧ (s.packetHeap.length ≤ id → ownersP s id = 0)
  at_setLen : ∀ plen dp, s.tunReader = .setLen plen dp →
    0 ≤ plen ∧ plen ≤ (mtu : Int) ∧
      ∃ p, s.packetHeap[dp]? = some p ∧ p.data.take plen.toNat = s.packet.take plen.toNat
  content : s.udpSends.map (fun c => c.payload) ++ pendingP s = s.tunReads
  addr_ok : ∀ c ∈ s.udpSends, c.addr = s.addr

/-- The batch the receiving goroutine holds. -/
def heldUdpReader : UdpReadPC → List Nat
  | .recv ms => [ms]
  | .check ms _ _ => [ms]
  | .setCount ms _ => [ms]
  | .push ms => [ms]
  | _ => []

/-- The batch the device-writing goroutine holds. -/
def heldTunWriter : TunWritePC → List Nat
  | .loop ms _ => [ms]
  | .write ms _ _ => [ms]
  | .check ms _ _ => [ms]
  | _ => []

/-- How many owners batch `id` has. -/
def ownersB (s : State) (id : Nat) : Nat :=
  s.messagesPool.count id + s.udpReadChan.count id +
    (heldUdpReader s.udpReader).count id + (heldTunWriter s.tunWriter).count id

/-- The datagram a message holds: the first `N` bytes of its payload buffer,
`Buffers[0][:N]`. -/
def payloadOf (m : Message) : List Byte := (m.Buffers[0]?.getD []).take m.N.toNat

/-- The payloads of the messages with a non-zero length, in order. -/
def toWrite (msgs : List Message) : List (List Byte) :=
  (msgs.filter (fun m => decide (m.N ≠ 0))).map payloadOf

/-- The messages of the batch at address `id`. -/
def messagesAt (heap : List SocketMessages) (id : Nat) : List Message :=
  match heap[id]? with
  | some b => b.messages
  | none => []

/-- The first `msgCount` messages of the batch at address `id`. -/
def validAt (heap : List SocketMessages) (id : Nat) : List Message :=
  match heap[id]? with
  | some b => b.messages.take b.msgCount.toNat
  | none => []

/-- Datagrams of the batch the device-writing goroutine holds that it has yet
to write. -/
def pendingTunWriter (pc : TunWritePC) (heap : List SocketMessages) : List (List Byte) :=
  match pc with
  | .pop => []
  | .loop ms i => toWrite ((validAt heap ms).drop i)
  | .write ms i _ => toWrite ((validAt heap ms).drop i)
  | .check ms i _ => toWrite ((validAt heap ms).drop (i + 1))

/-- Datagrams received by the receiving goroutine and not yet on the channel. -/
def pendingUdpReader (pc : UdpReadPC) (heap : List SocketMessages) : List (List Byte) :=
  match pc with
  | .check ms msgCount err =>
    if err then [] else toWrite ((messagesAt heap ms).take msgCount.toNat)
  | .setCount ms msgCount => toWrite ((messagesAt heap ms).take msgCount.toNat)
  | .push ms => toWrite (validAt heap ms)
  | _ => []

/-- Non-empty datagrams received and not yet handed to the device `Write`,
oldest first. -/
def pendingB (s : State) : List (List Byte) :=
  pendingTunWriter s.tunWriter s.batchHeap ++
    s.udpReadChan.flatMap (fun id => toWrite (validAt s.batchHeap id)) ++
    pendingUdpReader s.udpReader s.batchHeap

/-- Shape of a batch of the pool: 25 messages, each with one payload buffer
of `mtu` bytes and 10 bytes of out-of-band space. -/
def batchShape : List (List Nat × Nat) := List.replicate batchLen ([mtu], 10)

/-- Invariant of the socket-to-device direction. -/
structure InvB (s : State) : Prop where
  heap_ok : ∀ b ∈ s.batchHeap, b.messages.map shapeOf = batchShape
  own : ∀ id, ownersB s id ≤ 1 ∧ (s.batchHeap.length ≤ id → ownersB s id = 0)
  at_write : ∀ ms i plen, s.tunWriter = .write ms i plen →
    ∃ b m, s.batchHeap[ms]? = some b ∧ (i : Int) < b.msgCount ∧ b.messages[i]? = some m ∧
      m.N = plen ∧ plen ≠ 0
  content : s.tunWrites.map (fun c => c.payload) ++ pendingB s = toWrite s.udpRecvs

/-- The two states agree on everything the socket-to-device direction uses. -/
def sameB (s t : State) : Prop :=
  t.batchHeap = s.batchHeap ∧ t.messagesPool = s.messagesPool ∧
    t.udpReadChan = s.udpReadChan ∧ t.udpReader = s.udpReader ∧ t.tunWriter = s.tunWriter ∧
    t.tunWrites = s.tunWrites ∧ t.udpRecvs = s.udpRecvs

/-- The two states agree on everything the device-to-socket direction uses. -/
def sameP (s t : State) : Prop :=
  t.packetHeap = s.packetHeap ∧ t.packetPool = s.packetPool ∧
    t.tunReadChan = s.tunReadChan ∧ t.packet = s.packet ∧ t.tunReader = s.tunReader ∧
    t.udpWriter = s.udpWriter ∧ t.tunReads = s.tunReads ∧ t.udpSends = s.udpSends ∧
    t.addr = s.addr

/-- The invariant of the pipeline: both directions. -/
def Inv (s : State) : Prop := InvP s ∧ InvB s

/-- The goroutine of `runTunWriteThread` runs on its own, every device `Write`
succeeding, until it is back at the channel receive of line 112 (at most `n`
statements). -/
def drainBatch : Nat → State → State
  | 0, s => s
  | n + 1, s =>
    match s.tunWriter with
    | .pop => s
    | .write _ _ _ => drainBatch n (next s (.tunWriter (.write false)))
    | _ => drainBatch n (next s (.tunWriter .run))

/-- The `Write` calls, all successful, that hand over the given payloads. -/
def writeCalls (payloads : List (List Byte)) : List WriteCall :=
  payloads.map (fun p => { payload := p, failed := false })

/-- A message as `ReadBatch` leaves it after receiving a datagram of `n` bytes
`7`. -/
def recvMessage (n : Nat) : Message :=
  { newMessage with Buffers := [List.replicate n 7 ++ List.replicate (mtu - n) 0], N := n }

/-- A batch after `ReadBatch` returned 3 with lengths 50, 0 and 80. -/
def batch3 : List Message :=
  [recvMessage 50, recvMessage 0, recvMessage 80] ++ List.replicate 22 newMessage

/-- The receiver gets a fresh batch, receives `batch3` and sends it on the
channel; the device writer receives it from the channel. -/
def recvBatch3 : List Action :=
  [.udpReader (.get none), .udpReader (.recv batch3 3 false), .udpReader .run, .udpReader .run,
   .udpReader .run, .tunWriter .run]

/-- A batch after `ReadBatch` returned 1, with one datagram of 3 bytes. -/
def batch1 : List Message :=
  [recvMessage 3] ++ List.replicate 24 newMessage

/-- One batch goes through the socket-to-device direction: received, sent on
the channel, received from the channel, its datagram written to the device,
and the loop of lines 113-123 left. -/
def relayBatch1 : List Action :=
  [.udpReader (.get none), .udpReader (.recv batch1 1 false), .udpReader .run, .udpReader .run,
   .udpReader .run, .tunWriter .run, .tunWriter .run, .tunWriter (.write false),
   .tunWriter .run, .tunWriter .run]

/-- The device reader reads a packet of 3 bytes `7` into a fresh buffer and
sends it on the channel. -/
def readPacket3 : List Action :=
  [.tunReader (.read (List.replicate 3 7 ++ List.replicate (mtu - 3) 0) 3 false), .tunReader .run,
   .tunReader (.get none), .tunReader .run, .tunReader .run, .tunReader .run]

/-- The packet of the run `readPacket3`: the 3 bytes copied over a fresh buffer. -/
def packet3 : DataPacket :=
  { data := goCopy newDataPacket.data (List.replicate 3 7), packetLen := 3 }

/-- One iteration of the loop of `runTunReadThread` (lines 97-104) in which
the pool hands out the pooled packet `dp`. -/
def readerIteration (buf : List Byte) (plen : Int) (dp : Nat) : List Action :=
  [.tunReader (.read buf plen false), .tunReader .run, .tunReader (.get (some dp)), .tunReader .run,
   .tunReader .run, .tunReader .run]

/-- A packet went through the device-to-socket direction and is back in the
pool. -/
def relayPacket3 : List Action :=
  readPacket3 ++ [.udpWriter .run, .udpWriter (.send false), .udpWriter .run, .udpWriter .run]

/-- The sending goroutine has received the packet of `readPacket3` from the
channel and is about to call `WriteTo`. -/
def beforeSend : State := exec (readPacket3 ++ [.udpWriter .run]) (init "peer")

/-- The device-writing goroutine has received `batch1` from the channel and is
about to call `Write` on slot 0. -/
def beforeWrite : State :=
  exec [.udpReader (.get none), .udpReader (.recv batch1 1 false), .udpReader .run,
    .udpReader .run, .udpReader .run, .tunWriter .run, .tunWriter .run] (init "peer")

/-- The device `Read` of the first iteration has returned an error. -/
def afterFailedRead : State :=
  next (init "peer") (.tunReader (.read (List.replicate mtu 0) 0 true))

/-- The batched receive of the first iteration has returned an error. -/
def afterFailedRecv : State :=
  next (exec [.udpReader (.get none)] (init "peer")) (.udpReader (.recv batch1 1 true))

/-- The schedule `drainBatch` runs: the statements of the device writer, every
`Write` succeeding, until it is back at the channel receive. -/
def drainActs : Nat → State → List Action
  | 0, _ => []
  | n + 1, s =>
    match s.tunWriter with
    | .pop => []
    | .write _ _ _ =>
      .tunWriter (.write false) :: drainActs n (next s (.tunWriter (.write false)))
    | _ => .tunWriter .run :: drainActs n (next s (.tunWriter .run))

/-- The receiver gets a fresh batch, `ReadBatch` fills it with `x.1` and
returns the count `x.2`, the batch goes through the channel to the device
writer. -/
def recvBatchActs (x : List Message × Int) : List Action :=
  [.udpReader (.get none), .udpReader (.recv x.1 x.2 false), .udpReader .run, .udpReader .run,
    .udpReader .run, .tunWriter .run]

/-- The schedule on which the socket-to-device direction relays one batch
while nothing else runs. -/
def relayBatchActs (x : List Message × Int) (s : State) : List Action :=
  recvBatchActs x ++ drainActs 76 (exec (recvBatchActs x) s)

/-- The schedule on which the socket-to-device direction relays a sequence of
batches one after the other. -/
def relayActs : List (List Message × Int) → State → List Action
  | [], _ => []
  | x :: rest, s => relayBatchActs x s ++ relayActs rest (exec (relayBatchActs x s) s)

/-- The batched-receive contract for one call: the messages keep the shape of
a pool batch, the count is at most 25, and the received lengths of the first
`count` messages are between 0 and `mtu`. -/
def recvContract (x : List Message × Int) : Prop :=
  x.1.map shapeOf = batchShape ∧ x.2 ≤ 25 ∧
    ∀ m ∈ x.1.take x.2.toNat, 0 ≤ m.N ∧ m.N ≤ (mtu : Int)

/-- The messages a sequence of batched receives delivers, in order. -/
def delivered (input : List (List Message × Int)) : List Message :=
  input.flatMap (fun x => x.1.take x.2.toNat)

/-- A batch after `ReadBatch` returned 1, the datagram received having length 0. -/
def batchEmpty : List Message :=
  [recvMessage 0] ++ List.replicate 24 newMessage

/-- A batch holding one zero-length datagram goes through the socket-to-device
direction, up to the device writer being back at the channel. -/
def relayEmptyDatagram : List Action :=
  [.udpReader (.get none), .udpReader (.recv batchEmpty 1 false), .udpReader .run, .udpReader .run,
   .udpReader .run, .tunWriter .run, .tunWriter .run, .tunWriter .run]

/-- The contents of the reader's buffer after the device read returned the
packet `P`: the packet, then zeroes. -/
def packetBuf (P : List Byte) : List Byte := P ++ List.replicate (mtu - P.length) 0

/-- The schedule on which the device-to-socket direction relays one packet
while nothing else runs: the device read returns `P`, the pool allocates a
packet, the packet goes through the channel, is sent successfully and released. -/
def relayPacketActs (P : List Byte) : List Action :=
  [.tunReader (.read (packetBuf P) P.length false), .tunReader .run, .tunReader (.get none),
   .tunReader .run, .tunReader .run, .tunReader .run, .udpWriter .run,
   .udpWriter (.send false), .udpWriter .run, .udpWriter .run]

/-- The schedule on which the device-to-socket direction relays a sequence of
packets one after the other. -/
def relayPacketsActs (packets : List (List Byte)) : List Action :=
  packets.flatMap relayPacketActs

/-- The `WriteTo` calls, all successful, that send the given payloads to `addr`. -/
def sendCalls (addr : String) (payloads : List (List Byte)) : List SendCall :=
  payloads.map (fun p => { payload := p, addr := addr, failed := false })

/-- The schedule on which the device-to-socket direction relays one packet
while nothing else runs, the pool handing out the pooled packet `dp`. -/
def reusePacketActs (P : List Byte) (dp : Nat) : List Action :=
  [.tunReader (.read (packetBuf P) P.length false), .tunReader .run, .tunReader (.get (some dp)),
   .tunReader .run, .tunReader .run, .tunReader .run, .udpWriter .run,
   .udpWriter (.send false), .udpWriter .run, .udpWriter .run]

/-- The schedule on which the device-to-socket direction relays a sequence of
packets one after the other with a single packet object: the pool allocates
it for the first packet and hands it out again for every later one. -/
def relayReusingActs : List (List Byte) → List Action
  | [] => []
  | P :: rest => relayPacketActs P ++ rest.flatMap (fun Q => reusePacketActs Q 0)

/-- The contracts of the two input calls, for one action: a device read that
succeeds returns a length between 0 and `mtu`; a batched receive that succeeds
returns a count of at most 25 and, in the first `msgCount` messages, received
lengths between 0 and `mtu`.  Every other action is unconstrained. -/
def actOK : Action → Bool
  | .tunReader (.read _ plen err) => err || decide (0 ≤ plen ∧ plen ≤ (mtu : Int))
  | .udpReader (.recv msgs msgCount err) =>
    err || (decide (msgCount ≤ 25) &&
      (msgs.take msgCount.toNat).all (fun m => decide (0 ≤ m.N ∧ m.N ≤ (mtu : Int))))
  | _ => true

/-- The batch at address `id`, if allocated, respects the batched-receive
contract. -/
def batchOK (heap : List SocketMessages) (id : Nat) : Prop :=
  ∀ b, heap[id]? = some b →
    b.msgCount ≤ 25 ∧
      ∀ m ∈ b.messages.take b.msgCount.toNat, 0 ≤ m.N ∧ m.N ≤ (mtu : Int)

/-- What holds in a run whose input calls respect their contracts: the lengths
and counts the goroutines are about to use are in range, and no goroutine has
panicked. -/
structure InvC (s : State) : Prop where
  get_ok : ∀ plen, (s.tunReader = .get plen ∨ s.tunReader = .check plen false) →
    0 ≤ plen ∧ plen ≤ (mtu : Int)
  fill_ok : ∀ plen dp, s.tunReader = .fill plen dp → 0 ≤ plen ∧ plen ≤ (mtu : Int)
  batch_ok : ∀ id, (id ∈ s.udpReadChan ∨ id ∈ heldTunWriter s.tunWriter ∨
    s.udpReader = .push id) → batchOK s.batchHeap id
  count_ok : ∀ ms msgCount,
    (s.udpReader = .setCount ms msgCount ∨ s.udpReader = .check ms msgCount false) →
    msgCount ≤ 25 ∧
      ∀ m ∈ (messagesAt s.batchHeap ms).take msgCount.toNat, 0 ≤ m.N ∧ m.N ≤ (mtu : Int)
  no_panic : s.halted ≠ some .panic

/-- One iteration of the device reader that reads an empty packet into a
fresh buffer and sends it on the channel. -/
def readEmptyActs : List Action :=
  [.tunReader (.read (List.replicate mtu 0) 0 false), .tunReader .run, .tunReader (.get none),
   .tunReader .run, .tunReader .run, .tunReader .run]

/-- The device reader runs `n` iterations while the sender does not run. -/
def fillTunReadChanActs : Nat → List Action
  | 0 => []
  | n + 1 => fillTunReadChanActs n ++ readEmptyActs

/-- The device reader puts `n` packets on `tunReadChan` and stops at its next
channel send. -/
def blockTunReaderActs (n : Nat) : List Action :=
  fillTunReadChanActs n ++
    [.tunReader (.read (List.replicate mtu 0) 0 false), .tunReader .run, .tunReader (.get none),
     .tunReader .run, .tunReader .run]

/-- One iteration of the socket receiver whose batched receive returns count 0
and leaves the messages as they are. -/
def recvNothingActs : List Action :=
  [.udpReader (.get none), .udpReader (.recv newSocketMessages.messages 0 false), .udpReader .run,
   .udpReader .run, .udpReader .run]

/-- The socket receiver runs `n` iterations while the device writer does not
run. -/
def fillUdpReadChanActs : Nat → List Action
  | 0 => []
  | n + 1 => fillUdpReadChanActs n ++ recvNothingActs

/-- The socket receiver puts `n` batches on `udpReadChan` and stops at its
next channel send. -/
def blockUdpReaderActs (n : Nat) : List Action :=
  fillUdpReadChanActs n ++
    [.udpReader (.get none), .udpReader (.recv newSocketMessages.messages 0 false), .udpReader .run,
     .udpReader .run]

/-- A state of a run whose input calls respect their contracts, the process
still running. -/
structure Good (s : State) : Prop where
  inv : Inv s
  invc : InvC s
  live : s.halted = none

/-- The sender has not had a failed `WriteTo`. -/
def senderOK (s : State) : Prop :=
  (∀ pkt, s.udpWriter ≠ .put pkt true) ∧ s.udpWriter ≠ .check true

/-- The device writer has not had a failed `Write`. -/
def writerOK (s : State) : Prop := ∀ ms i, s.tunWriter ≠ .check ms i true

/-- How far the device writer is with the batch at address `ms`: the number of
slots it is done with (skipped, or handed to `Write`); `none` when it is not
processing that batch. -/
def slotsDone (ms : Nat) : TunWritePC → Option Nat
  | .pop => none
  | .loop m i => if m = ms then some i else none
  | .write m i _ => if m = ms then some i else none
  | .check m i _ => if m = ms then some (i + 1) else none

/-- What holds from the moment the device writer has received the batch `b`
at address `ms`, the payloads written before being `before`: while it
processes the batch, the batch is as received and the payloads written are
`before` followed by the non-empty datagrams of the slots done; afterwards
nothing owns the batch and the payloads written are `before`, then the
non-empty datagrams of the first `msgCount` slots, then later writes. -/
structure BatchRun (before : List (List Byte)) (ms : Nat) (b : SocketMessages) (t : State) :
    Prop where
  lt : ms < t.batchHeap.length
  busy : ∀ k, slotsDone ms t.tunWriter = some k →
    k ≤ b.msgCount.toNat ∧ t.batchHeap[ms]? = some b ∧
      t.tunWrites.map (fun c => c.payload) =
        before ++ toWrite ((b.messages.take b.msgCount.toNat).take k)
  finished : slotsDone ms t.tunWriter = none →
    ownersB t ms = 0 ∧
      ∃ later, t.tunWrites.map (fun c => c.payload) =
        before ++ toWrite (b.messages.take b.msgCount.toNat) ++ later

/-- A schedule that continues `recvBatch3`: the device writer processes slot 0
of the batch while the socket receiver gets a second batch and receives
`batch1` into it, and the device reader and the sender relay a packet. -/
def interleaved3 : List Action :=
  [.tunWriter .run, .udpReader (.get none), .udpReader (.recv batch1 1 false)] ++
    readPacket3 ++ [.tunWriter (.write false), .udpReader .run, .udpWriter .run]

/-- A schedule that continues `relayPacket3`: the device reader reads the
packet `[1, 2]` into the pooled packet 0 while the socket receiver gets a
batch, then the sender takes the packet from the channel and sends it. -/
def reuseAndSend : List Action :=
  [.tunReader (.read ([1, 2] ++ List.replicate (mtu - 2) 0) 2 false), .tunReader .run,
   .udpReader (.get none), .tunReader (.get (some 0)), .tunReader .run,
   .udpReader (.recv batch1 1 false), .tunReader .run, .tunReader .run, .udpWriter .run,
   .udpReader .run, .udpWriter (.send false)]

/-! ## Theorems -/

theorem sliceTo_eq_some {α : Type} {s r : List α} {n : Int} :
    sliceTo s n = some r ↔ 0 ≤ n ∧ n ≤ (s.length : Int) ∧ r = s.take n.toNat := by
  unfold sliceTo
  split
  · rename_i h
    simp only [Option.some.injEq]
    constructor
    · intro e; exact ⟨h.1, h.2, e.symm⟩
    · intro e; exact e.2.2.symm
  · rename_i h
    constructor
    · intro e; cases e
    · intro e; exact absurd ⟨e.1, e.2.1⟩ h

theorem goCopy_length {α : Type} (dst src : List α) : (goCopy dst src).length = dst.length := by
  simp [goCopy]; omega

theorem goCopy_take {α : Type} (dst src : List α) (h : src.length ≤ dst.length) :
    (goCopy dst src).take src.length = src := by
  simp [goCopy, List.take_append_eq_append_take, List.take_of_length_le h]

/-- `getDataPacket` changes nothing but the packet heap and the packet pool. -/
theorem getDataPacket_eq {reuse : Option Nat} {s s1 : State} {dp : Nat}
    (h : getDataPacket reuse s = some (dp, s1)) :
    ∃ heap pool, s1 = { s with packetHeap := heap, packetPool := pool } := by
  cases reuse with
  | none =>
    simp only [getDataPacket, Option.some.injEq, Prod.mk.injEq] at h
    exact ⟨_, s.packetPool, h.2.symm⟩
  | some p =>
    by_cases hm : p ∈ s.packetPool
    · simp only [getDataPacket, hm, if_true, Option.some.injEq, Prod.mk.injEq] at h
      exact ⟨s.packetHeap, _, h.2.symm⟩
    · simp [getDataPacket, hm] at h

/-- `getSocketMessages` changes nothing but the batch heap and the batch pool. -/
theorem getSocketMessages_eq {reuse : Option Nat} {s s1 : State} {ms : Nat}
    (h : getSocketMessages reuse s = some (ms, s1)) :
    ∃ heap pool, s1 = { s with batchHeap := heap, messagesPool := pool } := by
  cases reuse with
  | none =>
    simp only [getSocketMessages, Option.some.injEq, Prod.mk.injEq] at h
    exact ⟨_, s.messagesPool, h.2.symm⟩
  | some p =>
    by_cases hm : p ∈ s.messagesPool
    · simp only [getSocketMessages, hm, if_true, Option.some.injEq, Prod.mk.injEq] at h
      exact ⟨s.batchHeap, _, h.2.symm⟩
    · simp [getSocketMessages, hm] at h

theorem payloadAt_set_ne (heap : List DataPacket) (dp id : Nat) (x : DataPacket) (h : id ≠ dp) :
    payloadAt (heap.set dp x) id = payloadAt heap id := by
  unfold payloadAt
  rw [List.getElem?_set_ne (Ne.symm h)]

theorem payloadAt_append (heap : List DataPacket) (x : DataPacket) (id : Nat)
    (h : id < heap.length) : payloadAt (heap ++ [x]) id = payloadAt heap id := by
  unfold payloadAt
  rw [List.getElem?_append_left h]

theorem map_payloadAt_congr (heap heap2 : List DataPacket) (l : List Nat)
    (h : ∀ id ∈ l, payloadAt heap2 id = payloadAt heap id) :
    l.map (payloadAt heap2) = l.map (payloadAt heap) :=
  List.map_congr_left h

theorem initInvP (addr : String) : InvP (init addr) := by
  constructor <;> simp [init, ownersP, heldTunReader, heldUdpWriter, pendingP, pendingUdpWriter,
    pendingTunReader]

theorem owned_lt {s : State} (hi : InvP s) {id : Nat} (h : 0 < ownersP s id) :
    id < s.packetHeap.length := by
  by_contra hcon
  have := (hi.own id).2 (by omega)
  omega

theorem chan_lt {s : State} (hi : InvP s) {id : Nat} (h : id ∈ s.tunReadChan) :
    id < s.packetHeap.length := by
  apply owned_lt hi
  have := List.count_pos_iff.mpr h
  unfold ownersP; omega

theorem heldUdpWriter_lt {s : State} (hi : InvP s) {id : Nat}
    (h : id ∈ heldUdpWriter s.udpWriter) : id < s.packetHeap.length := by
  apply owned_lt hi
  have := List.count_pos_iff.mpr h
  unfold ownersP; omega

theorem heldTunReader_lt {s : State} (hi : InvP s) {id : Nat}
    (h : id ∈ heldTunReader s.tunReader) : id < s.packetHeap.length := by
  apply owned_lt hi
  have := List.count_pos_iff.mpr h
  unfold ownersP; omega

theorem chan_ne_held {s : State} (hi : InvP s) {id dp : Nat} (h : id ∈ s.tunReadChan)
    (hd : dp ∈ heldTunReader s.tunReader) : id ≠ dp := by
  rintro rfl
  have h1 := List.count_pos_iff.mpr h
  have h2 := List.count_pos_iff.mpr hd
  have := (hi.own id).1
  unfold ownersP at this; omega

theorem heldUdpWriter_ne_held {s : State} (hi : InvP s) {id dp : Nat}
    (h : id ∈ heldUdpWriter s.udpWriter) (hd : dp ∈ heldTunReader s.tunReader) : id ≠ dp := by
  rintro rfl
  have h1 := List.count_pos_iff.mpr h
  have h2 := List.count_pos_iff.mpr hd
  have := (hi.own id).1
  unfold ownersP at this; omega

theorem pendingUdpWriter_congr (pc : UdpWritePC) (heap heap2 : List DataPacket)
    (h : ∀ id ∈ heldUdpWriter pc, payloadAt heap2 id = payloadAt heap id) :
    pendingUdpWriter pc heap2 = pendingUdpWriter pc heap := by
  cases pc <;> simp_all [pendingUdpWriter, heldUdpWriter]

/-- Changing the heap away from the packets the channel and the sender hold
leaves their pending payloads as they are. -/
theorem pending_frame (s : State) (heap2 : List DataPacket)
    (h : ∀ id, id ∈ s.tunReadChan ∨ id ∈ heldUdpWriter s.udpWriter →
      payloadAt heap2 id = payloadAt s.packetHeap id) :
    pendingUdpWriter s.udpWriter heap2 ++ s.tunReadChan.map (payloadAt heap2) =
      pendingUdpWriter s.udpWriter s.packetHeap ++ s.tunReadChan.map (payloadAt s.packetHeap) := by
  rw [pendingUdpWriter_congr _ _ _ (fun id hid => h id (Or.inr hid)),
    map_payloadAt_congr _ _ _ (fun id hid => h id (Or.inl hid))]

theorem invP_runTunReadThread {a : TunReadAct} {s t : State}
    (h : runTunReadThread a s = some t) (hi : InvP s) : InvP t := by
  unfold runTunReadThread at h
  split at h
  · -- line 97: Read
    rename_i buf plen err hpc
    split at h
    · cases h
    rename_i hlen
    have hlen2 : buf.length = mtu := (Decidable.not_not.mp hlen).trans hi.packet_len
    cases h
    refine ⟨hlen2, hi.heap_ok, ?_, ?_, ?_, hi.addr_ok⟩
    · intro id; have := hi.own id
      simpa [ownersP, hpc, heldTunReader] using this
    · intro plen dp hh; simp at hh
    · have := hi.content
      simp only [pendingP, pendingTunReader, hpc] at this ⊢
      cases err
      · rw [← this]; simp
      · simpa using this
  · -- line 98: if err != nil
    rename_i plen err hpc
    split at h
    · rename_i herr
      cases h
      refine ⟨hi.packet_len, hi.heap_ok, ?_, ?_, ?_, hi.addr_ok⟩
      · intro id; have := hi.own id
        simpa [State.halt, ownersP] using this
      · intro plen dp hh; simp [State.halt, hpc] at hh
      · have := hi.content
        simpa [State.halt, pendingP] using this
    · rename_i herr
      cases h
      refine ⟨hi.packet_len, hi.heap_ok, ?_, ?_, ?_, hi.addr_ok⟩
      · intro id; have := hi.own id
        simpa [ownersP, hpc, heldTunReader] using this
      · intro plen dp hh; simp at hh
      · have := hi.content
        simpa [pendingP, pendingTunReader, hpc, herr] using this
  · -- getDataPacket
    rename_i plen reuse hpc
    cases reuse with
    | none =>
      simp only [getDataPacket] at h
      cases h
      refine ⟨hi.packet_len, ?_, ?_, ?_, ?_, hi.addr_ok⟩
      · intro p hp
        simp only [List.mem_append, List.mem_singleton] at hp
        rcases hp with hp | rfl
        · exact hi.heap_ok p hp
        · simp [newDataPacket]
      · intro id; have := hi.own id
        simp only [ownersP, hpc, heldTunReader, List.count_nil, List.length_append,
          List.length_singleton, List.count_singleton] at this ⊢
        by_cases e : s.packetHeap.length = id
        · subst e; simp at this ⊢; omega
        · have e2 : (s.packetHeap.length == id) = false := by simpa using e
          simp only [e2]; simp; omega
      · intro plen dp hh; simp at hh
      · have := hi.content
        simp only [pendingP, pendingTunReader, hpc] at this ⊢
        rw [← this, pending_frame s]
        intro id hid
        apply payloadAt_append
        rcases hid with hid | hid
        · exact chan_lt hi hid
        · exact heldUdpWriter_lt hi hid
    | some p =>
      by_cases hmem : p ∈ s.packetPool
      · simp only [getDataPacket, hmem, if_true] at h
        cases h
        refine ⟨hi.packet_len, hi.heap_ok, ?_, ?_, ?_, hi.addr_ok⟩
        · intro id; have := hi.own id
          have hc := List.count_pos_iff.mpr hmem
          simp only [ownersP, hpc, heldTunReader, List.count_nil, List.count_singleton] at this ⊢
          by_cases e : p = id
          · subst e; simp at this ⊢; omega
          · have e2 : (p == id) = false := by simpa using e
            simp only [e2, List.count_erase_of_ne (Ne.symm e)]; simpa using this
        · intro plen dp hh; simp at hh
        · have := hi.content
          simpa [pendingP, pendingTunReader, hpc] using this
      · simp [getDataPacket, hmem] at h
  · -- line 102: copy
    rename_i plen dp hpc
    have hheld : dp ∈ heldTunReader s.tunReader := by simp [hpc, heldTunReader]
    split at h
    · rename_i src p hsl hget
      cases h
      obtain ⟨h0, hle, rfl⟩ := sliceTo_eq_some.mp hsl
      have hp := hi.heap_ok p (List.getElem?_mem hget)
      have hdp : dp < s.packetHeap.length := heldTunReader_lt hi hheld
      refine ⟨hi.packet_len, ?_, ?_, ?_, ?_, hi.addr_ok⟩
      · intro q hq
        rcases List.mem_or_eq_of_mem_set hq with hq | rfl
        · exact hi.heap_ok q hq
        · simpa [goCopy_length] using hp
      · intro id; have := hi.own id
        simpa [ownersP, hpc, heldTunReader] using this
      · intro plen2 dp2 hh
        simp only [TunReadPC.setLen.injEq] at hh
        obtain ⟨rfl, rfl⟩ := hh
        have hpl := hi.packet_len
        refine ⟨h0, by omega, _, List.getElem?_set_self hdp, ?_⟩
        have hlen : (List.take plen.toNat s.packet).length = plen.toNat := by
          rw [List.length_take]; omega
        have := goCopy_take p.data (List.take plen.toNat s.packet) (by omega)
        rw [hlen] at this
        simpa using this
      · have := hi.content
        simp only [pendingP, pendingTunReader, hpc] at this ⊢
        rw [← this, pending_frame s]
        intro id hid
        apply payloadAt_set_ne
        rcases hid with hid | hid
        · exact chan_ne_held hi hid hheld
        · exact heldUdpWriter_ne_held hi hid hheld
    · cases h
      refine ⟨hi.packet_len, hi.heap_ok, ?_, ?_, ?_, hi.addr_ok⟩
      · intro id; have := hi.own id
        simpa [State.halt, ownersP] using this
      · intro plen dp hh; simp [State.halt, hpc] at hh
      · have := hi.content
        simpa [State.halt, pendingP] using this
  · -- line 103: packetLen = plen
    rename_i plen dp hpc
    have hheld : dp ∈ heldTunReader s.tunReader := by simp [hpc, heldTunReader]
    obtain ⟨h0, hle, p0, hp0, htake⟩ := hi.at_setLen plen dp hpc
    split at h
    · rename_i p hget
      cases h
      have hpe : p0 = p := by rw [hp0] at hget; exact Option.some.inj hget
      subst hpe
      have hp := hi.heap_ok p0 (List.getElem?_mem hget)
      have hdp : dp < s.packetHeap.length := heldTunReader_lt hi hheld
      refine ⟨hi.packet_len, ?_, ?_, ?_, ?_, hi.addr_ok⟩
      · intro q hq
        rcases List.mem_or_eq_of_mem_set hq with hq | rfl
        · exact hi.heap_ok q hq
        · exact ⟨hp.1, h0, hle⟩
      · intro id; have := hi.own id
        simpa [ownersP, hpc, heldTunReader] using this
      · intro plen2 dp2 hh; simp at hh
      · have := hi.content
        simp only [pendingP, pendingTunReader, hpc] at this ⊢
        rw [← this, pending_frame s]
        · congr 2
          simp [payloadAt, List.getElem?_set_self hdp, htake]
        · intro id hid
          apply payloadAt_set_ne
          rcases hid with hid | hid
          · exact chan_ne_held hi hid hheld
          · exact heldUdpWriter_ne_held hi hid hheld
    · cases h
      refine ⟨hi.packet_len, hi.heap_ok, ?_, ?_, ?_, hi.addr_ok⟩
      · intro id; have := hi.own id
        simpa [State.halt, ownersP] using this
      · intro plen dp hh
        simpa [State.halt] using hi.at_setLen plen dp hh
      · have := hi.content
        simpa [State.halt, pendingP] using this
  · -- line 104: send on the channel
    rename_i dp hpc
    split at h
    · cases h
      refine ⟨hi.packet_len, hi.heap_ok, ?_, ?_, ?_, hi.addr_ok⟩
      · intro id; have := hi.own id
        simp only [ownersP, hpc, heldTunReader, List.count_append, List.count_nil] at this ⊢
        omega
      · intro plen dp hh; simp at hh
      · have := hi.content
        simp only [pendingP, pendingTunReader, hpc] at this ⊢
        rw [← this]; simp
    · cases h
  · cases h

theorem sendPayload_eq_some {heap : List DataPacket} {pkt : Nat} {payload : List Byte}
    (h : sendPayload heap pkt = some payload) : payload = payloadAt heap pkt := by
  cases hp : heap[pkt]? with
  | none => simp [sendPayload, hp] at h
  | some p =>
    simp only [sendPayload, hp] at h
    simp only [payloadAt, hp]
    exact (sliceTo_eq_some.mp h).2.2

theorem invP_runUDPWriteThread {a : UdpWriteAct} {s t : State}
    (h : runUDPWriteThread a s = some t) (hi : InvP s) : InvP t := by
  unfold runUDPWriteThread at h
  split at h
  · -- line 192: receive from the channel
    rename_i hpc
    split at h
    · cases h
    · rename_i pkt rest hch
      cases h
      refine ⟨hi.packet_len, hi.heap_ok, ?_, ?_, ?_, hi.addr_ok⟩
      · intro id; have := hi.own id
        simp only [ownersP, hpc, hch, heldUdpWriter, List.count_nil, List.count_singleton,
          List.count_cons] at this ⊢
        omega
      · intro plen dp hh; exact hi.at_setLen plen dp hh
      · have := hi.content
        simp only [pendingP, pendingUdpWriter, hpc, hch] at this ⊢
        rw [← this]; simp
  · -- line 193: WriteTo
    rename_i pkt err hpc
    split at h
    · rename_i payload hpay
      cases h
      refine ⟨hi.packet_len, hi.heap_ok, ?_, ?_, ?_, ?_⟩
      · intro id; have := hi.own id
        simpa [ownersP, hpc, heldUdpWriter] using this
      · intro plen dp hh; exact hi.at_setLen plen dp hh
      · have := hi.content
        simp only [pendingP, pendingUdpWriter, hpc] at this ⊢
        rw [← this, sendPayload_eq_some hpay]; simp
      · intro c hc
        simp only [List.mem_append, List.mem_singleton] at hc
        rcases hc with hc | rfl
        · exact hi.addr_ok c hc
        · rfl
    · cases h
      refine ⟨hi.packet_len, hi.heap_ok, ?_, ?_, ?_, hi.addr_ok⟩
      · intro id; have := hi.own id
        simpa [State.halt, ownersP] using this
      · intro plen dp hh; exact hi.at_setLen plen dp hh
      · have := hi.content
        simpa [State.halt, pendingP] using this
  · -- line 194: putDataPacket
    rename_i pkt err hpc
    simp only [putDataPacket] at h
    cases h
    refine ⟨hi.packet_len, hi.heap_ok, ?_, ?_, ?_, hi.addr_ok⟩
    · intro id; have := hi.own id
      simp only [ownersP, hpc, heldUdpWriter, List.count_nil, List.count_singleton,
        List.count_cons] at this ⊢
      omega
    · intro plen dp hh; exact hi.at_setLen plen dp hh
    · have := hi.content
      simpa [pendingP, pendingUdpWriter, hpc] using this
  · -- line 195: if err != nil
    rename_i err hpc
    split at h
    · cases h
      refine ⟨hi.packet_len, hi.heap_ok, ?_, ?_, ?_, hi.addr_ok⟩
      · intro id; have := hi.own id
        simpa [State.halt, ownersP] using this
      · intro plen dp hh; exact hi.at_setLen plen dp hh
      · have := hi.content
        simpa [State.halt, pendingP] using this
    · cases h
      refine ⟨hi.packet_len, hi.heap_ok, ?_, ?_, ?_, hi.addr_ok⟩
      · intro id; have := hi.own id
        simpa [ownersP, hpc, heldUdpWriter] using this
      · intro plen dp hh; exact hi.at_setLen plen dp hh
      · have := hi.content
        simpa [pendingP, pendingUdpWriter, hpc] using this
  · cases h

theorem newSocketMessages_messages :
    newSocketMessages.messages = List.replicate batchLen newMessage := by rfl

theorem newSocketMessages_shape : newSocketMessages.messages.map shapeOf = batchShape := by
  rw [newSocketMessages_messages]
  simp [batchShape, shapeOf, newMessage]

theorem initInvB (addr : String) : InvB (init addr) := by
  constructor <;> simp [init, ownersB, heldUdpReader, heldTunWriter, pendingB, pendingUdpReader,
    pendingTunWriter, toWrite]

theorem validAt_set_ne (heap : List SocketMessages) (ms id : Nat) (x : SocketMessages)
    (h : id ≠ ms) : validAt (heap.set ms x) id = validAt heap id := by
  unfold validAt
  rw [List.getElem?_set_ne (Ne.symm h)]

theorem validAt_append (heap : List SocketMessages) (x : SocketMessages) (id : Nat)
    (h : id < heap.length) : validAt (heap ++ [x]) id = validAt heap id := by
  unfold validAt
  rw [List.getElem?_append_left h]

theorem ownedB_lt {s : State} (hi : InvB s) {id : Nat} (h : 0 < ownersB s id) :
    id < s.batchHeap.length := by
  by_contra hcon
  have := (hi.own id).2 (by omega)
  omega

theorem chanB_lt {s : State} (hi : InvB s) {id : Nat} (h : id ∈ s.udpReadChan) :
    id < s.batchHeap.length := by
  apply ownedB_lt hi
  have := List.count_pos_iff.mpr h
  unfold ownersB; omega

theorem heldTunWriter_lt {s : State} (hi : InvB s) {id : Nat}
    (h : id ∈ heldTunWriter s.tunWriter) : id < s.batchHeap.length := by
  apply ownedB_lt hi
  have := List.count_pos_iff.mpr h
  unfold ownersB; omega

theorem heldUdpReader_lt {s : State} (hi : InvB s) {id : Nat}
    (h : id ∈ heldUdpReader s.udpReader) : id < s.batchHeap.length := by
  apply ownedB_lt hi
  have := List.count_pos_iff.mpr h
  unfold ownersB; omega

theorem chanB_ne_held {s : State} (hi : InvB s) {id ms : Nat} (h : id ∈ s.udpReadChan)
    (hd : ms ∈ heldUdpReader s.udpReader) : id ≠ ms := by
  rintro rfl
  have h1 := List.count_pos_iff.mpr h
  have h2 := List.count_pos_iff.mpr hd
  have := (hi.own id).1
  unfold ownersB at this; omega

theorem heldTunWriter_ne_held {s : State} (hi : InvB s) {id ms : Nat}
    (h : id ∈ heldTunWriter s.tunWriter) (hd : ms ∈ heldUdpReader s.udpReader) : id ≠ ms := by
  rintro rfl
  have h1 := List.count_pos_iff.mpr h
  have h2 := List.count_pos_iff.mpr hd
  have := (hi.own id).1
  unfold ownersB at this; omega

theorem pendingTunWriter_congr (pc : TunWritePC) (heap heap2 : List SocketMessages)
    (h : ∀ id ∈ heldTunWriter pc, validAt heap2 id = validAt heap id) :
    pendingTunWriter pc heap2 = pendingTunWriter pc heap := by
  cases pc <;> simp_all [pendingTunWriter, heldTunWriter]

/-- Changing the heap away from the batches the channel and the device writer
hold leaves their pending datagrams as they are. -/
theorem pendingB_frame (s : State) (heap2 : List SocketMessages)
    (h : ∀ id, id ∈ s.udpReadChan ∨ id ∈ heldTunWriter s.tunWriter →
      validAt heap2 id = validAt s.batchHeap id) :
    pendingTunWriter s.tunWriter heap2 ++
        s.udpReadChan.flatMap (fun id => toWrite (validAt heap2 id)) =
      pendingTunWriter s.tunWriter s.batchHeap ++
        s.udpReadChan.flatMap (fun id => toWrite (validAt s.batchHeap id)) := by
  rw [pendingTunWriter_congr _ _ _ (fun id hid => h id (Or.inr hid))]
  congr 1
  have : ∀ l : List Nat, (∀ id ∈ l, validAt heap2 id = validAt s.batchHeap id) →
      l.flatMap (fun id => toWrite (validAt heap2 id)) =
        l.flatMap (fun id => toWrite (validAt s.batchHeap id)) := by
    intro l
    induction l with
    | nil => intro _; rfl
    | cons x xs ih =>
      intro hx
      simp only [List.flatMap_cons]
      rw [hx x (List.mem_cons_self _ _), ih (fun id hid => hx id (List.mem_cons_of_mem _ hid))]
  exact this _ (fun id hid => h id (Or.inl hid))

theorem toWrite_append (l1 l2 : List Message) : toWrite (l1 ++ l2) = toWrite l1 ++ toWrite l2 := by
  simp [toWrite]

theorem invB_runUDPReadThread {a : UdpReadAct} {s t : State}
    (h : runUDPReadThread a s = some t) (hi : InvB s) : InvB t := by
  unfold runUDPReadThread at h
  split at h
  · -- getSocketMessages
    rename_i reuse hpc
    cases reuse with
    | none =>
      simp only [getSocketMessages] at h
      cases h
      refine ⟨?_, ?_, ?_, ?_⟩
      · intro b hb
        simp only [List.mem_append, List.mem_singleton] at hb
        rcases hb with hb | rfl
        · exact hi.heap_ok b hb
        · exact newSocketMessages_shape
      · intro id; have := hi.own id
        simp only [ownersB, hpc, heldUdpReader, List.count_nil, List.length_append,
          List.length_singleton, List.count_singleton] at this ⊢
        by_cases e : s.batchHeap.length = id
        · subst e; simp at this ⊢; omega
        · have e2 : (s.batchHeap.length == id) = false := by simpa using e
          simp only [e2]; simp; omega
      · intro ms i plen hh
        obtain ⟨b, m, h1, h2⟩ := hi.at_write ms i plen hh
        refine ⟨b, m, ?_, h2⟩
        have hlt : ms < s.batchHeap.length := by
          apply heldTunWriter_lt hi
          change s.tunWriter = _ at hh
          simp [hh, heldTunWriter]
        show (s.batchHeap ++ [newSocketMessages])[ms]? = some b
        rw [List.getElem?_append_left hlt]; exact h1
      · have := hi.content
        simp only [pendingB, pendingUdpReader, hpc] at this ⊢
        rw [← this, pendingB_frame s]
        intro id hid
        apply validAt_append
        rcases hid with hid | hid
        · exact chanB_lt hi hid
        · exact heldTunWriter_lt hi hid
    | some p =>
      by_cases hmem : p ∈ s.messagesPool
      · simp only [getSocketMessages, hmem, if_true] at h
        cases h
        refine ⟨hi.heap_ok, ?_, hi.at_write, ?_⟩
        · intro id; have := hi.own id
          have hc := List.count_pos_iff.mpr hmem
          simp only [ownersB, hpc, heldUdpReader, List.count_nil, List.count_singleton] at this ⊢
          by_cases e : p = id
          · subst e; simp at this ⊢; omega
          · have e2 : (p == id) = false := by simpa using e
            simp only [e2, List.count_erase_of_ne (Ne.symm e)]; simpa using this
        · have := hi.content
          simpa [pendingB, pendingUdpReader, hpc] using this
      · simp [getSocketMessages, hmem] at h
  · -- line 174: ReadBatch
    rename_i ms msgs msgCount err hpc
    have hheld : ms ∈ heldUdpReader s.udpReader := by simp [hpc, heldUdpReader]
    split at h
    · rename_i b hget
      split at h
      · cases h
      rename_i hshape
      have hshape2 : msgs.map shapeOf = b.messages.map shapeOf := Decidable.not_not.mp hshape
      have hms : ms < s.batchHeap.length := heldUdpReader_lt hi hheld
      have hheap : ∀ q ∈ s.batchHeap.set ms { b with messages := msgs },
          q.messages.map shapeOf = batchShape := by
        intro q hq
        rcases List.mem_or_eq_of_mem_set hq with hq | rfl
        · exact hi.heap_ok q hq
        · exact hshape2.trans (hi.heap_ok b (List.getElem?_mem hget))
      have hframe : ∀ id, id ∈ s.udpReadChan ∨ id ∈ heldTunWriter s.tunWriter →
          validAt (s.batchHeap.set ms { b with messages := msgs }) id =
            validAt s.batchHeap id := by
        intro id hid
        apply validAt_set_ne
        rcases hid with hid | hid
        · exact chanB_ne_held hi hid hheld
        · exact heldTunWriter_ne_held hi hid hheld
      have hatw : ∀ ms2 i plen, s.tunWriter = .write ms2 i plen →
          ∃ b2 m, (s.batchHeap.set ms { b with messages := msgs })[ms2]? = some b2 ∧
            (i : Int) < b2.msgCount ∧ b2.messages[i]? = some m ∧ m.N = plen ∧ plen ≠ 0 := by
        intro ms2 i plen hh
        obtain ⟨b2, m, h1, h2⟩ := hi.at_write ms2 i plen hh
        refine ⟨b2, m, ?_, h2⟩
        have hne : ms2 ≠ ms := heldTunWriter_ne_held hi (by simp [hh, heldTunWriter]) hheld
        rw [List.getElem?_set_ne (Ne.symm hne)]; exact h1
      cases h
      refine ⟨hheap, ?_, hatw, ?_⟩
      · intro id; have := hi.own id
        simpa [ownersB, hpc, heldUdpReader] using this
      · have := hi.content
        simp only [pendingB, pendingUdpReader, hpc] at this ⊢
        cases err
        · simp only [Bool.false_eq_true, if_false]
          rw [toWrite_append, ← this, pendingB_frame s _ hframe]
          simp [messagesAt, List.getElem?_set_self hms]
        · simp only [if_true]
          rw [← this, pendingB_frame s _ hframe]
    · cases h
      refine ⟨hi.heap_ok, ?_, hi.at_write, ?_⟩
      · intro id; have := hi.own id
        simpa [State.halt, ownersB] using this
      · have := hi.content
        simpa [State.halt, pendingB] using this
  · -- line 175: if err != nil
    rename_i ms msgCount err hpc
    split at h
    · cases h
      refine ⟨hi.heap_ok, ?_, hi.at_write, ?_⟩
      · intro id; have := hi.own id
        simpa [State.halt, ownersB] using this
      · have := hi.content
        simpa [State.halt, pendingB] using this
    · rename_i herr
      cases h
      refine ⟨hi.heap_ok, ?_, hi.at_write, ?_⟩
      · intro id; have := hi.own id
        simpa [ownersB, hpc, heldUdpReader] using this
      · have := hi.content
        simpa [pendingB, pendingUdpReader, hpc, herr] using this
  · -- line 178: msgCount
    rename_i ms msgCount hpc
    have hheld : ms ∈ heldUdpReader s.udpReader := by simp [hpc, heldUdpReader]
    split at h
    · rename_i b hget
      cases h
      have hms : ms < s.batchHeap.length := heldUdpReader_lt hi hheld
      have hframe : ∀ id, id ∈ s.udpReadChan ∨ id ∈ heldTunWriter s.tunWriter →
          validAt (s.batchHeap.set ms { b with msgCount := msgCount }) id =
            validAt s.batchHeap id := by
        intro id hid
        apply validAt_set_ne
        rcases hid with hid | hid
        · exact chanB_ne_held hi hid hheld
        · exact heldTunWriter_ne_held hi hid hheld
      refine ⟨?_, ?_, ?_, ?_⟩
      · intro q hq
        rcases List.mem_or_eq_of_mem_set hq with hq | rfl
        · exact hi.heap_ok q hq
        · exact hi.heap_ok b (List.getElem?_mem hget)
      · intro id; have := hi.own id
        simpa [ownersB, hpc, heldUdpReader] using this
      · intro ms2 i plen hh
        obtain ⟨b2, m, h1, h2⟩ := hi.at_write ms2 i plen hh
        refine ⟨b2, m, ?_, h2⟩
        have hne : ms2 ≠ ms := heldTunWriter_ne_held hi (by
          change s.tunWriter = _ at hh; simp [hh, heldTunWriter]) hheld
        show (s.batchHeap.set ms _)[ms2]? = some b2
        rw [List.getElem?_set_ne (Ne.symm hne)]; exact h1
      · have := hi.content
        simp only [pendingB, pendingUdpReader, hpc] at this ⊢
        rw [← this, pendingB_frame s _ hframe]
        simp [messagesAt, validAt, List.getElem?_set_self hms, hget]
    · cases h
      refine ⟨hi.heap_ok, ?_, hi.at_write, ?_⟩
      · intro id; have := hi.own id
        simpa [State.halt, ownersB] using this
      · have := hi.content
        simpa [State.halt, pendingB] using this
  · -- line 179: send on the channel
    rename_i ms hpc
    split at h
    · cases h
      refine ⟨hi.heap_ok, ?_, hi.at_write, ?_⟩
      · intro id; have := hi.own id
        simp only [ownersB, hpc, heldUdpReader, List.count_append, List.count_nil] at this ⊢
        omega
      · have := hi.content
        simp only [pendingB, pendingUdpReader, hpc] at this ⊢
        rw [← this]; simp
    · cases h
  · cases h

theorem validAt_drop {heap : List SocketMessages} {ms i : Nat} {b : SocketMessages}
    {m : Message} (hb : heap[ms]? = some b) (hi : (i : Int) < b.msgCount)
    (hm : b.messages[i]? = some m) :
    (validAt heap ms).drop i = m :: (validAt heap ms).drop (i + 1) := by
  have hv : validAt heap ms = b.messages.take b.msgCount.toNat := by simp [validAt, hb]
  have hk : i < b.msgCount.toNat := by omega
  have h1 : (b.messages.take b.msgCount.toNat)[i]? = some m := by
    rw [List.getElem?_take_of_lt hk]; exact hm
  obtain ⟨hlt, he⟩ := List.getElem?_eq_some.mp h1
  rw [hv, List.drop_eq_getElem_cons hlt, he]

theorem validAt_drop_done {heap : List SocketMessages} {ms i : Nat} {b : SocketMessages}
    (hb : heap[ms]? = some b) (hi : ¬ (i : Int) < b.msgCount) :
    (validAt heap ms).drop i = [] := by
  have hv : validAt heap ms = b.messages.take b.msgCount.toNat := by simp [validAt, hb]
  rw [hv]
  apply List.drop_of_length_le
  rw [List.length_take]; omega

theorem toWrite_cons_zero {m : Message} (l : List Message) (h : m.N = 0) :
    toWrite (m :: l) = toWrite l := by
  simp [toWrite, h]

theorem toWrite_cons_nonzero {m : Message} (l : List Message) (h : m.N ≠ 0) :
    toWrite (m :: l) = payloadOf m :: toWrite l := by
  simp [toWrite, h]

theorem writePayload_eq_some {heap : List SocketMessages} {ms i : Nat} {plen : Int}
    {b : SocketMessages} {m : Message} {payload : List Byte}
    (hb : heap[ms]? = some b) (hm : b.messages[i]? = some m) (hn : m.N = plen)
    (h : writePayload heap ms i plen = some payload) : payload = payloadOf m := by
  unfold writePayload at h
  simp only [hb, hm] at h
  split at h
  · rename_i buf hbuf
    simp only [payloadOf, hbuf, Option.getD_some, hn]
    exact (sliceTo_eq_some.mp h).2.2
  · cases h

theorem invB_runTunWriteThread {a : TunWriteAct} {s t : State}
    (h : runTunWriteThread a s = some t) (hi : InvB s) : InvB t := by
  unfold runTunWriteThread at h
  split at h
  · -- line 112: receive from the channel
    rename_i hpc
    split at h
    · cases h
    · rename_i ms rest hch
      cases h
      refine ⟨hi.heap_ok, ?_, ?_, ?_⟩
      · intro id; have := hi.own id
        simp only [ownersB, hpc, hch, heldTunWriter, List.count_nil, List.count_singleton,
          List.count_cons] at this ⊢
        omega
      · intro ms i plen hh; simp at hh
      · have := hi.content
        simp only [pendingB, pendingTunWriter, hpc, hch] at this ⊢
        rw [← this]; simp
  · -- lines 113-117: loop test, length test
    rename_i ms i hpc
    split at h
    · rename_i b hget
      split at h
      · rename_i hlt
        split at h
        · rename_i m hm
          have hdrop := validAt_drop hget hlt hm
          split at h
          · rename_i hz
            cases h
            refine ⟨hi.heap_ok, ?_, ?_, ?_⟩
            · intro id; have := hi.own id
              simpa [ownersB, hpc, heldTunWriter] using this
            · intro ms i plen hh; simp at hh
            · have := hi.content
              simp only [pendingB, pendingTunWriter, hpc] at this ⊢
              rw [← this, hdrop, toWrite_cons_zero _ hz]
          · rename_i hz
            cases h
            refine ⟨hi.heap_ok, ?_, ?_, ?_⟩
            · intro id; have := hi.own id
              simpa [ownersB, hpc, heldTunWriter] using this
            · intro ms2 i2 plen hh
              simp only [TunWritePC.write.injEq] at hh
              obtain ⟨rfl, rfl, rfl⟩ := hh
              exact ⟨b, m, hget, hlt, hm, rfl, hz⟩
            · have := hi.content
              simpa [pendingB, pendingTunWriter, hpc] using this
        · cases h
          refine ⟨hi.heap_ok, ?_, ?_, ?_⟩
          · intro id; have := hi.own id
            simpa [State.halt, ownersB] using this
          · intro ms i plen hh; exact hi.at_write ms i plen hh
          · have := hi.content
            simpa [State.halt, pendingB] using this
      · rename_i hlt
        cases h
        refine ⟨hi.heap_ok, ?_, ?_, ?_⟩
        · intro id; have := hi.own id
          simp only [ownersB, hpc, heldTunWriter, List.count_nil] at this ⊢
          omega
        · intro ms i plen hh; simp at hh
        · have := hi.content
          simp only [pendingB, pendingTunWriter, hpc] at this ⊢
          rw [← this, validAt_drop_done hget hlt]
          rfl
    · cases h
      refine ⟨hi.heap_ok, ?_, ?_, ?_⟩
      · intro id; have := hi.own id
        simpa [State.halt, ownersB] using this
      · intro ms i plen hh; exact hi.at_write ms i plen hh
      · have := hi.content
        simpa [State.halt, pendingB] using this
  · -- line 118: Write
    rename_i ms i plen err hpc
    obtain ⟨b, m, hget, hlt, hm, hn, hz⟩ := hi.at_write ms i plen hpc
    split at h
    · rename_i payload hpay
      cases h
      have hdrop := validAt_drop hget hlt hm
      refine ⟨hi.heap_ok, ?_, ?_, ?_⟩
      · intro id; have := hi.own id
        simpa [ownersB, hpc, heldTunWriter] using this
      · intro ms i plen hh; simp at hh
      · have := hi.content
        simp only [pendingB, pendingTunWriter, hpc] at this ⊢
        rw [← this, hdrop, toWrite_cons_nonzero _ (by rw [hn]; exact hz),
          writePayload_eq_some hget hm hn hpay]
        simp
    · cases h
      refine ⟨hi.heap_ok, ?_, ?_, ?_⟩
      · intro id; have := hi.own id
        simpa [State.halt, ownersB] using this
      · intro ms i plen hh; exact hi.at_write ms i plen hh
      · have := hi.content
        simpa [State.halt, pendingB] using this
  · -- line 119: if err != nil
    rename_i ms i err hpc
    split at h
    · cases h
      refine ⟨hi.heap_ok, ?_, ?_, ?_⟩
      · intro id; have := hi.own id
        simpa [State.halt, ownersB] using this
      · intro ms i plen hh; exact hi.at_write ms i plen hh
      · have := hi.content
        simpa [State.halt, pendingB] using this
    · cases h
      refine ⟨hi.heap_ok, ?_, ?_, ?_⟩
      · intro id; have := hi.own id
        simpa [ownersB, hpc, heldTunWriter] using this
      · intro ms i plen hh; simp at hh
      · have := hi.content
        simpa [pendingB, pendingTunWriter, hpc] using this
  · cases h

theorem runTunReadThread_sameB {a : TunReadAct} {s t : State}
    (h : runTunReadThread a s = some t) : sameB s t := by
  unfold runTunReadThread at h
  repeat' split at h
  all_goals first
    | (cases h <;> simp [sameB, State.halt]; done)
    | (rename_i hg; obtain ⟨heap, pool, rfl⟩ := getDataPacket_eq hg; cases h; simp [sameB])

theorem runUDPWriteThread_sameB {a : UdpWriteAct} {s t : State}
    (h : runUDPWriteThread a s = some t) : sameB s t := by
  unfold runUDPWriteThread at h
  repeat' split at h
  all_goals (cases h <;> simp [sameB, State.halt, putDataPacket])

theorem runUDPReadThread_sameP {a : UdpReadAct} {s t : State}
    (h : runUDPReadThread a s = some t) : sameP s t := by
  unfold runUDPReadThread at h
  repeat' split at h
  all_goals first
    | (cases h <;> simp [sameP, State.halt]; done)
    | (rename_i hg; obtain ⟨heap, pool, rfl⟩ := getSocketMessages_eq hg; cases h; simp [sameP])

theorem runTunWriteThread_sameP {a : TunWriteAct} {s t : State}
    (h : runTunWriteThread a s = some t) : sameP s t := by
  unfold runTunWriteThread at h
  repeat' split at h
  all_goals (cases h <;> simp [sameP, State.halt, putDataPacket])

theorem InvB_frame {s t : State} (hi : InvB s) (hs : sameB s t) : InvB t := by
  obtain ⟨h1, h2, h3, h4, h5, h6, h7⟩ := hs
  refine ⟨?_, ?_, ?_, ?_⟩
  · rw [h1]; exact hi.heap_ok
  · intro id
    simp only [ownersB, h1, h2, h3, h4, h5]; exact hi.own id
  · rw [h1, h5]; exact hi.at_write
  · simp only [pendingB, h1, h3, h4, h5, h6, h7]; exact hi.content

theorem InvP_frame {s t : State} (hi : InvP s) (hs : sameP s t) : InvP t := by
  obtain ⟨h1, h2, h3, h4, h5, h6, h7, h8, h9⟩ := hs
  refine ⟨?_, ?_, ?_, ?_, ?_, ?_⟩
  · rw [h4]; exact hi.packet_len
  · rw [h1]; exact hi.heap_ok
  · intro id
    simp only [ownersP, h1, h2, h3, h5, h6]; exact hi.own id
  · rw [h1, h4, h5]; exact hi.at_setLen
  · simp only [pendingP, h1, h3, h4, h5, h6, h7, h8]; exact hi.content
  · rw [h8, h9]; exact hi.addr_ok

theorem inv_step {a : Action} {s t : State} (h : step a s = some t) (hi : Inv s) : Inv t := by
  unfold step at h
  split at h
  · cases h
  · cases a with
    | tunReader x =>
      exact ⟨invP_runTunReadThread h hi.1, InvB_frame hi.2 (runTunReadThread_sameB h)⟩
    | udpWriter x =>
      exact ⟨invP_runUDPWriteThread h hi.1, InvB_frame hi.2 (runUDPWriteThread_sameB h)⟩
    | udpReader x =>
      exact ⟨InvP_frame hi.1 (runUDPReadThread_sameP h), invB_runUDPReadThread h hi.2⟩
    | tunWriter x =>
      exact ⟨InvP_frame hi.1 (runTunWriteThread_sameP h), invB_runTunWriteThread h hi.2⟩

theorem inv_next {s : State} (a : Action) (hi : Inv s) : Inv (next s a) := by
  unfold next
  cases h : step a s with
  | none => exact hi
  | some t => exact inv_step h hi

theorem inv_exec (acts : List Action) {s : State} (hi : Inv s) : Inv (exec acts s) := by
  unfold exec
  induction acts generalizing s with
  | nil => exact hi
  | cons a rest ih => exact ih (inv_next a hi)

theorem inv_init (addr : String) : Inv (init addr) := ⟨initInvP addr, initInvB addr⟩

/-- Every reachable state satisfies the invariant. -/
theorem inv_reachable (addr : String) (acts : List Action) : Inv (exec acts (init addr)) :=
  inv_exec acts (inv_init addr)

theorem shape_length {msgs : List Message} (h : msgs.map shapeOf = batchShape) :
    msgs.length = batchLen := by
  have := congrArg List.length h
  simpa [batchShape] using this

theorem shape_buffers {msgs : List Message} (h : msgs.map shapeOf = batchShape)
    {m : Message} (hm : m ∈ msgs) : ∃ buf, m.Buffers = [buf] ∧ buf.length = mtu := by
  have h1 : shapeOf m ∈ batchShape := by
    rw [← h]; exact List.mem_map_of_mem _ hm
  have h2 : shapeOf m = ([mtu], 10) := by
    simpa [batchShape] using (List.eq_of_mem_replicate h1)
  have h3 : m.Buffers.map List.length = [mtu] := congrArg Prod.fst h2
  cases hb : m.Buffers with
  | nil => rw [hb] at h3; simp at h3
  | cons buf tl =>
    rw [hb] at h3
    simp only [List.map_cons, List.cons.injEq, List.map_eq_nil_iff] at h3
    obtain ⟨h4, rfl⟩ := h3
    exact ⟨buf, rfl, h4⟩

theorem drainBatch_pop (n : Nat) {s : State} (h : s.tunWriter = .pop) : drainBatch n s = s := by
  cases n with
  | zero => rfl
  | succ n => simp [drainBatch, h]

theorem next_loop_zero {s : State} {ms i : Nat} {b : SocketMessages} {m : Message}
    (hh : s.halted = none) (hpc : s.tunWriter = .loop ms i) (hb : s.batchHeap[ms]? = some b)
    (hi : (i : Int) < b.msgCount) (hm : b.messages[i]? = some m) (hz : m.N = 0) :
    next s (.tunWriter .run) = { s with tunWriter := .loop ms (i + 1) } := by
  simp [next, step, runTunWriteThread, hh, hpc, hb, hi, hm, hz]

theorem next_loop_nonzero {s : State} {ms i : Nat} {b : SocketMessages} {m : Message}
    (hh : s.halted = none) (hpc : s.tunWriter = .loop ms i) (hb : s.batchHeap[ms]? = some b)
    (hi : (i : Int) < b.msgCount) (hm : b.messages[i]? = some m) (hz : m.N ≠ 0) :
    next s (.tunWriter .run) = { s with tunWriter := .write ms i m.N } := by
  simp [next, step, runTunWriteThread, hh, hpc, hb, hi, hm, hz]

theorem next_loop_done {s : State} {ms i : Nat} {b : SocketMessages}
    (hh : s.halted = none) (hpc : s.tunWriter = .loop ms i) (hb : s.batchHeap[ms]? = some b)
    (hi : ¬ (i : Int) < b.msgCount) :
    next s (.tunWriter .run) = { s with tunWriter := .pop } := by
  simp [next, step, runTunWriteThread, hh, hpc, hb, hi]

theorem next_write (s : State) {ms i : Nat} {plen : Int} {payload : List Byte} (err : Bool)
    (hh : s.halted = none) (hpc : s.tunWriter = .write ms i plen)
    (hp : writePayload s.batchHeap ms i plen = some payload) :
    next s (.tunWriter (.write err)) =
      { s with tunWrites := s.tunWrites ++ [⟨payload, err⟩]
               tunWriter := .check ms i err } := by
  simp [next, step, runTunWriteThread, hh, hpc, hp]

theorem next_check_ok (s : State) (ms i : Nat)
    (hh : s.halted = none) (hpc : s.tunWriter = .check ms i false) :
    next s (.tunWriter .run) = { s with tunWriter := .loop ms (i + 1) } := by
  simp [next, step, runTunWriteThread, hh, hpc]

/-- A message of a pool batch whose length is within the buffer: the slice of
line 118 is in range and is the message's datagram. -/
theorem writePayload_ok {heap : List SocketMessages} {ms i : Nat} {b : SocketMessages}
    {m : Message} (hb : heap[ms]? = some b) (hm : b.messages[i]? = some m)
    (hs : b.messages.map shapeOf = batchShape) (h0 : 0 ≤ m.N) (h1 : m.N ≤ (mtu : Int)) :
    writePayload heap ms i m.N = some (payloadOf m) := by
  obtain ⟨buf, hbuf, hlen⟩ := shape_buffers hs (List.getElem?_mem hm)
  simp [writePayload, hb, hm, hbuf, payloadOf, sliceTo, h0, hlen, h1]

theorem drainBatch_at_loop (n : Nat) {s : State} {ms i : Nat} (h : s.tunWriter = .loop ms i) :
    drainBatch (n + 1) s = drainBatch n (next s (.tunWriter .run)) := by
  simp [drainBatch, h]

theorem drainBatch_at_write (n : Nat) (s : State) {ms i : Nat} {plen : Int}
    (h : s.tunWriter = .write ms i plen) :
    drainBatch (n + 1) s = drainBatch n (next s (.tunWriter (.write false))) := by
  simp [drainBatch, h]

theorem drainBatch_at_check (n : Nat) (s : State) (ms i : Nat) (err : Bool)
    (h : s.tunWriter = .check ms i err) :
    drainBatch (n + 1) s = drainBatch n (next s (.tunWriter .run)) := by
  simp [drainBatch, h]

/-- The device writer, started on slot `i` of a batch that respects the
batched-receive contract, writes the non-empty datagrams of the remaining
slots and returns to the channel; nothing else changes. -/
theorem drainBatch_loop (k : Nat) : ∀ (s : State) (ms i : Nat) (b : SocketMessages) (n : Nat),
    s.halted = none → s.tunWriter = .loop ms i → s.batchHeap[ms]? = some b →
    b.messages.map shapeOf = batchShape → b.msgCount ≤ (batchLen : Int) →
    (∀ m ∈ b.messages.take b.msgCount.toNat, 0 ≤ m.N ∧ m.N ≤ (mtu : Int)) →
    b.msgCount.toNat - i = k → 3 * k + 1 ≤ n →
    drainBatch n s =
      { s with tunWriter := .pop
               tunWrites := s.tunWrites ++
                 writeCalls (toWrite ((b.messages.take b.msgCount.toNat).drop i)) } := by
  induction k with
  | zero =>
    intro s ms i b n hh hpc hb hs hc hN hk hn
    obtain ⟨n, rfl⟩ : ∃ n2, n = n2 + 1 := ⟨n - 1, by omega⟩
    have hdone : ¬ (i : Int) < b.msgCount := by omega
    have hd : (b.messages.take b.msgCount.toNat).drop i = [] := by
      apply List.drop_of_length_le
      rw [List.length_take]; omega
    rw [drainBatch_at_loop n hpc, next_loop_done hh hpc hb hdone, drainBatch_pop _ rfl, hd]
    simp [toWrite, writeCalls]
  | succ k ih =>
    intro s ms i b n hh hpc hb hs hc hN hk hn
    have hlen := shape_length hs
    have hlt : (i : Int) < b.msgCount := by omega
    have hi25 : i < b.messages.length := by omega
    obtain ⟨m, hm⟩ : ∃ m, b.messages[i]? = some m :=
      ⟨b.messages[i], List.getElem?_eq_getElem hi25⟩
    have hk2 : i < b.msgCount.toNat := by omega
    have h1 : (b.messages.take b.msgCount.toNat)[i]? = some m := by
      rw [List.getElem?_take_of_lt hk2]; exact hm
    obtain ⟨hlt2, he⟩ := List.getElem?_eq_some.mp h1
    have hdrop : (b.messages.take b.msgCount.toNat).drop i =
        m :: (b.messages.take b.msgCount.toNat).drop (i + 1) := by
      rw [List.drop_eq_getElem_cons hlt2, he]
    have hmN := hN m (List.getElem?_mem h1)
    by_cases hz : m.N = 0
    · obtain ⟨n, rfl⟩ : ∃ n2, n = n2 + 1 := ⟨n - 1, by omega⟩
      rw [drainBatch_at_loop n hpc, next_loop_zero hh hpc hb hlt hm hz]
      refine (ih { s with tunWriter := .loop ms (i + 1) } ms (i + 1) b n hh rfl hb hs hc hN
        (by omega) (by omega)).trans ?_
      rw [hdrop, toWrite_cons_zero _ hz]
    · obtain ⟨n, rfl⟩ : ∃ n2, n = n2 + 3 := ⟨n - 3, by omega⟩
      have e1 := next_loop_nonzero hh hpc hb hlt hm hz
      have e2 := next_write { s with tunWriter := .write ms i m.N } false hh rfl
        (writePayload_ok hb hm hs hmN.1 hmN.2)
      have e3 := next_check_ok
        { s with tunWrites := s.tunWrites ++ [⟨payloadOf m, false⟩],
                 tunWriter := .check ms i false } ms i hh rfl
      rw [drainBatch_at_loop (n + 2) hpc, e1,
        drainBatch_at_write (n + 1) { s with tunWriter := .write ms i m.N } rfl, e2,
        drainBatch_at_check n _ ms i false rfl, e3]
      refine (ih { s with tunWrites := s.tunWrites ++ [⟨payloadOf m, false⟩],
                          tunWriter := .loop ms (i + 1) } ms (i + 1) b n hh rfl hb hs hc hN
        (by omega) (by omega)).trans ?_
      rw [hdrop, toWrite_cons_nonzero _ hz]
      simp [writeCalls]

theorem toWrite_length (l : List Message) :
    (toWrite l).length + (l.filter (fun m => decide (m.N = 0))).length = l.length := by
  induction l with
  | nil => rfl
  | cons m l ih =>
    by_cases hz : m.N = 0
    · rw [toWrite_cons_zero _ hz]; simp [hz]; omega
    · rw [toWrite_cons_nonzero _ hz]; simp [hz]; omega

/-- A message with a payload buffer of `mtu` bytes and an in-range length. -/
theorem payloadOf_slice {m : Message} {buf : List Byte} (hb : m.Buffers = [buf])
    (hl : buf.length = mtu) (h0 : 0 ≤ m.N) (h1 : m.N ≤ (mtu : Int)) :
    m.Buffers[0]? = some buf ∧ sliceTo buf m.N = some (payloadOf m) ∧
      ((payloadOf m).length : Int) = m.N := by
  refine ⟨by simp [hb], by simp [sliceTo, payloadOf, hb, h0, hl, h1], ?_⟩
  simp only [payloadOf, hb, List.getElem?_cons_zero, Option.getD_some, List.length_take, hl]
  omega

theorem exec_cons (a : Action) (acts : List Action) (s : State) :
    exec (a :: acts) s = exec acts (next s a) := rfl

theorem exec_append (l1 l2 : List Action) (s : State) :
    exec (l1 ++ l2) s = exec l2 (exec l1 s) := by
  simp [exec, List.foldl_append]

/-- Nothing runs once the process has stopped. -/
theorem step_halted {s : State} (a : Action) (h : s.halted ≠ none) : step a s = none := by
  unfold step
  cases hh : s.halted with
  | none => exact absurd hh h
  | some x => simp

theorem next_halted {s : State} (a : Action) (h : s.halted ≠ none) : next s a = s := by
  simp [next, step_halted a h]

theorem exec_halted (acts : List Action) {s : State} (h : s.halted ≠ none) :
    exec acts s = s := by
  induction acts with
  | nil => rfl
  | cons a rest ih => rw [exec_cons, next_halted a h, ih]

/-- The peer address never changes. -/
theorem step_addr {a : Action} {s t : State} (h : step a s = some t) : t.addr = s.addr := by
  unfold step at h
  split at h
  · cases h
  · cases a with
    | tunReader x =>
      simp only at h
      unfold runTunReadThread at h
      repeat' split at h
      all_goals first
        | (cases h <;> simp [State.halt]; done)
        | (rename_i hg; obtain ⟨heap, pool, rfl⟩ := getDataPacket_eq hg; cases h; rfl)
    | udpWriter x =>
      simp only at h
      unfold runUDPWriteThread at h
      repeat' split at h
      all_goals (cases h; try simp [State.halt, putDataPacket])
    | udpReader x => exact (runUDPReadThread_sameP h).2.2.2.2.2.2.2.2
    | tunWriter x => exact (runTunWriteThread_sameP h).2.2.2.2.2.2.2.2

theorem exec_addr (acts : List Action) (s : State) : (exec acts s).addr = s.addr := by
  induction acts generalizing s with
  | nil => rfl
  | cons a rest ih =>
    rw [exec_cons, ih]
    unfold next
    cases h : step a s with
    | none => rfl
    | some t => exact step_addr h

/-- `getSocketMessages` leaves an empty pool empty. -/
theorem getSocketMessages_pool {reuse : Option Nat} {s s1 : State} {ms : Nat}
    (h : getSocketMessages reuse s = some (ms, s1)) (hp : s.messagesPool = []) :
    s1.messagesPool = [] := by
  cases reuse with
  | none =>
    simp only [getSocketMessages, Option.some.injEq, Prod.mk.injEq] at h
    rw [← h.2]; exact hp
  | some p => simp [getSocketMessages, hp] at h

/-- A step never puts anything into `messagesPool`. -/
theorem step_messagesPool {a : Action} {s t : State} (h : step a s = some t)
    (hp : s.messagesPool = []) : t.messagesPool = [] := by
  unfold step at h
  split at h
  · cases h
  · cases a with
    | tunReader x => rw [(runTunReadThread_sameB h).2.1]; exact hp
    | udpWriter x => rw [(runUDPWriteThread_sameB h).2.1]; exact hp
    | udpReader x =>
      simp only at h
      unfold runUDPReadThread at h
      repeat' split at h
      all_goals first
        | (cases h <;> simp [State.halt, hp]; done)
        | (rename_i hg; cases h; exact (getSocketMessages_pool hg hp : _ = []))
    | tunWriter x =>
      simp only at h
      unfold runTunWriteThread at h
      repeat' split at h
      all_goals (cases h; try simp [State.halt, hp])

theorem exec_messagesPool (acts : List Action) {s : State} (hp : s.messagesPool = []) :
    (exec acts s).messagesPool = [] := by
  induction acts generalizing s with
  | nil => exact hp
  | cons a rest ih =>
    rw [exec_cons]
    apply ih
    unfold next
    cases h : step a s with
    | none => exact hp
    | some t => exact step_messagesPool h hp

set_option maxRecDepth 1000000 in
/-- C2 (DeviceWriter releases its batch) does not hold of the code.  The
goroutine of `runTunWriteThread` never calls `putSocketMessages`: in every
reachable state `messagesPool` is empty.  In the run `relayBatch1` the batch
at address 0 is processed completely and without failure (its datagram is
written, the goroutine is back at the channel), yet the pool does not contain
it and cannot hand it out again. -/
theorem deviceWriter_never_releases_batch :
    (∀ (addr : String) (acts : List Action), (exec acts (init addr)).messagesPool = []) ∧
    (exec relayBatch1 (init "peer")).tunWriter = .pop ∧
    (exec relayBatch1 (init "peer")).halted = none ∧
    (exec relayBatch1 (init "peer")).udpReadChan = [] ∧
    (exec relayBatch1 (init "peer")).tunWrites = [⟨[7, 7, 7], false⟩] ∧
    (exec relayBatch1 (init "peer")).batchHeap.length = 1 ∧
    (exec relayBatch1 (init "peer")).messagesPool.count 0 = 0 ∧
    step (.udpReader (.get (some 0))) (exec relayBatch1 (init "peer")) = none := by
  refine ⟨fun addr acts => exec_messagesPool acts rfl, by rfl, by rfl, by rfl, by rfl, by rfl,
    by rfl, by rfl⟩

/-- In a state satisfying the invariant the slice `pkt.data[:pkt.packetLen]`
of line 193 is in range for every allocated packet. -/
theorem sendPayload_ok {s : State} (hi : InvP s) {pkt : Nat} (h : pkt < s.packetHeap.length) :
    sendPayload s.packetHeap pkt = some (payloadAt s.packetHeap pkt) := by
  have hget : s.packetHeap[pkt]? = some s.packetHeap[pkt] := List.getElem?_eq_getElem h
  have hp := hi.heap_ok _ (List.getElem?_mem hget)
  simp only [sendPayload, payloadAt, hget, sliceTo]
  rw [if_pos]
  exact ⟨hp.2.1, by rw [hp.1]; exact hp.2.2⟩

/-- C5 (SocketWriter releases the packet regardless of send outcome).  In any
reachable state where the goroutine of `runUDPWriteThread` is about to receive
packet `pkt` from `tunReadChan`: it sends `pkt.data[:pkt.packetLen]` (in
range) to the configured address, then `putDataPacket` adds `pkt` to the pool,
which did not contain it, exactly once, whether `WriteTo` failed or not, and
only then a failure stops the process. -/
theorem socketWriter_releases_packet (addr : String) (acts : List Action) (s : State)
    (pkt : Nat) (rest : List Nat) (err : Bool)
    (hs : s = exec acts (init addr)) (hh : s.halted = none)
    (hpc : s.udpWriter = .pop) (hc : s.tunReadChan = pkt :: rest) :
    sendPayload s.packetHeap pkt = some (payloadAt s.packetHeap pkt) ∧
    (exec [.udpWriter .run, .udpWriter (.send err)] s).udpSends =
      s.udpSends ++ [⟨payloadAt s.packetHeap pkt, addr, err⟩] ∧
    (exec [.udpWriter .run, .udpWriter (.send err)] s).packetPool = s.packetPool ∧
    s.packetPool.count pkt = 0 ∧
    (exec [.udpWriter .run, .udpWriter (.send err), .udpWriter .run] s).packetPool =
      pkt :: s.packetPool ∧
    (exec [.udpWriter .run, .udpWriter (.send err), .udpWriter .run] s).halted = none ∧
    (exec [.udpWriter .run, .udpWriter (.send err), .udpWriter .run, .udpWriter .run] s).packetPool
      = pkt :: s.packetPool ∧
    (exec [.udpWriter .run, .udpWriter (.send err), .udpWriter .run, .udpWriter .run] s).udpSends
      = s.udpSends ++ [⟨payloadAt s.packetHeap pkt, addr, err⟩] ∧
    (exec [.udpWriter .run, .udpWriter (.send err), .udpWriter .run, .udpWriter .run] s).halted
      = (if err then some .fatalUdpWrite else none) := by
  have hinv : InvP s := by rw [hs]; exact (inv_reachable addr acts).1
  have haddr : s.addr = addr := by rw [hs, exec_addr]; rfl
  have hmem : pkt ∈ s.tunReadChan := by rw [hc]; exact List.mem_cons_self _ _
  have hlt := chan_lt hinv hmem
  have hpay := sendPayload_ok hinv hlt
  have hcount : s.packetPool.count pkt = 0 := by
    have h1 := (hinv.own pkt).1
    have h2 := List.count_pos_iff.mpr hmem
    unfold ownersP at h1; omega
  refine ⟨hpay, ?_, ?_, hcount, ?_, ?_, ?_, ?_, ?_⟩
  all_goals cases err
  all_goals simp [exec, next, step, runUDPWriteThread, putDataPacket, State.halt, hh, hpc, hc,
    hpay, haddr]

set_option maxRecDepth 1000000 in
/-- C5 on the packet of `readPacket3`, with a `WriteTo` that fails: the packet
is in the pool before the process stops. -/
theorem socketWriter_releases_packet_witness :
    (exec [.udpWriter .run, .udpWriter (.send true), .udpWriter .run]
        (exec readPacket3 (init "peer"))).packetPool = [0] ∧
    (exec [.udpWriter .run, .udpWriter (.send true), .udpWriter .run]
        (exec readPacket3 (init "peer"))).halted = none ∧
    (exec [.udpWriter .run, .udpWriter (.send true), .udpWriter .run, .udpWriter .run]
        (exec readPacket3 (init "peer"))).halted = some .fatalUdpWrite := by
  have h := socketWriter_releases_packet "peer" readPacket3 (exec readPacket3 (init "peer")) 0 []
    true rfl (by rfl) (by rfl) (by rfl)
  exact ⟨h.2.2.2.2.1, h.2.2.2.2.2.1, h.2.2.2.2.2.2.2.2⟩

/-- C6 (Packet length invariant).  The packet the pool allocates has a buffer
of exactly `mtu` = 1500 bytes and `packetLen` 0; in every reachable state every
packet object has a buffer of exactly `mtu` bytes and `0 <= packetLen <= mtu`,
and every packet in the pool or on the channel `tunReadChan` is such an
object.  (A device read returning a length outside the buffer panics at
`packet[:plen]` before any packet is touched, so the invariant needs no
assumption on the device.) -/
theorem packet_length_invariant (addr : String) (acts : List Action) :
    mtu = 1500 ∧ newDataPacket.data.length = mtu ∧ newDataPacket.packetLen = 0 ∧
    (∀ p ∈ (exec acts (init addr)).packetHeap,
      p.data.length = mtu ∧ 0 ≤ p.packetLen ∧ p.packetLen ≤ (mtu : Int)) ∧
    (∀ id, id ∈ (exec acts (init addr)).packetPool ∨ id ∈ (exec acts (init addr)).tunReadChan →
      ∃ p, (exec acts (init addr)).packetHeap[id]? = some p ∧
        p.data.length = mtu ∧ 0 ≤ p.packetLen ∧ p.packetLen ≤ (mtu : Int)) := by
  have hinv := (inv_reachable addr acts).1
  refine ⟨rfl, by simp [newDataPacket], rfl, hinv.heap_ok, ?_⟩
  intro id hid
  have hlt : id < (exec acts (init addr)).packetHeap.length := by
    apply owned_lt hinv
    rcases hid with hid | hid
    · have := List.count_pos_iff.mpr hid
      unfold ownersP; omega
    · have := List.count_pos_iff.mpr hid
      unfold ownersP; omega
  have hget := List.getElem?_eq_getElem hlt
  exact ⟨_, hget, hinv.heap_ok _ (List.getElem?_mem hget)⟩

set_option maxRecDepth 1000000 in
/-- C6 on the packet of the run `readPacket3`. -/
theorem packet_length_invariant_witness :
    packet3 ∈ (exec readPacket3 (init "peer")).packetHeap ∧
      packet3.data.length = mtu ∧ 0 ≤ packet3.packetLen ∧ packet3.packetLen ≤ (mtu : Int) :=
  have hmem : packet3 ∈ (exec readPacket3 (init "peer")).packetHeap := by
    have e : (exec readPacket3 (init "peer")).packetHeap = [packet3] := by rfl
    rw [e]; exact List.mem_singleton.mpr rfl
  ⟨hmem, (packet_length_invariant "peer" readPacket3).2.2.2.1 packet3 hmem⟩

/-- What one reader iteration leaves behind when it reuses a pooled packet:
the packet is on the channel and its payload is the packet just read. -/
theorem readerIteration_reuse (s : State) (dp : Nat) (old : DataPacket) (buf : List Byte)
    (plen : Int) (hh : s.halted = none) (hpc : s.tunReader = .read)
    (hpool : dp ∈ s.packetPool) (hget : s.packetHeap[dp]? = some old)
    (hold : old.data.length = mtu) (hbuf : buf.length = mtu) (hpk : s.packet.length = mtu)
    (h0 : 0 ≤ plen) (hle : plen ≤ (mtu : Int)) (hcap : s.tunReadChan.length < chanCap) :
    (exec (readerIteration buf plen dp) s).tunReadChan = s.tunReadChan ++ [dp] ∧
    (exec (readerIteration buf plen dp) s).halted = none ∧
    sendPayload (exec (readerIteration buf plen dp) s).packetHeap dp =
      some (buf.take plen.toNat) := by
  have hdp : dp < s.packetHeap.length := by
    rcases List.getElem?_eq_some.mp hget with ⟨h, _⟩; exact h
  have hsl : sliceTo buf plen = some (buf.take plen.toNat) := by
    simp [sliceTo, h0, hbuf, hle]
  have htl : (buf.take plen.toNat).length = plen.toNat := by
    rw [List.length_take]; omega
  have hcopy : (goCopy old.data (buf.take plen.toNat)).take plen.toNat = buf.take plen.toNat := by
    have := goCopy_take old.data (buf.take plen.toNat) (by omega)
    rw [htl] at this; exact this
  have hfinal : sliceTo (goCopy old.data (buf.take plen.toNat)) plen =
      some (buf.take plen.toNat) := by
    simp only [sliceTo, goCopy_length, hold]
    rw [if_pos ⟨h0, hle⟩, hcopy]
  refine ⟨?_, ?_, ?_⟩
  · simp [readerIteration, exec, next, step, runTunReadThread, getDataPacket, hh, hpc, hbuf,
      hpk, hpool, hget, hsl, hdp, hcap]
  · simp [readerIteration, exec, next, step, runTunReadThread, getDataPacket, hh, hpc, hbuf,
      hpk, hpool, hget, hsl, hdp, hcap]
  · simp [readerIteration, exec, next, step, runTunReadThread, getDataPacket, hh, hpc, hbuf,
      hpk, hpool, hget, hsl, hdp, hcap, sendPayload, hfinal]

theorem runTunReadThread_udpWriter {a : TunReadAct} {s t : State}
    (h : runTunReadThread a s = some t) :
    t.udpWriter = s.udpWriter ∧ t.udpSends = s.udpSends := by
  unfold runTunReadThread at h
  repeat' split at h
  all_goals first
    | (cases h <;> simp [State.halt]; done)
    | (rename_i hg; obtain ⟨heap, pool, rfl⟩ := getDataPacket_eq hg; cases h; simp)

theorem runUDPWriteThread_tunReader {a : UdpWriteAct} {s t : State}
    (h : runUDPWriteThread a s = some t) :
    t.tunReader = s.tunReader ∧ t.packetHeap = s.packetHeap ∧ t.packet = s.packet ∧
      t.tunReads = s.tunReads := by
  unfold runUDPWriteThread at h
  repeat' split at h
  all_goals (cases h <;> simp [State.halt, putDataPacket])

theorem runUDPReadThread_tunWriter {a : UdpReadAct} {s t : State}
    (h : runUDPReadThread a s = some t) :
    t.tunWriter = s.tunWriter ∧ t.tunWrites = s.tunWrites := by
  unfold runUDPReadThread at h
  repeat' split at h
  all_goals first
    | (cases h <;> simp [State.halt]; done)
    | (rename_i hg; obtain ⟨heap, pool, rfl⟩ := getSocketMessages_eq hg; cases h; simp)

theorem runTunWriteThread_udpReader {a : TunWriteAct} {s t : State}
    (h : runTunWriteThread a s = some t) :
    t.udpReader = s.udpReader ∧ t.batchHeap = s.batchHeap ∧ t.udpRecvs = s.udpRecvs ∧
      t.messagesPool = s.messagesPool := by
  unfold runTunWriteThread at h
  repeat' split at h
  all_goals (cases h <;> simp [State.halt, putDataPacket])

/-- Once a device `Write` has failed, the goroutine of `runTunWriteThread`
stays at its `log.Fatal` and issues no further write. -/
theorem tunWriter_failed_forever (acts : List Action) : ∀ (s : State) (ms i : Nat),
    s.tunWriter = .check ms i true →
    (exec acts s).tunWriter = .check ms i true ∧ (exec acts s).tunWrites = s.tunWrites := by
  induction acts with
  | nil => intro s ms i h; exact ⟨h, rfl⟩
  | cons a rest ih =>
    intro s ms i hpc
    rw [exec_cons]
    have key : (next s a).tunWriter = .check ms i true ∧ (next s a).tunWrites = s.tunWrites := by
      unfold next
      cases h : step a s with
      | none => exact ⟨hpc, rfl⟩
      | some t =>
        simp only [Option.getD_some]
        unfold step at h
        split at h
        · cases h
        · cases a with
          | tunReader x =>
            have f := runTunReadThread_sameB h
            exact ⟨f.2.2.2.2.1.trans hpc, f.2.2.2.2.2.1⟩
          | udpWriter x =>
            have f := runUDPWriteThread_sameB h
            exact ⟨f.2.2.2.2.1.trans hpc, f.2.2.2.2.2.1⟩
          | udpReader x =>
            have f := runUDPReadThread_tunWriter h
            exact ⟨f.1.trans hpc, f.2⟩
          | tunWriter x =>
            simp only at h
            unfold runTunWriteThread at h
            rw [hpc] at h
            cases x <;> simp at h
            subst h
            exact ⟨hpc, rfl⟩
    have := ih (next s a) ms i key.1
    exact ⟨this.1, this.2.trans key.2⟩

/-- Once `WriteTo` has failed, the goroutine of `runUDPWriteThread` only
releases the packet and reaches its `log.Fatal`; it issues no further send. -/
theorem udpWriter_failed_forever (acts : List Action) : ∀ (s : State) (pkt : Nat),
    (s.udpWriter = .put pkt true ∨ s.udpWriter = .check true) →
    ((exec acts s).udpWriter = .put pkt true ∨ (exec acts s).udpWriter = .check true) ∧
      (exec acts s).udpSends = s.udpSends := by
  induction acts with
  | nil => intro s pkt h; exact ⟨h, rfl⟩
  | cons a rest ih =>
    intro s pkt hpc
    rw [exec_cons]
    have key : ((next s a).udpWriter = .put pkt true ∨ (next s a).udpWriter = .check true) ∧
        (next s a).udpSends = s.udpSends := by
      unfold next
      cases h : step a s with
      | none => exact ⟨hpc, rfl⟩
      | some t =>
        simp only [Option.getD_some]
        unfold step at h
        split at h
        · cases h
        · cases a with
          | tunReader x =>
            have f := runTunReadThread_udpWriter h
            rw [f.1, f.2]; exact ⟨hpc, rfl⟩
          | udpWriter x =>
            simp only at h
            unfold runUDPWriteThread at h
            rcases hpc with hpc | hpc
            · rw [hpc] at h
              cases x <;> simp at h
              subst h
              exact ⟨Or.inr rfl, rfl⟩
            · rw [hpc] at h
              cases x <;> simp at h
              subst h
              exact ⟨Or.inr hpc, rfl⟩
          | udpReader x =>
            have f := runUDPReadThread_sameP h
            rw [f.2.2.2.2.2.1, f.2.2.2.2.2.2.2.1]; exact ⟨hpc, rfl⟩
          | tunWriter x =>
            have f := runTunWriteThread_sameP h
            rw [f.2.2.2.2.2.1, f.2.2.2.2.2.2.2.1]; exact ⟨hpc, rfl⟩
    have := ih (next s a) pkt key.1
    exact ⟨this.1, this.2.trans key.2⟩

theorem runUDPWriteThread_tunReadChan {a : UdpWriteAct} {s t : State}
    (h : runUDPWriteThread a s = some t) :
    t.tunReadChan = s.tunReadChan ∨ t.tunReadChan = s.tunReadChan.drop 1 := by
  unfold runUDPWriteThread at h
  repeat' split at h
  all_goals (cases h <;> simp_all [State.halt, putDataPacket])

theorem runTunWriteThread_udpReadChan {a : TunWriteAct} {s t : State}
    (h : runTunWriteThread a s = some t) :
    t.udpReadChan = s.udpReadChan ∨ t.udpReadChan = s.udpReadChan.drop 1 := by
  unfold runTunWriteThread at h
  repeat' split at h
  all_goals (cases h <;> simp_all [State.halt])

/-- Once a device `Read` has failed, the goroutine of `runTunReadThread` stays
at its `log.Fatal`: whatever the other goroutines do, it reads nothing more and
puts nothing on `tunReadChan`, from which packets are only taken. -/
theorem tunReader_failed_forever (acts : List Action) : ∀ (s : State) (plen : Int),
    s.tunReader = .check plen true →
    (exec acts s).tunReader = .check plen true ∧ (exec acts s).tunReads = s.tunReads ∧
      ∃ k, (exec acts s).tunReadChan = s.tunReadChan.drop k := by
  induction acts with
  | nil => intro s plen h; exact ⟨h, rfl, 0, rfl⟩
  | cons a rest ih =>
    intro s plen hpc
    rw [exec_cons]
    have key : (next s a).tunReader = .check plen true ∧ (next s a).tunReads = s.tunReads ∧
        ((next s a).tunReadChan = s.tunReadChan ∨
          (next s a).tunReadChan = s.tunReadChan.drop 1) := by
      unfold next
      cases h : step a s with
      | none => exact ⟨hpc, rfl, Or.inl rfl⟩
      | some t =>
        simp only [Option.getD_some]
        unfold step at h
        split at h
        · cases h
        · cases a with
          | tunReader x =>
            simp only at h
            unfold runTunReadThread at h
            rw [hpc] at h
            cases x <;> simp at h
            subst h
            exact ⟨hpc, rfl, Or.inl rfl⟩
          | udpWriter x =>
            have f := runUDPWriteThread_tunReader h
            exact ⟨f.1.trans hpc, f.2.2.2, runUDPWriteThread_tunReadChan h⟩
          | udpReader x =>
            have f := runUDPReadThread_sameP h
            exact ⟨f.2.2.2.2.1.trans hpc, f.2.2.2.2.2.2.1, Or.inl f.2.2.1⟩
          | tunWriter x =>
            have f := runTunWriteThread_sameP h
            exact ⟨f.2.2.2.2.1.trans hpc, f.2.2.2.2.2.2.1, Or.inl f.2.2.1⟩
    obtain ⟨k, hk⟩ := (ih (next s a) plen key.1).2.2
    refine ⟨(ih (next s a) plen key.1).1, ((ih (next s a) plen key.1).2.1).trans key.2.1, ?_⟩
    rcases key.2.2 with e | e
    · exact ⟨k, by rw [hk, e]⟩
    · exact ⟨1 + k, by rw [hk, e, List.drop_drop]⟩

/-- Once a batched receive has failed, the goroutine of `runUDPReadThread`
stays at its `log.Fatal`: it receives nothing more and puts nothing on
`udpReadChan`, from which batches are only taken. -/
theorem udpReader_failed_forever (acts : List Action) :
    ∀ (s : State) (ms : Nat) (msgCount : Int), s.udpReader = .check ms msgCount true →
    (exec acts s).udpReader = .check ms msgCount true ∧ (exec acts s).udpRecvs = s.udpRecvs ∧
      ∃ k, (exec acts s).udpReadChan = s.udpReadChan.drop k := by
  induction acts with
  | nil => intro s ms msgCount h; exact ⟨h, rfl, 0, rfl⟩
  | cons a rest ih =>
    intro s ms msgCount hpc
    rw [exec_cons]
    have key : (next s a).udpReader = .check ms msgCount true ∧
        (next s a).udpRecvs = s.udpRecvs ∧
        ((next s a).udpReadChan = s.udpReadChan ∨
          (next s a).udpReadChan = s.udpReadChan.drop 1) := by
      unfold next
      cases h : step a s with
      | none => exact ⟨hpc, rfl, Or.inl rfl⟩
      | some t =>
        simp only [Option.getD_some]
        unfold step at h
        split at h
        · cases h
        · cases a with
          | tunReader x =>
            have f := runTunReadThread_sameB h
            exact ⟨f.2.2.2.1.trans hpc, f.2.2.2.2.2.2, Or.inl f.2.2.1⟩
          | udpWriter x =>
            have f := runUDPWriteThread_sameB h
            exact ⟨f.2.2.2.1.trans hpc, f.2.2.2.2.2.2, Or.inl f.2.2.1⟩
          | udpReader x =>
            simp only at h
            unfold runUDPReadThread at h
            rw [hpc] at h
            cases x <;> simp at h
            subst h
            exact ⟨hpc, rfl, Or.inl rfl⟩
          | tunWriter x =>
            have f := runTunWriteThread_udpReader h
            exact ⟨f.1.trans hpc, f.2.2.1, runTunWriteThread_udpReadChan h⟩
    obtain ⟨k, hk⟩ := (ih (next s a) ms msgCount key.1).2.2
    refine ⟨(ih (next s a) ms msgCount key.1).1,
      ((ih (next s a) ms msgCount key.1).2.1).trans key.2.1, ?_⟩
    rcases key.2.2 with e | e
    · exact ⟨k, by rw [hk, e]⟩
    · exact ⟨1 + k, by rw [hk, e, List.drop_drop]⟩

theorem tunReader_failed_halts (u : State) (plen : Int) (hh : u.halted = none)
    (hpc : u.tunReader = .check plen true) :
    (next u (.tunReader .run)).halted = some .fatalTunRead := by
  simp [next, step, runTunReadThread, State.halt, hh, hpc]

theorem udpReader_failed_halts (u : State) (ms : Nat) (msgCount : Int) (hh : u.halted = none)
    (hpc : u.udpReader = .check ms msgCount true) :
    (next u (.udpReader .run)).halted = some .fatalUdpRead := by
  simp [next, step, runUDPReadThread, State.halt, hh, hpc]

theorem udpWriter_failed_halts (u : State) (pkt : Nat) (hh : u.halted = none)
    (hpc : u.udpWriter = .put pkt true ∨ u.udpWriter = .check true) :
    (exec [.udpWriter .run, .udpWriter .run] u).halted = some .fatalUdpWrite := by
  rcases hpc with hpc | hpc
  · simp [exec, next, step, runUDPWriteThread, putDataPacket, State.halt, hh, hpc]
  · simp [exec, next, step, runUDPWriteThread, putDataPacket, State.halt, hh, hpc]

theorem tunWriter_failed_halts (u : State) (ms i : Nat) (hh : u.halted = none)
    (hpc : u.tunWriter = .check ms i true) :
    (next u (.tunWriter .run)).halted = some .fatalTunWrite := by
  simp [next, step, runTunWriteThread, State.halt, hh, hpc]

/-- C8 (Every I/O failure is fatal).  Each of the four goroutines, once its
I/O call has returned an error, does nothing but reach its `log.Fatal`,
whatever the schedule of the other goroutines, and `log.Fatal` stops the
process.  (1) A device `Read` that returns an error logs no packet, touches no
packet object and puts nothing on `tunReadChan`; from then on the reading
goroutine stays at the test of line 98, no packet is read, packets are only
taken from `tunReadChan`, and the goroutine's next statement is `log.Fatal`.
(2) The same for a batched receive that returns an error: nothing is put on
`udpReadChan`.  (3) After a `WriteTo` that returns an error the sending
goroutine issues no further send; it only releases the packet and then
executes `log.Fatal`.  (4) After a device `Write` on slot `i` that returns an
error the writing goroutine issues no further write (no later slot, no later
batch), and its next statement is `log.Fatal`.  (5) Once the process has
stopped no goroutine runs a statement. -/
theorem io_failure_is_fatal :
    (∀ (s t : State) (buf : List Byte) (plen : Int),
      step (.tunReader (.read buf plen true)) s = some t →
        t.tunReadChan = s.tunReadChan ∧ t.tunReads = s.tunReads ∧
        t.packetHeap = s.packetHeap ∧ t.packetPool = s.packetPool ∧
        ∀ acts, (exec acts t).tunReader = .check plen true ∧
          (exec acts t).tunReads = s.tunReads ∧
          (∃ k, (exec acts t).tunReadChan = s.tunReadChan.drop k) ∧
          ((exec acts t).halted = none →
            (next (exec acts t) (.tunReader .run)).halted = some .fatalTunRead)) ∧
    (∀ (s t : State) (ms : Nat) (msgs : List Message) (msgCount : Int),
      s.udpReader = .recv ms → s.batchHeap[ms]? ≠ none →
      step (.udpReader (.recv msgs msgCount true)) s = some t →
        t.udpReadChan = s.udpReadChan ∧ t.udpRecvs = s.udpRecvs ∧
        ∀ acts, (exec acts t).udpReader = .check ms msgCount true ∧
          (exec acts t).udpRecvs = s.udpRecvs ∧
          (∃ k, (exec acts t).udpReadChan = s.udpReadChan.drop k) ∧
          ((exec acts t).halted = none →
            (next (exec acts t) (.udpReader .run)).halted = some .fatalUdpRead)) ∧
    (∀ (s t : State) (pkt : Nat),
      s.udpWriter = .send pkt → sendPayload s.packetHeap pkt ≠ none →
      step (.udpWriter (.send true)) s = some t →
        ∀ acts, (exec acts t).udpSends = t.udpSends ∧
          ((exec acts t).udpWriter = .put pkt true ∨ (exec acts t).udpWriter = .check true) ∧
          ((exec acts t).halted = none →
            (exec [.udpWriter .run, .udpWriter .run] (exec acts t)).halted =
              some .fatalUdpWrite)) ∧
    (∀ (s t : State) (ms i : Nat) (plen : Int),
      s.tunWriter = .write ms i plen → writePayload s.batchHeap ms i plen ≠ none →
      step (.tunWriter (.write true)) s = some t →
        ∀ acts, (exec acts t).tunWrites = t.tunWrites ∧
          (exec acts t).tunWriter = .check ms i true ∧
          ((exec acts t).halted = none →
            (next (exec acts t) (.tunWriter .run)).halted = some .fatalTunWrite)) ∧
    (∀ (u : State) (acts : List Action), u.halted ≠ none → exec acts u = u) := by
  refine ⟨?_, ?_, ?_, ?_, ?_⟩
  · intro s t buf plen h
    unfold step at h
    split at h
    · cases h
    · simp only at h
      cases hpc : s.tunReader <;> simp [runTunReadThread, hpc] at h
      obtain ⟨_, rfl⟩ := h
      refine ⟨rfl, rfl, rfl, rfl, ?_⟩
      intro acts
      have f := tunReader_failed_forever acts
        { s with packet := buf, tunReader := .check plen true } plen rfl
      exact ⟨f.1, f.2.1, f.2.2, fun hh => tunReader_failed_halts _ plen hh f.1⟩
  · intro s t ms msgs msgCount hpc hne h
    unfold step at h
    split at h
    · cases h
    · simp only at h
      unfold runUDPReadThread at h
      rw [hpc] at h
      simp only at h
      cases hb : s.batchHeap[ms]? with
      | none => exact absurd hb hne
      | some b =>
        rw [hb] at h
        simp only [ite_true] at h
        split at h
        · cases h
        · cases h
          refine ⟨rfl, rfl, ?_⟩
          intro acts
          have f := udpReader_failed_forever acts
            { s with batchHeap := s.batchHeap.set ms { b with messages := msgs },
                     udpReader := .check ms msgCount true } ms msgCount rfl
          exact ⟨f.1, f.2.1, f.2.2, fun hh => udpReader_failed_halts _ ms msgCount hh f.1⟩
  · intro s t pkt hpc hne h acts
    unfold step at h
    split at h
    · cases h
    · simp only at h
      unfold runUDPWriteThread at h
      rw [hpc] at h
      simp only at h
      cases hp : sendPayload s.packetHeap pkt with
      | none => exact absurd hp hne
      | some payload =>
        rw [hp] at h
        cases h
        have f := udpWriter_failed_forever acts
          { s with udpSends := s.udpSends ++ [⟨payload, s.addr, true⟩],
                   udpWriter := .put pkt true } pkt (Or.inl rfl)
        refine ⟨f.2, f.1, ?_⟩
        intro hh
        exact udpWriter_failed_halts _ pkt hh f.1
  · intro s t ms i plen hpc hne h acts
    unfold step at h
    split at h
    · cases h
    · simp only at h
      unfold runTunWriteThread at h
      rw [hpc] at h
      simp only at h
      cases hp : writePayload s.batchHeap ms i plen with
      | none => exact absurd hp hne
      | some payload =>
        rw [hp] at h
        cases h
        have f := tunWriter_failed_forever acts
          { s with tunWrites := s.tunWrites ++ [⟨payload, true⟩],
                   tunWriter := .check ms i true } ms i rfl
        refine ⟨f.2, f.1, ?_⟩
        intro hh
        exact tunWriter_failed_halts _ ms i hh f.1
  · intro u acts hu
    exact exec_halted acts hu

set_option maxRecDepth 1000000 in
/-- C8 on four runs, one for each I/O call returning an error, each followed by
a schedule on which the other goroutines relay a packet or a batch. -/
theorem io_failure_is_fatal_witness :
    ((exec relayBatch1 afterFailedRead).tunReader = .check 0 true ∧
      (exec relayBatch1 afterFailedRead).tunReads = [] ∧
      (next (exec relayBatch1 afterFailedRead) (.tunReader .run)).halted =
        some .fatalTunRead) ∧
    ((exec readPacket3 afterFailedRecv).udpReader = .check 0 1 true ∧
      (exec readPacket3 afterFailedRecv).udpRecvs = [] ∧
      (next (exec readPacket3 afterFailedRecv) (.udpReader .run)).halted =
        some .fatalUdpRead) ∧
    (exec readPacket3 (next beforeSend (.udpWriter (.send true)))).udpSends =
      (next beforeSend (.udpWriter (.send true))).udpSends ∧
    (exec recvBatch3 (next beforeWrite (.tunWriter (.write true)))).tunWrites =
      (next beforeWrite (.tunWriter (.write true))).tunWrites ∧
    exec relayBatch1 (next (exec relayBatch1 afterFailedRead) (.tunReader .run)) =
      next (exec relayBatch1 afterFailedRead) (.tunReader .run) :=
  have h1 := (io_failure_is_fatal.1 (init "peer") afterFailedRead (List.replicate mtu 0) 0
    (by rfl)).2.2.2.2 relayBatch1
  have h2 := (io_failure_is_fatal.2.1 (exec [.udpReader (.get none)] (init "peer"))
    afterFailedRecv 0 batch1 1 (by rfl) (by decide) (by rfl)).2.2 readPacket3
  ⟨⟨h1.1, h1.2.1, h1.2.2.2 (by rfl)⟩, ⟨h2.1, h2.2.1, h2.2.2.2 (by rfl)⟩,
   (io_failure_is_fatal.2.2.1 beforeSend (next beforeSend (.udpWriter (.send true))) 0
      (by rfl) (by decide) (by rfl) readPacket3).1,
   (io_failure_is_fatal.2.2.2.1 beforeWrite (next beforeWrite (.tunWriter (.write true))) 0 0 3
      (by rfl) (by decide) (by rfl) recvBatch3).1,
   io_failure_is_fatal.2.2.2.2 (next (exec relayBatch1 afterFailedRead) (.tunReader .run))
      relayBatch1 (by decide)⟩

/-- A step keeps `tunReadChan` within its capacity. -/
theorem step_tunReadChan_le {a : Action} {s t : State} (h : step a s = some t)
    (hl : s.tunReadChan.length ≤ chanCap) : t.tunReadChan.length ≤ chanCap := by
  unfold step at h
  split at h
  · cases h
  · cases a with
    | tunReader x =>
      simp only at h
      unfold runTunReadThread at h
      repeat' split at h
      all_goals first
        | (cases h <;> simp [State.halt] <;> omega)
        | (rename_i hg; obtain ⟨heap, pool, rfl⟩ := getDataPacket_eq hg; cases h; exact hl)
    | udpWriter x =>
      simp only at h
      unfold runUDPWriteThread at h
      repeat' split at h
      all_goals (cases h <;> simp_all [State.halt, putDataPacket] <;> omega)
    | udpReader x => rw [(runUDPReadThread_sameP h).2.2.1]; exact hl
    | tunWriter x => rw [(runTunWriteThread_sameP h).2.2.1]; exact hl

/-- A step keeps `udpReadChan` within its capacity. -/
theorem step_udpReadChan_le {a : Action} {s t : State} (h : step a s = some t)
    (hl : s.udpReadChan.length ≤ chanCap) : t.udpReadChan.length ≤ chanCap := by
  unfold step at h
  split at h
  · cases h
  · cases a with
    | tunReader x => rw [(runTunReadThread_sameB h).2.2.1]; exact hl
    | udpWriter x => rw [(runUDPWriteThread_sameB h).2.2.1]; exact hl
    | udpReader x =>
      simp only at h
      unfold runUDPReadThread at h
      repeat' split at h
      all_goals first
        | (cases h <;> simp [State.halt] <;> omega)
        | (rename_i hg; obtain ⟨heap, pool, rfl⟩ := getSocketMessages_eq hg; cases h; exact hl)
    | tunWriter x =>
      simp only at h
      unfold runTunWriteThread at h
      repeat' split at h
      all_goals (cases h <;> simp_all [State.halt, putDataPacket] <;> omega)

theorem exec_chan_le (acts : List Action) {s : State}
    (h1 : s.tunReadChan.length ≤ chanCap) (h2 : s.udpReadChan.length ≤ chanCap) :
    (exec acts s).tunReadChan.length ≤ chanCap ∧ (exec acts s).udpReadChan.length ≤ chanCap := by
  induction acts generalizing s with
  | nil => exact ⟨h1, h2⟩
  | cons a rest ih =>
    rw [exec_cons]
    unfold next
    cases h : step a s with
    | none => exact ih h1 h2
    | some t => exact ih (step_tunReadChan_le h h1) (step_udpReadChan_le h h2)

/-- Only the goroutine of `runTunReadThread` writes to packets: a step of any
other goroutine leaves it where it is and leaves every packet as it is. -/
theorem next_other_tunReader (s : State) (a : Action) (h : ∀ x, a ≠ .tunReader x) :
    (next s a).tunReader = s.tunReader ∧ (next s a).packetHeap = s.packetHeap := by
  unfold next
  cases hs : step a s with
  | none => exact ⟨rfl, rfl⟩
  | some t =>
    simp only [Option.getD_some]
    unfold step at hs
    split at hs
    · cases hs
    · cases a with
      | tunReader x => exact absurd rfl (h x)
      | udpWriter x => exact ⟨(runUDPWriteThread_tunReader hs).1, (runUDPWriteThread_tunReader hs).2.1⟩
      | udpReader x =>
        exact ⟨(runUDPReadThread_sameP hs).2.2.2.2.1, (runUDPReadThread_sameP hs).1⟩
      | tunWriter x =>
        exact ⟨(runTunWriteThread_sameP hs).2.2.2.2.1, (runTunWriteThread_sameP hs).1⟩

/-- Only the goroutine of `runUDPReadThread` writes to batches. -/
theorem next_other_udpReader (s : State) (a : Action) (h : ∀ x, a ≠ .udpReader x) :
    (next s a).udpReader = s.udpReader ∧ (next s a).batchHeap = s.batchHeap := by
  unfold next
  cases hs : step a s with
  | none => exact ⟨rfl, rfl⟩
  | some t =>
    simp only [Option.getD_some]
    unfold step at hs
    split at hs
    · cases hs
    · cases a with
      | tunReader x =>
        exact ⟨(runTunReadThread_sameB hs).2.2.2.1, (runTunReadThread_sameB hs).1⟩
      | udpWriter x =>
        exact ⟨(runUDPWriteThread_sameB hs).2.2.2.1, (runUDPWriteThread_sameB hs).1⟩
      | udpReader x => exact absurd rfl (h x)
      | tunWriter x => exact ⟨(runTunWriteThread_udpReader hs).1, (runTunWriteThread_udpReader hs).2.1⟩

theorem exec_other_tunReader (acts : List Action) (s : State)
    (h : ∀ a ∈ acts, ∀ x, a ≠ .tunReader x) :
    (exec acts s).tunReader = s.tunReader ∧ (exec acts s).packetHeap = s.packetHeap := by
  induction acts generalizing s with
  | nil => exact ⟨rfl, rfl⟩
  | cons a rest ih =>
    rw [exec_cons]
    have h1 := next_other_tunReader s a (h a (List.mem_cons_self _ _))
    have h2 := ih (next s a) (fun b hb => h b (List.mem_cons_of_mem _ hb))
    exact ⟨h2.1.trans h1.1, h2.2.trans h1.2⟩

theorem exec_other_udpReader (acts : List Action) (s : State)
    (h : ∀ a ∈ acts, ∀ x, a ≠ .udpReader x) :
    (exec acts s).udpReader = s.udpReader ∧ (exec acts s).batchHeap = s.batchHeap := by
  induction acts generalizing s with
  | nil => exact ⟨rfl, rfl⟩
  | cons a rest ih =>
    rw [exec_cons]
    have h1 := next_other_udpReader s a (h a (List.mem_cons_self _ _))
    have h2 := ih (next s a) (fun b hb => h b (List.mem_cons_of_mem _ hb))
    exact ⟨h2.1.trans h1.1, h2.2.trans h1.2⟩

/-- C9 (Backpressure, no drop).  Both channels have capacity 1000 and never
hold more in a reachable state.  A producer (device reader, socket reader)
that is at its channel send while the channel is full cannot take a step;
whatever the other goroutines do meanwhile, it is still at that send with the
same pending object, and no heap object (packet, batch) has changed; and when
the consumer receives the oldest item of the full channel, the producer's send
appends the pending object at the tail, nothing else changing. -/
theorem backpressure_no_drop :
    chanCap = 1000 ∧
    (∀ (addr : String) (acts : List Action),
      (exec acts (init addr)).tunReadChan.length ≤ chanCap ∧
      (exec acts (init addr)).udpReadChan.length ≤ chanCap) ∧
    (∀ (s : State) (dp : Nat), s.tunReader = .push dp → chanCap ≤ s.tunReadChan.length →
      ∀ x, step (.tunReader x) s = none) ∧
    (∀ (s : State) (dp : Nat) (acts : List Action), s.tunReader = .push dp →
      (∀ a ∈ acts, ∀ x, a ≠ .tunReader x) →
      (exec acts s).tunReader = .push dp ∧ (exec acts s).packetHeap = s.packetHeap) ∧
    (∀ (s : State) (dp x : Nat) (rest : List Nat), s.halted = none →
      s.tunReader = .push dp → s.udpWriter = .pop → s.tunReadChan = x :: rest →
      s.tunReadChan.length = chanCap →
      exec [.udpWriter .run, .tunReader .run] s =
        { s with tunReadChan := rest ++ [dp], udpWriter := .send x, tunReader := .read }) ∧
    (∀ (s : State) (ms : Nat), s.udpReader = .push ms → chanCap ≤ s.udpReadChan.length →
      ∀ x, step (.udpReader x) s = none) ∧
    (∀ (s : State) (ms : Nat) (acts : List Action), s.udpReader = .push ms →
      (∀ a ∈ acts, ∀ x, a ≠ .udpReader x) →
      (exec acts s).udpReader = .push ms ∧ (exec acts s).batchHeap = s.batchHeap) ∧
    (∀ (s : State) (ms x : Nat) (rest : List Nat), s.halted = none →
      s.udpReader = .push ms → s.tunWriter = .pop → s.udpReadChan = x :: rest →
      s.udpReadChan.length = chanCap →
      exec [.tunWriter .run, .udpReader .run] s =
        { s with udpReadChan := rest ++ [ms], tunWriter := .loop x 0, udpReader := .get }) := by
  refine ⟨rfl, fun addr acts => exec_chan_le acts (by simp [init]) (by simp [init]),
    ?_, ?_, ?_, ?_, ?_, ?_⟩
  · intro s dp hpc hfull x
    unfold step
    split
    · rfl
    · have hn : ¬ s.tunReadChan.length < chanCap := by omega
      cases x <;> simp [runTunReadThread, hpc, hn]
  · intro s dp acts hpc hothers
    have h := exec_other_tunReader acts s hothers
    exact ⟨h.1.trans hpc, h.2⟩
  · intro s dp x rest hh hpc hw hc hlen
    have hr : rest.length < chanCap := by
      rw [hc] at hlen; simp at hlen; omega
    simp [exec, next, step, runUDPWriteThread, putDataPacket, runTunReadThread, getDataPacket, hh, hpc, hw, hc, hr]
  · intro s ms hpc hfull x
    unfold step
    split
    · rfl
    · have hn : ¬ s.udpReadChan.length < chanCap := by omega
      cases x <;> simp [runUDPReadThread, hpc, hn]
  · intro s ms acts hpc hothers
    have h := exec_other_udpReader acts s hothers
    exact ⟨h.1.trans hpc, h.2⟩
  · intro s ms x rest hh hpc hw hc hlen
    have hr : rest.length < chanCap := by
      rw [hc] at hlen; simp at hlen; omega
    simp [exec, next, step, runTunWriteThread, runUDPReadThread, getSocketMessages, hh, hpc, hw, hc, hr]

theorem set_concat_length {α : Type} (l : List α) (a b : α) :
    (l ++ [a]).set l.length b = l ++ [b] := by
  induction l with
  | nil => rfl
  | cons x xs ih => simp [ih]

theorem drainBatch_exec (n : Nat) : ∀ s : State, drainBatch n s = exec (drainActs n s) s := by
  induction n with
  | zero => intro s; rfl
  | succ n ih =>
    intro s
    cases hpc : s.tunWriter with
    | pop => simp [drainBatch, drainActs, hpc, exec]
    | loop ms i => simp [drainBatch, drainActs, hpc, exec_cons, ih]
    | write ms i plen => simp [drainBatch, drainActs, hpc, exec_cons, ih]
    | check ms i err => simp [drainBatch, drainActs, hpc, exec_cons, ih]

theorem relayBatch_idle (x : List Message × Int) (s : State) (hx : recvContract x)
    (hh : s.halted = none) (hr : s.udpReader = .get) (hw : s.tunWriter = .pop)
    (hc : s.udpReadChan = []) :
    exec (relayBatchActs x s) s =
      { s with batchHeap := s.batchHeap ++ [⟨x.1, x.2⟩]
               udpRecvs := s.udpRecvs ++ x.1.take x.2.toNat
               tunWrites := s.tunWrites ++ writeCalls (toWrite (x.1.take x.2.toNat)) } := by
  obtain ⟨hshape, hcount, hN⟩ := hx
  have hcap : 0 < chanCap := by decide
  have e5 : exec (recvBatchActs x) s =
      { s with batchHeap := s.batchHeap ++ [⟨x.1, x.2⟩]
               udpRecvs := s.udpRecvs ++ x.1.take x.2.toNat
               tunWriter := .loop s.batchHeap.length 0 } := by
    simp [recvBatchActs, exec, next, step, runUDPReadThread, getSocketMessages, runTunWriteThread, hh, hr, hw, hc, hshape,
      newSocketMessages_shape, set_concat_length, hcap]
  have hd := drainBatch_loop (x.2.toNat - 0)
    { s with batchHeap := s.batchHeap ++ [⟨x.1, x.2⟩]
             udpRecvs := s.udpRecvs ++ x.1.take x.2.toNat
             tunWriter := .loop s.batchHeap.length 0 }
    s.batchHeap.length 0 ⟨x.1, x.2⟩ 76 hh rfl (List.getElem?_concat_length _ _) hshape
    (by simpa [batchLen] using hcount) hN rfl (by omega)
  unfold relayBatchActs
  rw [exec_append, ← drainBatch_exec, e5, hd]
  simp [hw]

theorem writeCalls_append (l1 l2 : List (List Byte)) :
    writeCalls (l1 ++ l2) = writeCalls l1 ++ writeCalls l2 := by
  simp [writeCalls]

/-- Relaying a sequence of contract-respecting batches one after the other
from an idle state: every non-empty datagram is written, in order, by a
successful `Write`, and the pipeline is idle again. -/
theorem relayActs_idle (input : List (List Message × Int)) :
    ∀ s : State, (∀ x ∈ input, recvContract x) → s.halted = none → s.udpReader = .get →
      s.tunWriter = .pop → s.udpReadChan = [] →
      exec (relayActs input s) s =
        { s with batchHeap := s.batchHeap ++ input.map (fun x => ⟨x.1, x.2⟩)
                 udpRecvs := s.udpRecvs ++ delivered input
                 tunWrites := s.tunWrites ++ writeCalls (toWrite (delivered input)) } := by
  induction input with
  | nil =>
    intro s _ _ _ _ _
    simp [relayActs, exec, delivered, toWrite, writeCalls]
  | cons x rest ih =>
    intro s hx hh hr hw hc
    have e1 := relayBatch_idle x s (hx x (List.mem_cons_self _ _)) hh hr hw hc
    have h2 := ih (exec (relayBatchActs x s) s) (fun y hy => hx y (List.mem_cons_of_mem _ hy))
      (by rw [e1]; exact hh) (by rw [e1]; exact hr) (by rw [e1]; exact hw) (by rw [e1]; exact hc)
    simp only [relayActs]
    rw [exec_append, h2, e1]
    simp [delivered, toWrite_append, writeCalls_append]

/-- When the device writer is at the channel receive, the channel is empty and
the socket receiver holds no received batch, nothing is pending. -/
theorem pendingB_idle {s : State} (hw : s.tunWriter = .pop) (hc : s.udpReadChan = [])
    (hr : s.udpReader = .get ∨ ∃ ms, s.udpReader = .recv ms) : pendingB s = [] := by
  rcases hr with hr | ⟨ms, hr⟩ <;>
    simp [pendingB, pendingTunWriter, pendingUdpReader, hw, hc, hr]

set_option maxRecDepth 1000000 in
/-- C3 as stated fails for a datagram of length 0.  In the run
`relayEmptyDatagram` the batched receive delivers one datagram, of length 0, in
slot 0 of a batch with count 1; no I/O call fails; the batch is processed
completely (the device writer is back at the channel, which is empty); and no
write at all has been issued on the virtual interface, so it is not the case
that every delivered datagram has a write carrying its bytes. -/
theorem socket_to_device_skips_empty_datagram :
    (exec relayEmptyDatagram (init "peer")).udpRecvs.map payloadOf = [[]] ∧
    (exec relayEmptyDatagram (init "peer")).udpRecvs.map (fun m => m.N) = [0] ∧
    (exec relayEmptyDatagram (init "peer")).halted = none ∧
    (exec relayEmptyDatagram (init "peer")).udpReader = .get ∧
    (exec relayEmptyDatagram (init "peer")).udpReadChan = [] ∧
    (exec relayEmptyDatagram (init "peer")).tunWriter = .pop ∧
    (exec relayEmptyDatagram (init "peer")).tunWrites = [] ∧
    ¬ (∀ m ∈ (exec relayEmptyDatagram (init "peer")).udpRecvs,
        ∃ w ∈ (exec relayEmptyDatagram (init "peer")).tunWrites, w.payload = payloadOf m) := by
  have hw : (exec relayEmptyDatagram (init "peer")).tunWrites = [] := by rfl
  have hr : (exec relayEmptyDatagram (init "peer")).udpRecvs = [recvMessage 0] := by rfl
  refine ⟨by rfl, by rfl, by rfl, by rfl, by rfl, by rfl, hw, ?_⟩
  intro h
  obtain ⟨w, hmem, _⟩ := h (recvMessage 0) (by rw [hr]; exact List.mem_singleton.mpr rfl)
  rw [hw] at hmem
  cases hmem

/-- When the device reader is at the device read, the channel is empty and the
sender is not about to send, nothing is pending. -/
theorem pendingP_idle {s : State} (hr : s.tunReader = .read) (hc : s.tunReadChan = [])
    (hw : ∀ pkt, s.udpWriter ≠ .send pkt) : pendingP s = [] := by
  have : pendingUdpWriter s.udpWriter s.packetHeap = [] := by
    cases hpc : s.udpWriter with
    | send pkt => exact absurd hpc (hw pkt)
    | _ => rfl
  simp [pendingP, pendingTunReader, hr, hc, this]

theorem packetBuf_length {P : List Byte} (h : P.length ≤ mtu) : (packetBuf P).length = mtu := by
  simp [packetBuf]; omega

theorem packetBuf_take (P : List Byte) : (packetBuf P).take P.length = P := by
  simp [packetBuf]

theorem relayPacket_idle (P : List Byte) (s : State) (hP : P.length ≤ mtu)
    (hh : s.halted = none) (hr : s.tunReader = .read) (hw : s.udpWriter = .pop)
    (hc : s.tunReadChan = []) (hpk : s.packet.length = mtu) :
    exec (relayPacketActs P) s =
      { s with packet := packetBuf P
               packetHeap := s.packetHeap ++ [⟨goCopy newDataPacket.data P, P.length⟩]
               packetPool := s.packetHeap.length :: s.packetPool
               tunReads := s.tunReads ++ [P]
               udpSends := s.udpSends ++ [⟨P, s.addr, false⟩] } := by
  have hcap : 0 < chanCap := by decide
  have hlen := packetBuf_length hP
  have htake := packetBuf_take P
  have hsl : sliceTo (packetBuf P) (P.length : Int) = some P := by
    simp [sliceTo, hlen, hP, htake]
  have hcopy : sliceTo (goCopy newDataPacket.data P) (P.length : Int) = some P := by
    have hl : (goCopy newDataPacket.data P).length = mtu := by
      rw [goCopy_length]; simp [newDataPacket]
    have := goCopy_take newDataPacket.data P (by simp [newDataPacket]; exact hP)
    simp [sliceTo, hl, hP, this]
  simp [relayPacketActs, exec, next, step, runTunReadThread, getDataPacket, runUDPWriteThread, putDataPacket, hh, hr, hw, hc, hpk,
    hlen, htake, hsl, set_concat_length, hcap, sendPayload, hcopy]

/-- Relaying a sequence of packets one after the other from an idle state:
every packet is sent, in order, by a successful `WriteTo` to the peer address,
and the pipeline is idle again. -/
theorem relayPackets_idle (packets : List (List Byte)) :
    ∀ s : State, (∀ P ∈ packets, P.length ≤ mtu) → s.halted = none → s.tunReader = .read →
      s.udpWriter = .pop → s.tunReadChan = [] → s.packet.length = mtu →
      (exec (relayPacketsActs packets) s).halted = none ∧
      (exec (relayPacketsActs packets) s).tunReads = s.tunReads ++ packets ∧
      (exec (relayPacketsActs packets) s).udpSends = s.udpSends ++ sendCalls s.addr packets ∧
      (exec (relayPacketsActs packets) s).tunReader = .read ∧
      (exec (relayPacketsActs packets) s).udpWriter = .pop ∧
      (exec (relayPacketsActs packets) s).tunReadChan = [] := by
  induction packets with
  | nil =>
    intro s _ hh hr hw hc _
    simp [relayPacketsActs, exec, sendCalls, hh, hr, hw, hc]
  | cons P rest ih =>
    intro s hP hh hr hw hc hpk
    have hP1 := hP P (List.mem_cons_self _ _)
    have e1 := relayPacket_idle P s hP1 hh hr hw hc hpk
    have h2 := ih (exec (relayPacketActs P) s) (fun Q hQ => hP Q (List.mem_cons_of_mem _ hQ))
      (by rw [e1]; exact hh) (by rw [e1]; exact hr) (by rw [e1]; exact hw) (by rw [e1]; exact hc)
      (by rw [e1]; exact packetBuf_length hP1)
    have e2 : relayPacketsActs (P :: rest) = relayPacketActs P ++ relayPacketsActs rest := by
      simp [relayPacketsActs]
    rw [e2, exec_append]
    refine ⟨h2.1, ?_, ?_, h2.2.2.2.1, h2.2.2.2.2.1, h2.2.2.2.2.2⟩
    · rw [h2.2.1, e1]; simp
    · rw [h2.2.2.1, e1]; simp [sendCalls]

theorem reusePacket_idle (P : List Byte) (s : State) (dp : Nat) (old : DataPacket)
    (hP : P.length ≤ mtu) (hh : s.halted = none) (hr : s.tunReader = .read)
    (hw : s.udpWriter = .pop) (hc : s.tunReadChan = []) (hpk : s.packet.length = mtu)
    (hpool : dp ∈ s.packetPool) (hget : s.packetHeap[dp]? = some old)
    (hold : old.data.length = mtu) :
    exec (reusePacketActs P dp) s =
      { s with packet := packetBuf P
               packetHeap := s.packetHeap.set dp ⟨goCopy old.data P, P.length⟩
               packetPool := dp :: s.packetPool.erase dp
               tunReads := s.tunReads ++ [P]
               udpSends := s.udpSends ++ [⟨P, s.addr, false⟩] } := by
  have hcap : 0 < chanCap := by decide
  have hlen := packetBuf_length hP
  have htake := packetBuf_take P
  have hdp : dp < s.packetHeap.length := by
    rcases List.getElem?_eq_some.mp hget with ⟨h, _⟩; exact h
  have hsl : sliceTo (packetBuf P) (P.length : Int) = some P := by
    simp [sliceTo, hlen, hP, htake]
  have hcopy : sliceTo (goCopy old.data P) (P.length : Int) = some P := by
    have hl : (goCopy old.data P).length = mtu := by rw [goCopy_length]; exact hold
    have := goCopy_take old.data P (by omega)
    simp [sliceTo, hl, hP, this]
  simp [reusePacketActs, exec, next, step, runTunReadThread, getDataPacket, runUDPWriteThread,
    putDataPacket, hh, hr, hw, hc, hpk, hlen, htake, hsl, hcap, sendPayload, hcopy, hpool, hget,
    hdp]

/-- Relaying a sequence of packets with the single pooled packet 0. -/
theorem reusePackets_idle (packets : List (List Byte)) :
    ∀ s : State, (∀ P ∈ packets, P.length ≤ mtu) → s.halted = none → s.tunReader = .read →
      s.udpWriter = .pop → s.tunReadChan = [] → s.packet.length = mtu →
      s.packetPool = [0] → s.packetHeap.length = 1 →
      (∀ p ∈ s.packetHeap, p.data.length = mtu) →
      (exec (packets.flatMap (fun Q => reusePacketActs Q 0)) s).halted = none ∧
      (exec (packets.flatMap (fun Q => reusePacketActs Q 0)) s).tunReads =
        s.tunReads ++ packets ∧
      (exec (packets.flatMap (fun Q => reusePacketActs Q 0)) s).udpSends =
        s.udpSends ++ sendCalls s.addr packets ∧
      (exec (packets.flatMap (fun Q => reusePacketActs Q 0)) s).packetHeap.length = 1 := by
  induction packets with
  | nil =>
    intro s _ hh _ _ _ _ _ hl _
    simp [exec, sendCalls, hh, hl]
  | cons P rest ih =>
    intro s hP hh hr hw hc hpk hpool hl hdata
    have hP1 := hP P (List.mem_cons_self _ _)
    have h0 : 0 < s.packetHeap.length := by omega
    have hget : s.packetHeap[0]? = some s.packetHeap[0] := List.getElem?_eq_getElem h0
    have hold := hdata _ (List.getElem?_mem hget)
    have e1 := reusePacket_idle P s 0 _ hP1 hh hr hw hc hpk (by simp [hpool]) hget hold
    have h2 := ih (exec (reusePacketActs P 0) s) (fun Q hQ => hP Q (List.mem_cons_of_mem _ hQ))
      (by rw [e1]; exact hh) (by rw [e1]; exact hr) (by rw [e1]; exact hw) (by rw [e1]; exact hc)
      (by rw [e1]; exact packetBuf_length hP1) (by rw [e1]; simp [hpool])
      (by rw [e1]; simpa using hl)
      (by
        rw [e1]
        intro p hp
        rcases List.mem_or_eq_of_mem_set hp with hp | rfl
        · exact hdata p hp
        · simpa [goCopy_length] using hold)
    have e2 : (P :: rest).flatMap (fun Q => reusePacketActs Q 0) =
        reusePacketActs P 0 ++ rest.flatMap (fun Q => reusePacketActs Q 0) := by
      simp
    rw [e2, exec_append]
    refine ⟨h2.1, ?_, ?_, h2.2.2.2⟩
    · rw [h2.2.1, e1]; simp
    · rw [h2.2.2.1, e1]; simp [sendCalls]

/-- The schedule `relayReusingActs` relays every sequence of packets of at
most `mtu` bytes, with at most one packet object. -/
theorem relayReusing_idle (addr : String) (packets : List (List Byte))
    (hP : ∀ P ∈ packets, P.length ≤ mtu) :
    (exec (relayReusingActs packets) (init addr)).halted = none ∧
    (exec (relayReusingActs packets) (init addr)).tunReads = packets ∧
    (exec (relayReusingActs packets) (init addr)).udpSends = sendCalls addr packets ∧
    (exec (relayReusingActs packets) (init addr)).packetHeap.length ≤ 1 := by
  cases packets with
  | nil => simp [relayReusingActs, exec, init, sendCalls]
  | cons P rest =>
    have hP1 := hP P (List.mem_cons_self _ _)
    have e1 := relayPacket_idle P (init addr) hP1 rfl rfl rfl rfl (by simp [init])
    have h2 := reusePackets_idle rest (exec (relayPacketActs P) (init addr))
      (fun Q hQ => hP Q (List.mem_cons_of_mem _ hQ))
      (by rw [e1]; rfl) (by rw [e1]; rfl) (by rw [e1]; rfl) (by rw [e1]; rfl)
      (by rw [e1]; exact packetBuf_length hP1) (by rw [e1]; rfl) (by rw [e1]; rfl)
      (by
        rw [e1]
        intro p hp
        simp only [init, List.nil_append, List.mem_singleton] at hp
        subst hp
        simp [goCopy_length, newDataPacket])
    simp only [relayReusingActs]
    rw [exec_append]
    refine ⟨h2.1, ?_, ?_, Nat.le_of_eq h2.2.2.2⟩
    · rw [h2.2.1, e1]; simp [init]
    · rw [h2.2.2.1, e1]; simp [init, sendCalls]

theorem initInvC (addr : String) : InvC (init addr) := by
  constructor <;> simp [init, heldTunWriter]

theorem batchOK_set_ne (heap : List SocketMessages) (ms id : Nat) (x : SocketMessages)
    (h : id ≠ ms) (hb : batchOK heap id) : batchOK (heap.set ms x) id := by
  unfold batchOK at *
  rw [List.getElem?_set_ne (Ne.symm h)]; exact hb

theorem batchOK_append (heap : List SocketMessages) (x : SocketMessages) (id : Nat)
    (h : id < heap.length) (hb : batchOK heap id) : batchOK (heap ++ [x]) id := by
  unfold batchOK at *
  rw [List.getElem?_append_left h]; exact hb

theorem invC_runTunReadThread {a : TunReadAct} {s t : State}
    (h : runTunReadThread a s = some t) (hi : InvP s) (hc : InvC s)
    (ha : actOK (.tunReader a) = true) : InvC t := by
  have hb := runTunReadThread_sameB h
  have hbatch : (∀ id, (id ∈ t.udpReadChan ∨ id ∈ heldTunWriter t.tunWriter ∨
      t.udpReader = .push id) → batchOK t.batchHeap id) ∧
      (∀ ms msgCount, (t.udpReader = .setCount ms msgCount ∨
        t.udpReader = .check ms msgCount false) → msgCount ≤ 25 ∧
        ∀ m ∈ (messagesAt t.batchHeap ms).take msgCount.toNat, 0 ≤ m.N ∧ m.N ≤ (mtu : Int)) := by
    rw [hb.1, hb.2.2.1, hb.2.2.2.1, hb.2.2.2.2.1]
    exact ⟨hc.batch_ok, hc.count_ok⟩
  have key : (∀ plen, (t.tunReader = .get plen ∨ t.tunReader = .check plen false) →
      0 ≤ plen ∧ plen ≤ (mtu : Int)) ∧
      (∀ plen dp, t.tunReader = .fill plen dp → 0 ≤ plen ∧ plen ≤ (mtu : Int)) ∧
      t.halted ≠ some .panic := by
    unfold runTunReadThread at h
    split at h
    · -- line 97: Read
      rename_i buf plen err hpc
      split at h
      · cases h
      cases h
      refine ⟨?_, ?_, hc.no_panic⟩
      · intro plen2 hh
        simp only [reduceCtorEq, TunReadPC.check.injEq, false_or] at hh
        obtain ⟨rfl, rfl⟩ := hh
        simpa [actOK] using ha
      · intro plen dp hh; simp at hh
    · -- line 98: if err != nil
      rename_i plen err hpc
      split at h
      · cases h
        refine ⟨?_, ?_, ?_⟩
        · intro plen hh; exact hc.get_ok plen hh
        · intro plen dp hh; exact hc.fill_ok plen dp hh
        · simp [State.halt]
      · rename_i herr
        cases h
        refine ⟨?_, ?_, hc.no_panic⟩
        · intro plen2 hh
          simp only [TunReadPC.get.injEq, reduceCtorEq, or_false] at hh
          subst hh
          have herr2 : err = false := by simpa using herr
          subst herr2
          exact hc.get_ok _ (Or.inr hpc)
        · intro plen dp hh; simp at hh
    · -- getDataPacket
      rename_i plen reuse hpc
      cases reuse with
      | none =>
        simp only [getDataPacket] at h
        cases h
        refine ⟨?_, ?_, hc.no_panic⟩
        · intro plen hh; simp at hh
        · intro plen2 dp hh
          simp only [TunReadPC.fill.injEq] at hh
          obtain ⟨rfl, _⟩ := hh
          exact hc.get_ok _ (Or.inl hpc)
      | some p =>
        by_cases hmem : p ∈ s.packetPool
        · simp only [getDataPacket, hmem, if_true] at h
          cases h
          refine ⟨?_, ?_, hc.no_panic⟩
          · intro plen hh; simp at hh
          · intro plen2 dp hh
            simp only [TunReadPC.fill.injEq] at hh
            obtain ⟨rfl, _⟩ := hh
            exact hc.get_ok _ (Or.inl hpc)
        · simp [getDataPacket, hmem] at h
    · -- line 102: copy
      rename_i plen dp hpc
      have hr := hc.fill_ok plen dp hpc
      have hsl : sliceTo s.packet plen = some (s.packet.take plen.toNat) := by
        simp [sliceTo, hr.1, hi.packet_len, hr.2]
      have hdp : dp < s.packetHeap.length :=
        heldTunReader_lt hi (by simp [hpc, heldTunReader])
      have hget : s.packetHeap[dp]? = some s.packetHeap[dp] := List.getElem?_eq_getElem hdp
      rw [hsl, hget] at h
      cases h
      refine ⟨?_, ?_, hc.no_panic⟩
      · intro plen hh; simp at hh
      · intro plen dp hh; simp at hh
    · -- line 103: packetLen = plen
      rename_i plen dp hpc
      obtain ⟨_, _, p, hp, _⟩ := hi.at_setLen plen dp hpc
      rw [hp] at h
      cases h
      refine ⟨?_, ?_, hc.no_panic⟩
      · intro plen hh; simp at hh
      · intro plen dp hh; simp at hh
    · -- line 104: send on the channel
      rename_i dp hpc
      split at h
      · cases h
        refine ⟨?_, ?_, hc.no_panic⟩
        · intro plen hh; simp at hh
        · intro plen dp hh; simp at hh
      · cases h
    · cases h
  exact ⟨key.1, key.2.1, hbatch.1, hbatch.2, key.2.2⟩

theorem invC_runUDPWriteThread {a : UdpWriteAct} {s t : State}
    (h : runUDPWriteThread a s = some t) (hi : InvP s) (hc : InvC s) : InvC t := by
  have hb := runUDPWriteThread_sameB h
  have hr := runUDPWriteThread_tunReader h
  have hbatch : (∀ id, (id ∈ t.udpReadChan ∨ id ∈ heldTunWriter t.tunWriter ∨
      t.udpReader = .push id) → batchOK t.batchHeap id) ∧
      (∀ ms msgCount, (t.udpReader = .setCount ms msgCount ∨
        t.udpReader = .check ms msgCount false) → msgCount ≤ 25 ∧
        ∀ m ∈ (messagesAt t.batchHeap ms).take msgCount.toNat, 0 ≤ m.N ∧ m.N ≤ (mtu : Int)) := by
    rw [hb.1, hb.2.2.1, hb.2.2.2.1, hb.2.2.2.2.1]
    exact ⟨hc.batch_ok, hc.count_ok⟩
  have key : t.halted ≠ some .panic := by
    unfold runUDPWriteThread at h
    split at h
    · split at h
      · cases h
      · cases h; exact hc.no_panic
    · rename_i pkt err hpc
      have hlt : pkt < s.packetHeap.length :=
        heldUdpWriter_lt hi (by simp [hpc, heldUdpWriter])
      rw [sendPayload_ok hi hlt] at h
      cases h; exact hc.no_panic
    · cases h; exact hc.no_panic
    · split at h
      · cases h; simp [State.halt]
      · cases h; exact hc.no_panic
    · cases h
  refine ⟨?_, ?_, hbatch.1, hbatch.2, key⟩
  · rw [hr.1]; exact hc.get_ok
  · rw [hr.1]; exact hc.fill_ok

theorem invC_runUDPReadThread {a : UdpReadAct} {s t : State}
    (h : runUDPReadThread a s = some t) (hi : InvB s) (hc : InvC s)
    (ha : actOK (.udpReader a) = true) : InvC t := by
  have hp := runUDPReadThread_sameP h
  have hw := runUDPReadThread_tunWriter h
  have key : (∀ id, (id ∈ t.udpReadChan ∨ id ∈ heldTunWriter t.tunWriter ∨
      t.udpReader = .push id) → batchOK t.batchHeap id) ∧
      (∀ ms msgCount, (t.udpReader = .setCount ms msgCount ∨
        t.udpReader = .check ms msgCount false) → msgCount ≤ 25 ∧
        ∀ m ∈ (messagesAt t.batchHeap ms).take msgCount.toNat, 0 ≤ m.N ∧ m.N ≤ (mtu : Int)) ∧
      t.halted ≠ some .panic := by
    unfold runUDPReadThread at h
    split at h
    · -- getSocketMessages
      rename_i reuse hpc
      cases reuse with
      | none =>
        simp only [getSocketMessages] at h
        cases h
        refine ⟨?_, ?_, hc.no_panic⟩
        · intro id hid
          simp only [reduceCtorEq, or_false] at hid
          have hlt : id < s.batchHeap.length := by
            rcases hid with hid | hid
            · exact chanB_lt hi hid
            · exact heldTunWriter_lt hi hid
          exact batchOK_append _ _ _ hlt
            (hc.batch_ok id (hid.elim Or.inl (fun x => Or.inr (Or.inl x))))
        · intro ms msgCount hh; simp at hh
      | some p =>
        by_cases hmem : p ∈ s.messagesPool
        · simp only [getSocketMessages, hmem, if_true] at h
          cases h
          refine ⟨?_, ?_, hc.no_panic⟩
          · intro id hid
            simp only [reduceCtorEq, or_false] at hid
            exact hc.batch_ok id (hid.elim Or.inl (fun x => Or.inr (Or.inl x)))
          · intro ms msgCount hh; simp at hh
        · simp [getSocketMessages, hmem] at h
    · -- line 174: ReadBatch
      rename_i ms msgs msgCount err hpc
      have hheld : ms ∈ heldUdpReader s.udpReader := by simp [hpc, heldUdpReader]
      have hms : ms < s.batchHeap.length := heldUdpReader_lt hi hheld
      have hget : s.batchHeap[ms]? = some s.batchHeap[ms] := List.getElem?_eq_getElem hms
      rw [hget] at h
      simp only at h
      have hframe : ∀ (x : SocketMessages) (id : Nat),
          (id ∈ s.udpReadChan ∨ id ∈ heldTunWriter s.tunWriter) →
          batchOK (s.batchHeap.set ms x) id := by
        intro x id hid
        have hne : id ≠ ms := by
          rcases hid with hid | hid
          · exact chanB_ne_held hi hid hheld
          · exact heldTunWriter_ne_held hi hid hheld
        exact batchOK_set_ne _ _ _ _ hne
          (hc.batch_ok id (hid.elim Or.inl (fun x => Or.inr (Or.inl x))))
      split at h
      · cases h
      cases h
      refine ⟨?_, ?_, hc.no_panic⟩
      · intro id hid
        simp only [reduceCtorEq, or_false] at hid
        exact hframe _ id hid
      · intro ms2 msgCount2 hh
        simp only [reduceCtorEq, UdpReadPC.check.injEq, false_or] at hh
        obtain ⟨rfl, rfl, rfl⟩ := hh
        have ha2 : msgCount ≤ 25 ∧
            ∀ m ∈ List.take msgCount.toNat msgs, 0 ≤ m.N ∧ m.N ≤ (mtu : Int) := by
          simpa [actOK] using ha
        simpa [messagesAt, List.getElem?_set_self hms] using ha2
    · -- line 175: if err != nil
      rename_i ms msgCount err hpc
      split at h
      · cases h
        exact ⟨fun id hid => hc.batch_ok id hid, fun ms2 c hh => hc.count_ok ms2 c hh,
          by simp [State.halt]⟩
      · rename_i herr
        cases h
        have herr2 : err = false := by simpa using herr
        subst herr2
        refine ⟨?_, ?_, hc.no_panic⟩
        · intro id hid
          simp only [reduceCtorEq, or_false] at hid
          exact hc.batch_ok id (hid.elim Or.inl (fun x => Or.inr (Or.inl x)))
        · intro ms2 msgCount2 hh
          simp only [UdpReadPC.setCount.injEq, reduceCtorEq, or_false] at hh
          obtain ⟨rfl, rfl⟩ := hh
          exact hc.count_ok _ _ (Or.inr hpc)
    · -- line 178: msgCount
      rename_i ms msgCount hpc
      have hheld : ms ∈ heldUdpReader s.udpReader := by simp [hpc, heldUdpReader]
      have hms : ms < s.batchHeap.length := heldUdpReader_lt hi hheld
      have hget : s.batchHeap[ms]? = some s.batchHeap[ms] := List.getElem?_eq_getElem hms
      rw [hget] at h
      cases h
      refine ⟨?_, ?_, hc.no_panic⟩
      · intro id hid
        rcases hid with hid | hid | hid
        · exact batchOK_set_ne _ _ _ _ (chanB_ne_held hi hid hheld)
            (hc.batch_ok id (Or.inl hid))
        · exact batchOK_set_ne _ _ _ _ (heldTunWriter_ne_held hi hid hheld)
            (hc.batch_ok id (Or.inr (Or.inl hid)))
        · simp only [UdpReadPC.push.injEq] at hid
          subst hid
          have hco := hc.count_ok ms msgCount (Or.inl hpc)
          intro b hb
          simp only [List.getElem?_set_self hms, Option.some.injEq] at hb
          subst hb
          simpa [messagesAt, hget] using hco
      · intro ms2 msgCount2 hh; simp at hh
    · -- line 179: send on the channel
      rename_i ms hpc
      split at h
      · cases h
        refine ⟨?_, ?_, hc.no_panic⟩
        · intro id hid
          simp only [List.mem_append, List.mem_singleton, reduceCtorEq, or_false] at hid
          rcases hid with (hid | rfl) | hid
          · exact hc.batch_ok id (Or.inl hid)
          · exact hc.batch_ok id (Or.inr (Or.inr hpc))
          · exact hc.batch_ok id (Or.inr (Or.inl hid))
        · intro ms2 msgCount2 hh; simp at hh
      · cases h
    · cases h
  refine ⟨?_, ?_, key.1, key.2.1, key.2.2⟩
  · rw [hp.2.2.2.2.1]; exact hc.get_ok
  · rw [hp.2.2.2.2.1]; exact hc.fill_ok

theorem invC_runTunWriteThread {a : TunWriteAct} {s t : State}
    (h : runTunWriteThread a s = some t) (hi : InvB s) (hc : InvC s) : InvC t := by
  have hp := runTunWriteThread_sameP h
  have hr := runTunWriteThread_udpReader h
  have key : (∀ id, (id ∈ t.udpReadChan ∨ id ∈ heldTunWriter t.tunWriter) →
      (id ∈ s.udpReadChan ∨ id ∈ heldTunWriter s.tunWriter)) ∧ t.halted ≠ some .panic := by
    unfold runTunWriteThread at h
    split at h
    · -- line 112: receive from the channel
      rename_i hpc
      split at h
      · cases h
      · rename_i ms rest hch
        cases h
        refine ⟨?_, hc.no_panic⟩
        intro id hid
        simp only [heldTunWriter, List.mem_singleton] at hid
        rw [hch]
        rcases hid with hid | rfl
        · exact Or.inl (List.mem_cons_of_mem _ hid)
        · exact Or.inl (List.mem_cons_self _ _)
    · -- lines 113-117
      rename_i ms i hpc
      have hheld : ms ∈ heldTunWriter s.tunWriter := by simp [hpc, heldTunWriter]
      have hms : ms < s.batchHeap.length := heldTunWriter_lt hi hheld
      have hget : s.batchHeap[ms]? = some s.batchHeap[ms] := List.getElem?_eq_getElem hms
      have hok := hc.batch_ok ms (Or.inr (Or.inl hheld)) _ hget
      have hlen := shape_length (hi.heap_ok _ (List.getElem?_mem hget))
      rw [hget] at h
      simp only at h
      split at h
      · rename_i hlt
        have hi25 : i < (s.batchHeap[ms]).messages.length := by
          simp only [batchLen] at hlen; omega
        rw [List.getElem?_eq_getElem hi25] at h
        simp only at h
        split at h
        · cases h
          exact ⟨fun id hid => by simpa [heldTunWriter, hpc] using hid, hc.no_panic⟩
        · cases h
          exact ⟨fun id hid => by simpa [heldTunWriter, hpc] using hid, hc.no_panic⟩
      · cases h
        refine ⟨?_, hc.no_panic⟩
        intro id hid
        simp only [heldTunWriter, List.not_mem_nil, or_false] at hid
        exact Or.inl hid
    · -- line 118: Write
      rename_i ms i plen err hpc
      have hheld : ms ∈ heldTunWriter s.tunWriter := by simp [hpc, heldTunWriter]
      obtain ⟨b, m, hget, hlt, hm, hn, hz⟩ := hi.at_write ms i plen hpc
      have hok := hc.batch_ok ms (Or.inr (Or.inl hheld)) _ hget
      have hmem : m ∈ b.messages.take b.msgCount.toNat := by
        apply List.getElem?_mem (n := i)
        rw [List.getElem?_take_of_lt (by omega)]; exact hm
      have hN := hok.2 m hmem
      have hpay := writePayload_ok hget hm (hi.heap_ok _ (List.getElem?_mem hget)) hN.1 hN.2
      rw [hn] at hpay
      rw [hpay] at h
      cases h
      exact ⟨fun id hid => by simpa [heldTunWriter, hpc] using hid, hc.no_panic⟩
    · -- line 119: if err != nil
      rename_i ms i err hpc
      split at h
      · cases h
        exact ⟨fun id hid => hid, by simp [State.halt]⟩
      · cases h
        exact ⟨fun id hid => by simpa [heldTunWriter, hpc] using hid, hc.no_panic⟩
    · cases h
  refine ⟨?_, ?_, ?_, ?_, key.2⟩
  · rw [hp.2.2.2.2.1]; exact hc.get_ok
  · rw [hp.2.2.2.2.1]; exact hc.fill_ok
  · intro id hid
    rw [hr.2.1]
    rcases hid with hid | hid | hid
    · exact hc.batch_ok id ((key.1 id (Or.inl hid)).elim Or.inl (fun x => Or.inr (Or.inl x)))
    · exact hc.batch_ok id ((key.1 id (Or.inr hid)).elim Or.inl (fun x => Or.inr (Or.inl x)))
    · rw [hr.1] at hid; exact hc.batch_ok id (Or.inr (Or.inr hid))
  · rw [hr.1, hr.2.1]; exact hc.count_ok

theorem invC_next {s : State} (a : Action) (hi : Inv s) (hc : InvC s) (ha : actOK a = true) :
    InvC (next s a) := by
  unfold next
  cases h : step a s with
  | none => exact hc
  | some t =>
    simp only [Option.getD_some]
    unfold step at h
    split at h
    · cases h
    · cases a with
      | tunReader x => exact invC_runTunReadThread h hi.1 hc ha
      | udpWriter x => exact invC_runUDPWriteThread h hi.1 hc
      | udpReader x => exact invC_runUDPReadThread h hi.2 hc ha
      | tunWriter x => exact invC_runTunWriteThread h hi.2 hc

/-- In a run whose input calls respect their contracts no goroutine panics. -/
theorem invC_exec (acts : List Action) : ∀ s : State, Inv s → InvC s →
    acts.all actOK = true → InvC (exec acts s) := by
  induction acts with
  | nil => intro s _ hc _; exact hc
  | cons a rest ih =>
    intro s hi hc ha
    simp only [List.all_cons, Bool.and_eq_true] at ha
    rw [exec_cons]
    exact ih (next s a) (inv_next a hi) (invC_next a hi hc ha.1) ha.2

/-- C10 (Index safety of the relay loops).  (1) The batch the pool allocates
has exactly 25 messages, each with exactly one payload buffer, of `mtu` bytes,
and so has every batch in every reachable state.  (2) For every batch of that
shape with `msgCount <= 25` and received lengths between 0 and `mtu` in its
first `msgCount` slots, for every `i < msgCount` the accesses `messages[i]`,
`Buffers[0]` and `Buffers[0][:N]` of `runTunWriteThread` are in range.
(3) For every packet of a reachable state with `packetLen <= mtu` the slice
`data[:packetLen]` of `runUDPWriteThread` is in range.  (4) Hence in a run
whose device reads and batched receives respect their contracts the process
never stops with a panic. -/
theorem relay_loops_index_safe :
    (newSocketMessages.messages.length = 25 ∧
      ∀ m ∈ newSocketMessages.messages, ∃ buf, m.Buffers = [buf] ∧ buf.length = mtu) ∧
    (∀ (addr : String) (acts : List Action), ∀ b ∈ (exec acts (init addr)).batchHeap,
      b.messages.length = 25 ∧ ∀ m ∈ b.messages, ∃ buf, m.Buffers = [buf] ∧ buf.length = mtu) ∧
    (∀ b : SocketMessages, b.messages.map shapeOf = batchShape → b.msgCount ≤ 25 →
      (∀ m ∈ b.messages.take b.msgCount.toNat, 0 ≤ m.N ∧ m.N ≤ (mtu : Int)) →
      ∀ i : Nat, (i : Int) < b.msgCount →
        ∃ m buf, b.messages[i]? = some m ∧ m.Buffers[0]? = some buf ∧
          sliceTo buf m.N = some (payloadOf m)) ∧
    (∀ (addr : String) (acts : List Action), ∀ p ∈ (exec acts (init addr)).packetHeap,
      p.packetLen ≤ (mtu : Int) →
        sliceTo p.data p.packetLen = some (p.data.take p.packetLen.toNat)) ∧
    (∀ (addr : String) (acts : List Action), acts.all actOK = true →
      (exec acts (init addr)).halted ≠ some .panic) := by
  refine ⟨⟨shape_length newSocketMessages_shape,
    fun m hm => shape_buffers newSocketMessages_shape hm⟩, ?_, ?_, ?_, ?_⟩
  · intro addr acts b hb
    have hs := (inv_reachable addr acts).2.heap_ok b hb
    exact ⟨shape_length hs, fun m hm => shape_buffers hs hm⟩
  · intro b hs hcount hN i hi
    have hlen := shape_length hs
    have hi25 : i < b.messages.length := by simp only [batchLen] at hlen; omega
    have hm : b.messages[i]? = some b.messages[i] := List.getElem?_eq_getElem hi25
    have hmem : b.messages[i] ∈ b.messages.take b.msgCount.toNat := by
      apply List.getElem?_mem (n := i)
      rw [List.getElem?_take_of_lt (by omega)]; exact hm
    obtain ⟨buf, hbuf, hl⟩ := shape_buffers hs (List.getElem?_mem hm)
    have h := payloadOf_slice hbuf hl (hN _ hmem).1 (hN _ hmem).2
    exact ⟨_, buf, hm, h.1, h.2.1⟩
  · intro addr acts p hp _
    have h := (inv_reachable addr acts).1.heap_ok p hp
    simp [sliceTo, h.1, h.2.1, h.2.2]
  · intro addr acts ha
    exact (invC_exec acts (init addr) (inv_init addr) (initInvC addr) ha).no_panic

set_option maxRecDepth 1000000 in
/-- C10 on slot 2 of the batch `batch3`, on the packet `packet3`, and on a
run that relays one batch and one packet. -/
theorem relay_loops_index_safe_witness :
    (∃ m buf, batch3[2]? = some m ∧ m.Buffers[0]? = some buf ∧
      sliceTo buf m.N = some (payloadOf m)) ∧
    sliceTo packet3.data packet3.packetLen = some (packet3.data.take packet3.packetLen.toNat) ∧
    (exec (relayBatch1 ++ relayPacket3) (init "peer")).halted ≠ some .panic :=
  ⟨relay_loops_index_safe.2.2.1 { messages := batch3, msgCount := 3 } (by rfl) (by decide)
      (by decide) 2 (by decide),
   relay_loops_index_safe.2.2.2.1 "peer" readPacket3 packet3 (by
      have e : (exec readPacket3 (init "peer")).packetHeap = [packet3] := by rfl
      rw [e]; exact List.mem_singleton.mpr rfl) (by decide),
   relay_loops_index_safe.2.2.2.2 "peer" (relayBatch1 ++ relayPacket3) (by decide)⟩

theorem goCopy_nil {α : Type} (dst : List α) : goCopy dst [] = dst := by
  simp [goCopy]

theorem fillTunReadChan_state (addr : String) (n : Nat) (hn : n ≤ chanCap) :
    exec (fillTunReadChanActs n) (init addr) =
      { init addr with packetHeap := List.replicate n newDataPacket
                       tunReadChan := List.range n
                       tunReads := List.replicate n [] } := by
  induction n with
  | zero => rfl
  | succ n ih =>
    have hlt : n < chanCap := by omega
    have hsl : sliceTo (List.replicate mtu (0 : Byte)) 0 = some [] := by simp [sliceTo]
    have hnew : ({ data := newDataPacket.data, packetLen := 0 } : DataPacket) = newDataPacket :=
      rfl
    simp only [fillTunReadChanActs]
    rw [exec_append, ih (by omega)]
    simp [readEmptyActs, exec, next, step, runTunReadThread, getDataPacket, init, hsl,
      set_concat_length, goCopy_nil, hnew, hlt, List.range_succ, List.replicate_succ']

theorem blockTunReader_state (addr : String) (n : Nat) (hn : n ≤ chanCap) :
    exec (blockTunReaderActs n) (init addr) =
      { init addr with packetHeap := List.replicate (n + 1) newDataPacket
                       tunReadChan := List.range n
                       tunReads := List.replicate (n + 1) []
                       tunReader := .push n } := by
  have hsl : sliceTo (List.replicate mtu (0 : Byte)) 0 = some [] := by simp [sliceTo]
  have hnew : ({ data := newDataPacket.data, packetLen := 0 } : DataPacket) = newDataPacket :=
    rfl
  unfold blockTunReaderActs
  rw [exec_append, fillTunReadChan_state addr n hn]
  simp [exec, next, step, runTunReadThread, getDataPacket, init, hsl,
    set_concat_length, goCopy_nil, hnew, List.replicate_succ']

theorem newSocketMessages_eta :
    ({ messages := newSocketMessages.messages, msgCount := 0 } : SocketMessages) =
      newSocketMessages := rfl

theorem fillUdpReadChan_state (addr : String) (n : Nat) (hn : n ≤ chanCap) :
    exec (fillUdpReadChanActs n) (init addr) =
      { init addr with batchHeap := List.replicate n newSocketMessages
                       udpReadChan := List.range n } := by
  induction n with
  | zero => rfl
  | succ n ih =>
    have hlt : n < chanCap := by omega
    simp only [fillUdpReadChanActs]
    rw [exec_append, ih (by omega)]
    simp [recvNothingActs, exec, next, step, runUDPReadThread, getSocketMessages, init,
      set_concat_length, newSocketMessages_eta, hlt, List.range_succ, List.replicate_succ']

theorem blockUdpReader_state (addr : String) (n : Nat) (hn : n ≤ chanCap) :
    exec (blockUdpReaderActs n) (init addr) =
      { init addr with batchHeap := List.replicate (n + 1) newSocketMessages
                       udpReadChan := List.range n
                       udpReader := .push n } := by
  unfold blockUdpReaderActs
  rw [exec_append, fillUdpReadChan_state addr n hn]
  simp [exec, next, step, runUDPReadThread, getSocketMessages, init,
    set_concat_length, newSocketMessages_eta, List.replicate_succ']

set_option maxRecDepth 100000 in
/-- C9 on reachable states: after 1000 iterations of a producer whose consumer
does not run the channel is full, the producer's send is blocked, and once the
consumer has received the oldest item the send appends the pending object at
the tail. -/
theorem backpressure_no_drop_witness :
    (exec (blockTunReaderActs 1000) (init "peer")).tunReadChan.length = 1000 ∧
    step (.tunReader .run) (exec (blockTunReaderActs 1000) (init "peer")) = none ∧
    (exec [.udpWriter .run, .tunReader .run]
      (exec (blockTunReaderActs 1000) (init "peer"))).tunReadChan =
        (List.range 999).map Nat.succ ++ [1000] ∧
    (exec (blockUdpReaderActs 1000) (init "peer")).udpReadChan.length = 1000 ∧
    step (.udpReader .run) (exec (blockUdpReaderActs 1000) (init "peer")) = none ∧
    (exec [.tunWriter .run, .udpReader .run]
      (exec (blockUdpReaderActs 1000) (init "peer"))).udpReadChan =
        (List.range 999).map Nat.succ ++ [1000] := by
  have hs := blockTunReader_state "peer" 1000 (Nat.le_refl _)
  have hu := blockUdpReader_state "peer" 1000 (Nat.le_refl _)
  have hr : List.range 1000 = 0 :: (List.range 999).map Nat.succ := List.range_succ_eq_map 999
  have h1 : (exec (blockTunReaderActs 1000) (init "peer")).tunReadChan.length = chanCap := by
    rw [hs]; exact List.length_range 1000
  have h2 : (exec (blockUdpReaderActs 1000) (init "peer")).udpReadChan.length = chanCap := by
    rw [hu]; exact List.length_range 1000
  refine ⟨h1, ?_, ?_, h2, ?_, ?_⟩
  · exact backpressure_no_drop.2.2.1 _ 1000 (by rw [hs]) (Nat.le_of_eq h1.symm) .run
  · have h := backpressure_no_drop.2.2.2.2.1 (exec (blockTunReaderActs 1000) (init "peer")) 1000
      0 ((List.range 999).map Nat.succ) (by rw [hs]; rfl) (by rw [hs]) (by rw [hs]; rfl)
      (by rw [hs]; exact hr) h1
    rw [h]
  · exact backpressure_no_drop.2.2.2.2.2.1 _ 1000 (by rw [hu]) (Nat.le_of_eq h2.symm) .run
  · have h := backpressure_no_drop.2.2.2.2.2.2.2 (exec (blockUdpReaderActs 1000) (init "peer"))
      1000 0 ((List.range 999).map Nat.succ) (by rw [hu]; rfl) (by rw [hu]) (by rw [hu]; rfl)
      (by rw [hu]; exact hr) h2
    rw [h]

theorem good_exec {s : State} (acts : List Action) (hg : Good s)
    (hok : acts.all actOK = true) (hl : (exec acts s).halted = none) : Good (exec acts s) :=
  ⟨inv_exec acts hg.inv, invC_exec acts s hg.inv hg.invc hok, hl⟩

/-- The sender can always finish its iteration: it reaches the channel receive
without touching the channel, the reader or the packets read. -/
theorem sender_finishes {s : State} (hg : Good s) (hw : senderOK s) :
    ∃ acts, acts.all actOK = true ∧ (exec acts s).halted = none ∧
      (exec acts s).udpWriter = .pop ∧ (exec acts s).tunReadChan = s.tunReadChan ∧
      (exec acts s).tunReader = s.tunReader ∧ (exec acts s).tunReads = s.tunReads := by
  have hh := hg.live
  cases hpc : s.udpWriter with
  | pop => exact ⟨[], rfl, hh, hpc, rfl, rfl, rfl⟩
  | send pkt =>
    have hlt : pkt < s.packetHeap.length :=
      heldUdpWriter_lt hg.inv.1 (by simp [hpc, heldUdpWriter])
    have hpay := sendPayload_ok hg.inv.1 hlt
    refine ⟨[.udpWriter (.send false), .udpWriter .run, .udpWriter .run], rfl, ?_, ?_, ?_, ?_, ?_⟩
    all_goals simp [exec, next, step, runUDPWriteThread, putDataPacket, hh, hpc, hpay]
  | put pkt err =>
    cases err with
    | true => exact absurd hpc (hw.1 pkt)
    | false =>
      refine ⟨[.udpWriter .run, .udpWriter .run], rfl, ?_, ?_, ?_, ?_, ?_⟩
      all_goals simp [exec, next, step, runUDPWriteThread, putDataPacket, hh, hpc]
  | check err =>
    cases err with
    | true => exact absurd hpc hw.2
    | false =>
      refine ⟨[.udpWriter .run], rfl, ?_, ?_, ?_, ?_, ?_⟩
      all_goals simp [exec, next, step, runUDPWriteThread, putDataPacket, hh, hpc]

/-- With the sender at the channel receive, the channel can always be
drained. -/
theorem channel_drains (n : Nat) : ∀ s : State, Good s → s.udpWriter = .pop →
    s.tunReadChan.length = n →
    ∃ acts, acts.all actOK = true ∧ (exec acts s).halted = none ∧
      (exec acts s).udpWriter = .pop ∧ (exec acts s).tunReadChan = [] ∧
      (exec acts s).tunReader = s.tunReader ∧ (exec acts s).tunReads = s.tunReads := by
  induction n with
  | zero =>
    intro s hg hpc hn
    exact ⟨[], rfl, hg.live, hpc, List.length_eq_zero.mp hn, rfl, rfl⟩
  | succ n ih =>
    intro s hg hpc hn
    have hh := hg.live
    cases hc : s.tunReadChan with
    | nil => rw [hc] at hn; cases hn
    | cons pkt rest =>
      have hlt : pkt < s.packetHeap.length :=
        chan_lt hg.inv.1 (by rw [hc]; exact List.mem_cons_self _ _)
      have hpay := sendPayload_ok hg.inv.1 hlt
      have e1 : exec [.udpWriter .run, .udpWriter (.send false), .udpWriter .run,
          .udpWriter .run] s =
          { s with tunReadChan := rest
                   udpSends := s.udpSends ++ [⟨payloadAt s.packetHeap pkt, s.addr, false⟩]
                   packetPool := pkt :: s.packetPool } := by
        simp [exec, next, step, runUDPWriteThread, putDataPacket, hh, hpc, hc, hpay]
      have hg1 := good_exec [.udpWriter .run, .udpWriter (.send false), .udpWriter .run,
          .udpWriter .run] hg rfl (by rw [e1]; exact hh)
      obtain ⟨acts, hok, h1, h2, h3, h4, h5⟩ := ih _ hg1 (by rw [e1]; exact hpc)
        (by rw [e1]; rw [hc] at hn; simpa using hn)
      refine ⟨[.udpWriter .run, .udpWriter (.send false), .udpWriter .run,
          .udpWriter .run] ++ acts, ?_, ?_, ?_, ?_, ?_, ?_⟩
      · simp [hok, actOK]
      · rw [exec_append]; exact h1
      · rw [exec_append]; exact h2
      · rw [exec_append]; exact h3
      · rw [exec_append, h4, e1]
      · rw [exec_append, h5, e1]

/-- When the device reader holds no packet read (it is at the device read, or
at the `log.Fatal` of a failed one), the channel is empty and the sender is not
about to send, nothing is pending. -/
theorem pendingP_quiet {s : State}
    (hr : s.tunReader = .read ∨ ∃ plen, s.tunReader = .check plen true)
    (hc : s.tunReadChan = []) (hw : ∀ pkt, s.udpWriter ≠ .send pkt) : pendingP s = [] := by
  have : pendingUdpWriter s.udpWriter s.packetHeap = [] := by
    cases hpc : s.udpWriter with
    | send pkt => exact absurd hpc (hw pkt)
    | _ => rfl
  rcases hr with hr | ⟨plen, hr⟩ <;> simp [pendingP, pendingTunReader, hr, hc, this]

/-- With an empty channel the reader can always hand over the packet it has
read. -/
theorem reader_finishes {s : State} (hg : Good s) (hc : s.tunReadChan = []) :
    ∃ acts, acts.all actOK = true ∧ (exec acts s).halted = none ∧
      ((exec acts s).tunReader = .read ∨ ∃ plen, (exec acts s).tunReader = .check plen true) ∧
      (exec acts s).udpWriter = s.udpWriter ∧ (exec acts s).tunReads = s.tunReads := by
  have hh := hg.live
  have hcap : 0 < chanCap := by decide
  have hpk := hg.inv.1.packet_len
  cases hpc : s.tunReader with
  | read => exact ⟨[], rfl, hh, Or.inl hpc, rfl, rfl⟩
  | check plen err =>
    cases err with
    | true => exact ⟨[], rfl, hh, Or.inr ⟨plen, hpc⟩, rfl, rfl⟩
    | false =>
      have hr := hg.invc.get_ok plen (Or.inr hpc)
      have hsl : sliceTo s.packet plen = some (s.packet.take plen.toNat) := by
        simp [sliceTo, hr.1, hpk, hr.2]
      refine ⟨[.tunReader .run, .tunReader (.get none), .tunReader .run, .tunReader .run,
        .tunReader .run], rfl, ?_, ?_, ?_, ?_⟩
      all_goals simp [exec, next, step, runTunReadThread, getDataPacket, hh, hpc, hc, hsl, hcap,
        set_concat_length]
  | get plen =>
    have hr := hg.invc.get_ok plen (Or.inl hpc)
    have hsl : sliceTo s.packet plen = some (s.packet.take plen.toNat) := by
      simp [sliceTo, hr.1, hpk, hr.2]
    refine ⟨[.tunReader (.get none), .tunReader .run, .tunReader .run, .tunReader .run], rfl,
      ?_, ?_, ?_, ?_⟩
    all_goals simp [exec, next, step, runTunReadThread, getDataPacket, hh, hpc, hc, hsl, hcap,
      set_concat_length]
  | fill plen dp =>
    have hr := hg.invc.fill_ok plen dp hpc
    have hsl : sliceTo s.packet plen = some (s.packet.take plen.toNat) := by
      simp [sliceTo, hr.1, hpk, hr.2]
    have hdp : dp < s.packetHeap.length :=
      heldTunReader_lt hg.inv.1 (by simp [hpc, heldTunReader])
    have hget : s.packetHeap[dp]? = some s.packetHeap[dp] := List.getElem?_eq_getElem hdp
    refine ⟨[.tunReader .run, .tunReader .run, .tunReader .run], rfl, ?_, ?_, ?_, ?_⟩
    all_goals simp [exec, next, step, runTunReadThread, hh, hpc, hc, hsl, hcap, hget, hdp]
  | setLen plen dp =>
    obtain ⟨_, _, p, hp, _⟩ := hg.inv.1.at_setLen plen dp hpc
    refine ⟨[.tunReader .run, .tunReader .run], rfl, ?_, ?_, ?_, ?_⟩
    all_goals simp [exec, next, step, runTunReadThread, hh, hpc, hc, hcap, hp]
  | push dp =>
    refine ⟨[.tunReader .run], rfl, ?_, ?_, ?_, ?_⟩
    all_goals simp [exec, next, step, runTunReadThread, hh, hpc, hc, hcap]

/-- From any state of a contract-respecting run in which no call has failed,
the device-to-socket direction can run to the end: some schedule takes it,
without failure, to an idle state in which every packet read has been sent. -/
theorem packets_drain {s : State} (hg : Good s) (hw : senderOK s) :
    ∃ acts, (exec acts s).halted = none ∧ (exec acts s).tunReads = s.tunReads ∧
      (exec acts s).udpSends.map (fun c => c.payload) = s.tunReads := by
  obtain ⟨a1, ok1, l1, w1, _, r1, t1⟩ := sender_finishes hg hw
  have g1 := good_exec a1 hg ok1 l1
  obtain ⟨a2, ok2, l2, w2, c2, r2, t2⟩ := channel_drains _ _ g1 w1 rfl
  have g2 := good_exec a2 g1 ok2 l2
  obtain ⟨a3, ok3, l3, r3, w3, t3⟩ := reader_finishes g2 c2
  have g3 := good_exec a3 g2 ok3 l3
  obtain ⟨a4, ok4, l4, w4, c4, r4, t4⟩ := channel_drains _ _ g3 (w3.trans w2) rfl
  have g4 := good_exec a4 g3 ok4 l4
  refine ⟨a1 ++ (a2 ++ (a3 ++ a4)), ?_, ?_, ?_⟩
  · simp only [exec_append]; exact l4
  · simp only [exec_append]; rw [t4, t3, t2, t1]
  · simp only [exec_append]
    have hcontent := g4.inv.1.content
    rw [pendingP_quiet (by rw [r4]; exact r3) c4 (by rw [w4]; intro pkt h; cases h),
      List.append_nil] at hcontent
    rw [hcontent, t4, t3, t2, t1]

theorem drainActs_ok (n : Nat) : ∀ s : State, (drainActs n s).all actOK = true := by
  induction n with
  | zero => intro s; rfl
  | succ n ih =>
    intro s
    cases hpc : s.tunWriter <;> simp [drainActs, hpc, actOK, ih]

/-- The device writer, at the loop test of a batch it holds, finishes the
batch. -/
theorem writer_finishes_loop {s : State} (hg : Good s) {ms i : Nat}
    (hpc : s.tunWriter = .loop ms i) :
    ∃ acts, acts.all actOK = true ∧ (exec acts s).halted = none ∧
      (exec acts s).tunWriter = .pop ∧ (exec acts s).udpReadChan = s.udpReadChan ∧
      (exec acts s).udpReader = s.udpReader ∧ (exec acts s).udpRecvs = s.udpRecvs := by
  have hheld : ms ∈ heldTunWriter s.tunWriter := by simp [hpc, heldTunWriter]
  have hms : ms < s.batchHeap.length := heldTunWriter_lt hg.inv.2 hheld
  have hget : s.batchHeap[ms]? = some s.batchHeap[ms] := List.getElem?_eq_getElem hms
  have hok := hg.invc.batch_ok ms (Or.inr (Or.inl hheld)) _ hget
  have hshape := hg.inv.2.heap_ok _ (List.getElem?_mem hget)
  have hd := drainBatch_loop ((s.batchHeap[ms]).msgCount.toNat - i) s ms i _ 76 hg.live hpc hget
    hshape (by simpa [batchLen] using hok.1) hok.2 rfl (by have := hok.1; omega)
  rw [drainBatch_exec] at hd
  exact ⟨drainActs 76 s, drainActs_ok 76 s, by rw [hd]; exact hg.live, by rw [hd], by rw [hd],
    by rw [hd], by rw [hd]⟩

/-- The device writer can always finish the batch it holds. -/
theorem writer_finishes {s : State} (hg : Good s) (hw : writerOK s) :
    ∃ acts, acts.all actOK = true ∧ (exec acts s).halted = none ∧
      (exec acts s).tunWriter = .pop ∧ (exec acts s).udpReadChan = s.udpReadChan ∧
      (exec acts s).udpReader = s.udpReader ∧ (exec acts s).udpRecvs = s.udpRecvs := by
  have hh := hg.live
  cases hpc : s.tunWriter with
  | pop => exact ⟨[], rfl, hh, hpc, rfl, rfl, rfl⟩
  | loop ms i => exact writer_finishes_loop hg hpc
  | write ms i plen =>
    have hheld : ms ∈ heldTunWriter s.tunWriter := by simp [hpc, heldTunWriter]
    obtain ⟨b, m, hget, hlt, hm, hn, hz⟩ := hg.inv.2.at_write ms i plen hpc
    have hok := hg.invc.batch_ok ms (Or.inr (Or.inl hheld)) _ hget
    have hmem : m ∈ b.messages.take b.msgCount.toNat := by
      apply List.getElem?_mem (n := i)
      rw [List.getElem?_take_of_lt (by omega)]; exact hm
    have hN := hok.2 m hmem
    have hpay := writePayload_ok hget hm (hg.inv.2.heap_ok _ (List.getElem?_mem hget)) hN.1 hN.2
    rw [hn] at hpay
    have e1 : exec [.tunWriter (.write false), .tunWriter .run] s =
        { s with tunWrites := s.tunWrites ++ [⟨payloadOf m, false⟩]
                 tunWriter := .loop ms (i + 1) } := by
      simp [exec, next, step, runTunWriteThread, hh, hpc, hpay]
    have g1 := good_exec [.tunWriter (.write false), .tunWriter .run] hg rfl
      (by rw [e1]; exact hh)
    obtain ⟨acts, ok, h1, h2, h3, h4, h5⟩ := writer_finishes_loop g1
      (show (exec [.tunWriter (.write false), .tunWriter .run] s).tunWriter = .loop ms (i + 1)
        by rw [e1])
    refine ⟨[.tunWriter (.write false), .tunWriter .run] ++ acts, by simp [ok, actOK],
      ?_, ?_, ?_, ?_, ?_⟩
    · rw [exec_append]; exact h1
    · rw [exec_append]; exact h2
    · rw [exec_append, h3, e1]
    · rw [exec_append, h4, e1]
    · rw [exec_append, h5, e1]
  | check ms i err =>
    cases err with
    | true => exact absurd hpc (hw ms i)
    | false =>
      have e1 : exec [.tunWriter .run] s = { s with tunWriter := .loop ms (i + 1) } := by
        simp [exec, next, step, runTunWriteThread, hh, hpc]
      have g1 := good_exec [.tunWriter .run] hg rfl (by rw [e1]; exact hh)
      obtain ⟨acts, ok, h1, h2, h3, h4, h5⟩ := writer_finishes_loop g1
        (show (exec [.tunWriter .run] s).tunWriter = .loop ms (i + 1) by rw [e1])
      refine ⟨[.tunWriter .run] ++ acts, by simp [ok, actOK], ?_, ?_, ?_, ?_, ?_⟩
      · rw [exec_append]; exact h1
      · rw [exec_append]; exact h2
      · rw [exec_append, h3, e1]
      · rw [exec_append, h4, e1]
      · rw [exec_append, h5, e1]

/-- With the device writer at the channel receive, the channel of batches can
always be drained. -/
theorem batches_channel_drains (n : Nat) : ∀ s : State, Good s → s.tunWriter = .pop →
    s.udpReadChan.length = n →
    ∃ acts, acts.all actOK = true ∧ (exec acts s).halted = none ∧
      (exec acts s).tunWriter = .pop ∧ (exec acts s).udpReadChan = [] ∧
      (exec acts s).udpReader = s.udpReader ∧ (exec acts s).udpRecvs = s.udpRecvs := by
  induction n with
  | zero =>
    intro s hg hpc hn
    exact ⟨[], rfl, hg.live, hpc, List.length_eq_zero.mp hn, rfl, rfl⟩
  | succ n ih =>
    intro s hg hpc hn
    have hh := hg.live
    cases hc : s.udpReadChan with
    | nil => rw [hc] at hn; cases hn
    | cons ms rest =>
      have e1 : exec [.tunWriter .run] s =
          { s with udpReadChan := rest, tunWriter := .loop ms 0 } := by
        simp [exec, next, step, runTunWriteThread, hh, hpc, hc]
      have g1 := good_exec [.tunWriter .run] hg rfl (by rw [e1]; exact hh)
      obtain ⟨a2, ok2, l2, w2, c2, r2, t2⟩ := writer_finishes_loop g1
        (show (exec [.tunWriter .run] s).tunWriter = .loop ms 0 by rw [e1])
      have g2 := good_exec a2 g1 ok2 l2
      obtain ⟨a3, ok3, l3, w3, c3, r3, t3⟩ := ih _ g2 w2
        (by rw [c2, e1]; rw [hc] at hn; simpa using hn)
      refine ⟨[.tunWriter .run] ++ (a2 ++ a3), by simp [ok2, ok3, actOK], ?_, ?_, ?_, ?_, ?_⟩
      · simp only [exec_append]; exact l3
      · simp only [exec_append]; exact w3
      · simp only [exec_append]; exact c3
      · simp only [exec_append]; rw [r3, r2, e1]
      · simp only [exec_append]; rw [t3, t2, e1]

/-- When the device writer is at the channel receive, the channel is empty and
the socket receiver holds no received batch (it is before its batched receive,
or at the `log.Fatal` of a failed one), nothing is pending. -/
theorem pendingB_quiet {s : State} (hw : s.tunWriter = .pop) (hc : s.udpReadChan = [])
    (hr : s.udpReader = .get ∨ (∃ ms, s.udpReader = .recv ms) ∨
      ∃ ms msgCount, s.udpReader = .check ms msgCount true) : pendingB s = [] := by
  rcases hr with hr | ⟨ms, hr⟩ | ⟨ms, msgCount, hr⟩ <;>
    simp [pendingB, pendingTunWriter, pendingUdpReader, hw, hc, hr]

/-- With an empty channel the receiver can always hand over the batch it has
received. -/
theorem receiver_finishes {s : State} (hg : Good s) (hc : s.udpReadChan = []) :
    ∃ acts, acts.all actOK = true ∧ (exec acts s).halted = none ∧
      ((exec acts s).udpReader = .get ∨ (∃ ms, (exec acts s).udpReader = .recv ms) ∨
        ∃ ms msgCount, (exec acts s).udpReader = .check ms msgCount true) ∧
      (exec acts s).tunWriter = s.tunWriter ∧ (exec acts s).udpRecvs = s.udpRecvs := by
  have hh := hg.live
  have hcap : 0 < chanCap := by decide
  cases hpc : s.udpReader with
  | get => exact ⟨[], rfl, hh, Or.inl hpc, rfl, rfl⟩
  | recv ms => exact ⟨[], rfl, hh, Or.inr (Or.inl ⟨ms, hpc⟩), rfl, rfl⟩
  | check ms msgCount err =>
    cases err with
    | true => exact ⟨[], rfl, hh, Or.inr (Or.inr ⟨ms, msgCount, hpc⟩), rfl, rfl⟩
    | false =>
      have hms : ms < s.batchHeap.length :=
        heldUdpReader_lt hg.inv.2 (by simp [hpc, heldUdpReader])
      have hget : s.batchHeap[ms]? = some s.batchHeap[ms] := List.getElem?_eq_getElem hms
      refine ⟨[.udpReader .run, .udpReader .run, .udpReader .run], rfl, ?_, ?_, ?_, ?_⟩
      all_goals simp [exec, next, step, runUDPReadThread, hh, hpc, hc, hcap, hget]
  | setCount ms msgCount =>
    have hms : ms < s.batchHeap.length :=
      heldUdpReader_lt hg.inv.2 (by simp [hpc, heldUdpReader])
    have hget : s.batchHeap[ms]? = some s.batchHeap[ms] := List.getElem?_eq_getElem hms
    refine ⟨[.udpReader .run, .udpReader .run], rfl, ?_, ?_, ?_, ?_⟩
    all_goals simp [exec, next, step, runUDPReadThread, hh, hpc, hc, hcap, hget]
  | push ms =>
    refine ⟨[.udpReader .run], rfl, ?_, ?_, ?_, ?_⟩
    all_goals simp [exec, next, step, runUDPReadThread, hh, hpc, hc, hcap]

/-- From any state of a contract-respecting run in which no call has failed,
the socket-to-device direction can run to the end: some schedule takes it,
without failure, to an idle state in which every non-empty datagram received
has been written. -/
theorem batches_drain {s : State} (hg : Good s) (hw : writerOK s) :
    ∃ acts, (exec acts s).halted = none ∧ (exec acts s).udpRecvs = s.udpRecvs ∧
      (exec acts s).tunWrites.map (fun c => c.payload) = toWrite s.udpRecvs := by
  obtain ⟨a1, ok1, l1, w1, _, r1, t1⟩ := writer_finishes hg hw
  have g1 := good_exec a1 hg ok1 l1
  obtain ⟨a2, ok2, l2, w2, c2, r2, t2⟩ := batches_channel_drains _ _ g1 w1 rfl
  have g2 := good_exec a2 g1 ok2 l2
  obtain ⟨a3, ok3, l3, r3, w3, t3⟩ := receiver_finishes g2 c2
  have g3 := good_exec a3 g2 ok3 l3
  obtain ⟨a4, ok4, l4, w4, c4, r4, t4⟩ := batches_channel_drains _ _ g3 (w3.trans w2) rfl
  have g4 := good_exec a4 g3 ok4 l4
  refine ⟨a1 ++ (a2 ++ (a3 ++ a4)), ?_, ?_, ?_⟩
  · simp only [exec_append]; exact l4
  · simp only [exec_append]; rw [t4, t3, t2, t1]
  · simp only [exec_append]
    have hcontent := g4.inv.2.content
    rw [pendingB_quiet w4 c4 (by rw [r4]; exact r3), List.append_nil] at hcontent
    rw [hcontent, t4, t3, t2, t1]

/-- C3 as amended (no loss, no duplication, socket to device, for non-empty
datagrams).  `toWrite msgs` is the list of the payloads `Buffers[0][:N]` of
the messages with `N != 0`.  (1) In every reachable state the payloads of the
device writes issued so far, followed by the non-empty datagrams still held in
the pipeline, are exactly the non-empty datagrams the batched receives
delivered in their first `msgCount` slots, in order: none is lost, duplicated
or altered, and a zero-length slot gives no write.  (2) Hence when the pipeline
is idle the writes are exactly those datagrams.  (3) Every sequence of batched
receives respecting the contract is relayed completely by the schedule
`relayActs`, without any failure: each non-empty datagram is written exactly
once by a successful `Write`.  (4) From every state of a run whose input calls
respect their contracts, the process running and no device `Write` having
failed, some schedule continues the run, without failure, until every
non-empty datagram delivered has been written. -/
theorem socket_to_device_exactly_once :
    (∀ (addr : String) (acts : List Action),
      (exec acts (init addr)).tunWrites.map (fun c => c.payload) ++
        pendingB (exec acts (init addr)) = toWrite (exec acts (init addr)).udpRecvs) ∧
    (∀ (addr : String) (acts : List Action),
      (exec acts (init addr)).tunWriter = .pop → (exec acts (init addr)).udpReadChan = [] →
      ((exec acts (init addr)).udpReader = .get ∨
        ∃ ms, (exec acts (init addr)).udpReader = .recv ms) →
      (exec acts (init addr)).tunWrites.map (fun c => c.payload) =
        toWrite (exec acts (init addr)).udpRecvs) ∧
    (∀ (addr : String) (input : List (List Message × Int)), (∀ x ∈ input, recvContract x) →
      (exec (relayActs input (init addr)) (init addr)).halted = none ∧
      (exec (relayActs input (init addr)) (init addr)).udpRecvs = delivered input ∧
      (exec (relayActs input (init addr)) (init addr)).tunWrites =
        writeCalls (toWrite (delivered input))) ∧
    (∀ (addr : String) (acts : List Action), acts.all actOK = true →
      (exec acts (init addr)).halted = none → writerOK (exec acts (init addr)) →
      ∃ more, (exec (acts ++ more) (init addr)).halted = none ∧
        (exec (acts ++ more) (init addr)).udpRecvs = (exec acts (init addr)).udpRecvs ∧
        (exec (acts ++ more) (init addr)).tunWrites.map (fun c => c.payload) =
          toWrite (exec acts (init addr)).udpRecvs) := by
  refine ⟨fun addr acts => (inv_reachable addr acts).2.content, ?_, ?_, ?_⟩
  · intro addr acts hw hc hr
    have h := (inv_reachable addr acts).2.content
    rw [pendingB_idle hw hc hr, List.append_nil] at h
    exact h
  · intro addr input hx
    rw [relayActs_idle input (init addr) hx rfl rfl rfl rfl]
    exact ⟨rfl, by simp [init], by simp [init]⟩
  · intro addr acts hok hl hw
    have hg : Good (exec acts (init addr)) :=
      good_exec acts ⟨inv_init addr, initInvC addr, rfl⟩ hok hl
    obtain ⟨more, h⟩ := batches_drain hg hw
    exact ⟨more, by simpa only [exec_append] using h⟩

set_option maxRecDepth 1000000 in
/-- C3 as amended, on the run `relayBatch1` and on the batch with lengths 50,
0 and 80. -/
theorem socket_to_device_exactly_once_witness :
    (exec relayBatch1 (init "peer")).tunWrites.map (fun c => c.payload) =
      toWrite (exec relayBatch1 (init "peer")).udpRecvs ∧
    (exec (relayActs [(batch3, 3)] (init "peer")) (init "peer")).tunWrites =
      writeCalls (toWrite (delivered [(batch3, 3)])) ∧
    (∃ more, (exec (recvBatch3 ++ more) (init "peer")).halted = none ∧
      (exec (recvBatch3 ++ more) (init "peer")).udpRecvs =
        (exec recvBatch3 (init "peer")).udpRecvs ∧
      (exec (recvBatch3 ++ more) (init "peer")).tunWrites.map (fun c => c.payload) =
        toWrite (exec recvBatch3 (init "peer")).udpRecvs) :=
  ⟨socket_to_device_exactly_once.2.1 "peer" relayBatch1 (by rfl) (by rfl) (Or.inl (by rfl)),
   (socket_to_device_exactly_once.2.2.1 "peer" [(batch3, 3)] (by
      intro x hx
      rw [List.mem_singleton] at hx
      subst hx
      exact ⟨by rfl, by decide, by decide⟩)).2.2,
   socket_to_device_exactly_once.2.2.2 "peer" recvBatch3 (by decide) (by rfl)
      (by
        intro ms i h
        rw [show (exec recvBatch3 (init "peer")).tunWriter = .loop 0 0 from by rfl] at h
        cases h)⟩

/-- C4 (No loss, no duplication, device to socket).  (1) In every reachable
state, whatever the schedule and whatever the pool handed out, the payloads of
the `WriteTo` calls issued so far, followed by the packets still held in the
pipeline (by the sender, on the channel, by the reader), are exactly the
packets `packet[:plen]` the device reads returned, in order; and every call is
addressed to the configured peer.  (2) Hence when the pipeline is idle the
sends are exactly the packets read.  (3) Every sequence of packets of at most
`mtu` bytes is relayed completely by the schedule `relayPacketsActs`, in which
the pool allocates a fresh packet each time, without any failure: the sends
are exactly these packets, in order, each by one successful `WriteTo` to the
peer.  (4) The same on the schedule `relayReusingActs`, in which the pool hands
out one and the same packet object again for every packet.  (5) From every
state of a run whose input calls respect their contracts, the process running
and no `WriteTo` having failed, some schedule continues the run, without
failure, until every packet read has been sent. -/
theorem device_to_socket_exactly_once :
    (∀ (addr : String) (acts : List Action),
      (exec acts (init addr)).udpSends.map (fun c => c.payload) ++
        pendingP (exec acts (init addr)) = (exec acts (init addr)).tunReads ∧
      ∀ c ∈ (exec acts (init addr)).udpSends, c.addr = addr) ∧
    (∀ (addr : String) (acts : List Action),
      (exec acts (init addr)).tunReader = .read → (exec acts (init addr)).tunReadChan = [] →
      (∀ pkt, (exec acts (init addr)).udpWriter ≠ .send pkt) →
      (exec acts (init addr)).udpSends.map (fun c => c.payload) =
        (exec acts (init addr)).tunReads) ∧
    (∀ (addr : String) (packets : List (List Byte)), (∀ P ∈ packets, P.length ≤ mtu) →
      (exec (relayPacketsActs packets) (init addr)).halted = none ∧
      (exec (relayPacketsActs packets) (init addr)).tunReads = packets ∧
      (exec (relayPacketsActs packets) (init addr)).udpSends = sendCalls addr packets) ∧
    (∀ (addr : String) (packets : List (List Byte)), (∀ P ∈ packets, P.length ≤ mtu) →
      (exec (relayReusingActs packets) (init addr)).halted = none ∧
      (exec (relayReusingActs packets) (init addr)).tunReads = packets ∧
      (exec (relayReusingActs packets) (init addr)).udpSends = sendCalls addr packets ∧
      (exec (relayReusingActs packets) (init addr)).packetHeap.length ≤ 1) ∧
    (∀ (addr : String) (acts : List Action), acts.all actOK = true →
      (exec acts (init addr)).halted = none → senderOK (exec acts (init addr)) →
      ∃ more, (exec (acts ++ more) (init addr)).halted = none ∧
        (exec (acts ++ more) (init addr)).tunReads = (exec acts (init addr)).tunReads ∧
        (exec (acts ++ more) (init addr)).udpSends.map (fun c => c.payload) =
          (exec acts (init addr)).tunReads) := by
  refine ⟨?_, ?_, ?_, relayReusing_idle, ?_⟩
  · intro addr acts
    have hinv := (inv_reachable addr acts).1
    refine ⟨hinv.content, ?_⟩
    intro c hc
    rw [hinv.addr_ok c hc, exec_addr]; rfl
  · intro addr acts hr hc hw
    have h := (inv_reachable addr acts).1.content
    rw [pendingP_idle hr hc hw, List.append_nil] at h
    exact h
  · intro addr packets hP
    have h := relayPackets_idle packets (init addr) hP rfl rfl rfl rfl (by simp [init])
    exact ⟨h.1, by simpa [init] using h.2.1, by simpa [init] using h.2.2.1⟩
  · intro addr acts hok hl hw
    have hg : Good (exec acts (init addr)) :=
      good_exec acts ⟨inv_init addr, initInvC addr, rfl⟩ hok hl
    obtain ⟨more, h⟩ := packets_drain hg hw
    exact ⟨more, by simpa only [exec_append] using h⟩

set_option maxRecDepth 1000000 in
/-- C4 on the run `relayPacket3` and on the packets `[1, 2, 3]`, `[]` and
`[4, 5]`, with fresh packets and with one packet reused. -/
theorem device_to_socket_exactly_once_witness :
    (exec relayPacket3 (init "peer")).udpSends.map (fun c => c.payload) =
      (exec relayPacket3 (init "peer")).tunReads ∧
    (exec (relayPacketsActs [[1, 2, 3], [], [4, 5]]) (init "peer")).udpSends =
      sendCalls "peer" [[1, 2, 3], [], [4, 5]] ∧
    (exec (relayReusingActs [[1, 2, 3], [], [4, 5]]) (init "peer")).udpSends =
      sendCalls "peer" [[1, 2, 3], [], [4, 5]] ∧
    (∃ more, (exec (readPacket3 ++ more) (init "peer")).halted = none ∧
      (exec (readPacket3 ++ more) (init "peer")).tunReads =
        (exec readPacket3 (init "peer")).tunReads ∧
      (exec (readPacket3 ++ more) (init "peer")).udpSends.map (fun c => c.payload) =
        (exec readPacket3 (init "peer")).tunReads) :=
  ⟨device_to_socket_exactly_once.2.1 "peer" relayPacket3 (by rfl) (by rfl) (by
      intro pkt; rw [show (exec relayPacket3 (init "peer")).udpWriter = .pop from by rfl]
      exact fun h => by cases h),
   (device_to_socket_exactly_once.2.2.1 "peer" [[1, 2, 3], [], [4, 5]] (by decide)).2.2,
   (device_to_socket_exactly_once.2.2.2.1 "peer" [[1, 2, 3], [], [4, 5]] (by decide)).2.2.1,
   device_to_socket_exactly_once.2.2.2.2 "peer" readPacket3 (by decide) (by rfl)
      ⟨(by
          intro pkt h
          rw [show (exec readPacket3 (init "peer")).udpWriter = .pop from by rfl] at h
          cases h),
       (by
          intro h
          rw [show (exec readPacket3 (init "peer")).udpWriter = .pop from by rfl] at h
          cases h)⟩⟩

theorem slotsDone_held {ms k : Nat} {pc : TunWritePC} (h : slotsDone ms pc = some k) :
    ms ∈ heldTunWriter pc := by
  cases pc with
  | pop => simp [slotsDone] at h
  | loop m i =>
    by_cases e : m = ms
    · simp [heldTunWriter, e]
    · simp [slotsDone, e] at h
  | write m i plen =>
    by_cases e : m = ms
    · simp [heldTunWriter, e]
    · simp [slotsDone, e] at h
  | check m i err =>
    by_cases e : m = ms
    · simp [heldTunWriter, e]
    · simp [slotsDone, e] at h

theorem BatchRun_frame {before : List (List Byte)} {ms : Nat} {b : SocketMessages}
    {s t : State} (hr : BatchRun before ms b s) (hs : sameB s t) :
    BatchRun before ms b t := by
  obtain ⟨h1, h2, h3, h4, h5, h6, h7⟩ := hs
  refine ⟨?_, ?_, ?_⟩
  · rw [h1]; exact hr.lt
  · rw [h1, h5, h6]; exact hr.busy
  · simp only [ownersB, h2, h3, h4, h5, h6]; exact hr.finished

/-- The socket receiver leaves alone the batch the device writer processes,
and never picks up a batch nothing owns. -/
theorem batchRun_runUDPReadThread {before : List (List Byte)} {ms : Nat} {b : SocketMessages}
    {a : UdpReadAct} {s t : State} (h : runUDPReadThread a s = some t) (hi : InvB s)
    (hr : BatchRun before ms b s) : BatchRun before ms b t := by
  have hw := runUDPReadThread_tunWriter h
  have hlt := hr.lt
  -- the heap at `ms` and the owners of `ms`
  have key : t.batchHeap.length ≥ s.batchHeap.length ∧
      (ms ∈ heldTunWriter s.tunWriter → t.batchHeap[ms]? = s.batchHeap[ms]?) ∧
      (ownersB s ms = 0 → ownersB t ms = 0) := by
    unfold runUDPReadThread at h
    split at h
    · -- getSocketMessages
      rename_i reuse hpc
      cases reuse with
      | none =>
        simp only [getSocketMessages] at h
        cases h
        refine ⟨by simp, fun _ => List.getElem?_append_left hlt, ?_⟩
        intro h0
        have hne : (s.batchHeap.length == ms) = false := by
          simp only [beq_eq_false_iff_ne]; omega
        simp only [ownersB, hpc, heldUdpReader, List.count_nil, List.count_singleton,
          hne] at h0 ⊢
        simpa using h0
      | some p =>
        by_cases hmem : p ∈ s.messagesPool
        · simp only [getSocketMessages, hmem, if_true] at h
          cases h
          refine ⟨le_refl _, fun _ => rfl, ?_⟩
          intro h0
          simp only [ownersB, hpc, heldUdpReader, List.count_nil, List.count_singleton] at h0 ⊢
          have hc0 : s.messagesPool.count ms = 0 := by omega
          have hne : p ≠ ms := by
            rintro rfl
            have := List.count_pos_iff.mpr hmem
            omega
          have e2 : (p == ms) = false := by simpa using hne
          have hle := List.count_erase_of_ne (Ne.symm hne) (l := s.messagesPool)
          simp only [e2, hle]
          simpa using h0
        · simp [getSocketMessages, hmem] at h
    · -- line 174: ReadBatch
      rename_i ms2 msgs msgCount err hpc
      have hheld : ms2 ∈ heldUdpReader s.udpReader := by simp [hpc, heldUdpReader]
      split at h
      · split at h
        · cases h
        cases h
        refine ⟨by simp, ?_, ?_⟩
        · intro hm
          have hne : ms ≠ ms2 := heldTunWriter_ne_held hi hm hheld
          exact List.getElem?_set_ne (Ne.symm hne)
        · intro h0
          simpa [ownersB, hpc, heldUdpReader] using h0
      · cases h
        exact ⟨le_refl _, fun _ => rfl, fun h0 => by simpa [State.halt, ownersB] using h0⟩
    · -- line 175: if err != nil
      rename_i ms2 msgCount err hpc
      split at h
      · cases h
        exact ⟨le_refl _, fun _ => rfl, fun h0 => by simpa [State.halt, ownersB] using h0⟩
      · cases h
        exact ⟨le_refl _, fun _ => rfl,
          fun h0 => by simpa [ownersB, hpc, heldUdpReader] using h0⟩
    · -- line 178: msgCount
      rename_i ms2 msgCount hpc
      have hheld : ms2 ∈ heldUdpReader s.udpReader := by simp [hpc, heldUdpReader]
      split at h
      · cases h
        refine ⟨by simp, ?_, ?_⟩
        · intro hm
          have hne : ms ≠ ms2 := heldTunWriter_ne_held hi hm hheld
          exact List.getElem?_set_ne (Ne.symm hne)
        · intro h0
          simpa [ownersB, hpc, heldUdpReader] using h0
      · cases h
        exact ⟨le_refl _, fun _ => rfl, fun h0 => by simpa [State.halt, ownersB] using h0⟩
    · -- line 179: send on the channel
      rename_i ms2 hpc
      split at h
      · cases h
        refine ⟨le_refl _, fun _ => rfl, ?_⟩
        intro h0
        simp only [ownersB, hpc, heldUdpReader, List.count_append, List.count_nil] at h0 ⊢
        omega
      · cases h
    · cases h
  refine ⟨by omega, ?_, ?_⟩
  · intro k hk
    rw [hw.1] at hk
    obtain ⟨h1, h2, h3⟩ := hr.busy k hk
    exact ⟨h1, by rw [key.2.1 (slotsDone_held hk)]; exact h2, by rw [hw.2]; exact h3⟩
  · intro hk
    rw [hw.1] at hk
    obtain ⟨h1, h2⟩ := hr.finished hk
    exact ⟨key.2.2 h1, by rw [hw.2]; exact h2⟩

theorem ownersB_zero_iff {s : State} {id : Nat} :
    ownersB s id = 0 ↔ s.messagesPool.count id = 0 ∧ s.udpReadChan.count id = 0 ∧
      (heldUdpReader s.udpReader).count id = 0 ∧ (heldTunWriter s.tunWriter).count id = 0 := by
  unfold ownersB; omega

theorem toWrite_take_succ {l : List Message} {i : Nat} {m : Message} (h : l[i]? = some m) :
    toWrite (l.take (i + 1)) =
      toWrite (l.take i) ++ (if m.N = 0 then [] else [payloadOf m]) := by
  rw [List.take_succ, h, toWrite_append]
  by_cases hz : m.N = 0
  · simp [toWrite, hz]
  · simp [toWrite, hz]

/-- One statement of the device writer: it writes the batch it holds slot by
slot, and once it has left a batch it does not come back to it. -/
theorem batchRun_runTunWriteThread {before : List (List Byte)} {ms : Nat} {b : SocketMessages}
    {a : TunWriteAct} {s t : State} (h : runTunWriteThread a s = some t) (hi : InvB s)
    (hr : BatchRun before ms b s) : BatchRun before ms b t := by
  have hu := runTunWriteThread_udpReader h
  have hlt : ms < t.batchHeap.length := by rw [hu.2.1]; exact hr.lt
  unfold runTunWriteThread at h
  split at h
  · -- line 112: receive from the channel
    rename_i hpc
    split at h
    · cases h
    · rename_i ms2 rest hch
      cases h
      obtain ⟨h0, later, hl⟩ := hr.finished (by simp [hpc, slotsDone])
      have hne : ms2 ≠ ms := by
        rintro rfl
        simp only [ownersB, hch, List.count_cons_self] at h0
        omega
      refine ⟨hlt, ?_, ?_⟩
      · intro k hk; simp [slotsDone, hne] at hk
      · intro _
        refine ⟨?_, later, hl⟩
        have e2 : (ms2 == ms) = false := by simpa using hne
        simp only [ownersB, hpc, hch, heldTunWriter, List.count_nil, List.count_singleton,
          List.count_cons, e2] at h0 ⊢
        simpa using h0
  · -- lines 113-117: loop test, length test
    rename_i ms2 i hpc
    by_cases e : ms2 = ms
    · subst e
      obtain ⟨hk, hb, hwr⟩ := hr.busy i (by simp [hpc, slotsDone])
      rw [hb] at h
      simp only at h
      split at h
      · rename_i hlt2
        have hi2 : i < b.msgCount.toNat := by omega
        split at h
        · rename_i m hm
          have hv : (b.messages.take b.msgCount.toNat)[i]? = some m := by
            rw [List.getElem?_take_of_lt hi2]; exact hm
          split at h
          · rename_i hz
            cases h
            refine ⟨hlt, ?_, ?_⟩
            · intro k hk2
              simp only [slotsDone, if_true, Option.some.injEq] at hk2
              subst hk2
              refine ⟨by omega, hb, ?_⟩
              rw [toWrite_take_succ hv, if_pos hz, List.append_nil]; exact hwr
            · intro hk2; simp [slotsDone] at hk2
          · rename_i hz
            cases h
            refine ⟨hlt, ?_, ?_⟩
            · intro k hk2
              simp only [slotsDone, if_true, Option.some.injEq] at hk2
              subst hk2
              exact ⟨hk, hb, hwr⟩
            · intro hk2; simp [slotsDone] at hk2
        · cases h
          refine ⟨hlt, ?_, ?_⟩
          · intro k hk2
            simp only [State.halt, hpc, slotsDone, if_true, Option.some.injEq] at hk2
            subst hk2
            exact ⟨hk, hb, hwr⟩
          · intro hk2; simp [State.halt, hpc, slotsDone] at hk2
      · rename_i hlt2
        cases h
        refine ⟨hlt, ?_, ?_⟩
        · intro k hk2; simp [slotsDone] at hk2
        · intro _
          refine ⟨?_, [], ?_⟩
          · have := (hi.own ms2).1
            simp only [ownersB, hpc, heldTunWriter, List.count_nil, List.count_singleton,
              beq_self_eq_true, if_true] at this ⊢
            omega
          · have hall : (b.messages.take b.msgCount.toNat).take i =
                b.messages.take b.msgCount.toNat := by
              apply List.take_of_length_le
              rw [List.length_take]; omega
            rw [List.append_nil, ← hall]; exact hwr
    · cases hsd : slotsDone ms s.tunWriter with
      | some k => simp [hpc, slotsDone, e] at hsd
      | none =>
        obtain ⟨h0, later, hl⟩ := hr.finished hsd
        have hown : ownersB t ms = 0 ∧ slotsDone ms t.tunWriter = none ∧
            t.tunWrites = s.tunWrites := by
          have e2 : (ms2 == ms) = false := by simpa using e
          have hz := ownersB_zero_iff.mp h0
          repeat' split at h
          all_goals cases h
          all_goals refine ⟨ownersB_zero_iff.mpr ⟨hz.1, hz.2.1, hz.2.2.1, ?_⟩, ?_, rfl⟩
          all_goals simp [State.halt, hpc, heldTunWriter, slotsDone, e, e2, List.count_singleton]
        refine ⟨hlt, ?_, ?_⟩
        · intro k hk; rw [hown.2.1] at hk; cases hk
        · intro _; exact ⟨hown.1, later, by rw [hown.2.2]; exact hl⟩
  · -- line 118: Write
    rename_i ms2 i plen err hpc
    obtain ⟨b2, m, hget, hlt2, hm, hn, hz⟩ := hi.at_write ms2 i plen hpc
    by_cases e : ms2 = ms
    · subst e
      obtain ⟨hk, hb, hwr⟩ := hr.busy i (by simp [hpc, slotsDone])
      have hbe : b2 = b := by rw [hget] at hb; exact Option.some.inj hb
      subst hbe
      have hi2 : i < b2.msgCount.toNat := by omega
      have hv : (b2.messages.take b2.msgCount.toNat)[i]? = some m := by
        rw [List.getElem?_take_of_lt hi2]; exact hm
      split at h
      · rename_i payload hpay
        cases h
        refine ⟨hlt, ?_, ?_⟩
        · intro k hk2
          simp only [slotsDone, if_true, Option.some.injEq] at hk2
          subst hk2
          refine ⟨by omega, hget, ?_⟩
          rw [toWrite_take_succ hv, if_neg (by rw [hn]; exact hz),
            writePayload_eq_some hget hm hn hpay, List.map_append, hwr]
          simp
        · intro hk2; simp [slotsDone] at hk2
      · cases h
        refine ⟨hlt, ?_, ?_⟩
        · intro k hk2
          simp only [State.halt, hpc, slotsDone, if_true, Option.some.injEq] at hk2
          subst hk2
          exact ⟨hk, hget, hwr⟩
        · intro hk2; simp [State.halt, hpc, slotsDone] at hk2
    · cases hsd : slotsDone ms s.tunWriter with
      | some k => simp [hpc, slotsDone, e] at hsd
      | none =>
        obtain ⟨h0, later, hl⟩ := hr.finished hsd
        have e2 : (ms2 == ms) = false := by simpa using e
        simp only [ownersB, hpc, heldTunWriter, List.count_nil, List.count_singleton,
          e2] at h0
        split at h
        · rename_i payload hpay
          cases h
          refine ⟨hlt, ?_, ?_⟩
          · intro k hk; simp [slotsDone, e] at hk
          · intro _
            refine ⟨?_, later ++ [payload], ?_⟩
            · simp only [ownersB, heldTunWriter, List.count_nil, List.count_singleton, e2]
              omega
            · rw [List.map_append, hl]; simp
        · cases h
          refine ⟨hlt, ?_, ?_⟩
          · intro k hk; simp [State.halt, hpc, slotsDone, e] at hk
          · intro _
            refine ⟨?_, later, hl⟩
            simp only [State.halt, ownersB, hpc, heldTunWriter, List.count_nil,
              List.count_singleton, e2]
            omega
  · -- line 119: if err != nil
    rename_i ms2 i err hpc
    by_cases e : ms2 = ms
    · subst e
      obtain ⟨hk, hb, hwr⟩ := hr.busy (i + 1) (by simp [hpc, slotsDone])
      split at h
      · cases h
        refine ⟨hlt, ?_, ?_⟩
        · intro k hk2
          simp only [State.halt, hpc, slotsDone, if_true, Option.some.injEq] at hk2
          subst hk2
          exact ⟨hk, hb, hwr⟩
        · intro hk2; simp [State.halt, hpc, slotsDone] at hk2
      · cases h
        refine ⟨hlt, ?_, ?_⟩
        · intro k hk2
          simp only [slotsDone, if_true, Option.some.injEq] at hk2
          subst hk2
          exact ⟨hk, hb, hwr⟩
        · intro hk2; simp [slotsDone] at hk2
    · cases hsd : slotsDone ms s.tunWriter with
      | some k => simp [hpc, slotsDone, e] at hsd
      | none =>
        obtain ⟨h0, later, hl⟩ := hr.finished hsd
        have e2 : (ms2 == ms) = false := by simpa using e
        simp only [ownersB, hpc, heldTunWriter, List.count_nil, List.count_singleton,
          e2] at h0
        split at h
        · cases h
          refine ⟨hlt, ?_, ?_⟩
          · intro k hk; simp [State.halt, hpc, slotsDone, e] at hk
          · intro _
            refine ⟨?_, later, hl⟩
            simp only [State.halt, ownersB, hpc, heldTunWriter, List.count_nil,
              List.count_singleton, e2]
            omega
        · cases h
          refine ⟨hlt, ?_, ?_⟩
          · intro k hk; simp [slotsDone, e] at hk
          · intro _
            refine ⟨?_, later, hl⟩
            simp only [ownersB, heldTunWriter, List.count_nil, List.count_singleton, e2]
            omega
  · cases h

theorem batchRun_next {before : List (List Byte)} {ms : Nat} {b : SocketMessages} {s : State}
    (a : Action) (hi : Inv s) (hr : BatchRun before ms b s) :
    BatchRun before ms b (next s a) := by
  unfold next
  cases h : step a s with
  | none => exact hr
  | some t =>
    simp only [Option.getD_some]
    unfold step at h
    split at h
    · cases h
    · cases a with
      | tunReader x => exact BatchRun_frame hr (runTunReadThread_sameB h)
      | udpWriter x => exact BatchRun_frame hr (runUDPWriteThread_sameB h)
      | udpReader x => exact batchRun_runUDPReadThread h hi.2 hr
      | tunWriter x => exact batchRun_runTunWriteThread h hi.2 hr

theorem batchRun_exec {before : List (List Byte)} {ms : Nat} {b : SocketMessages}
    (acts : List Action) : ∀ s : State, Inv s → BatchRun before ms b s →
    BatchRun before ms b (exec acts s) := by
  induction acts with
  | nil => intro s _ hr; exact hr
  | cons a rest ih =>
    intro s hi hr
    rw [exec_cons]
    exact ih (next s a) (inv_next a hi) (batchRun_next a hi hr)

/-- The device writer has just received the batch `b`. -/
theorem batchRun_start {s : State} {ms : Nat} {b : SocketMessages}
    (hpc : s.tunWriter = .loop ms 0) (hb : s.batchHeap[ms]? = some b) :
    BatchRun (s.tunWrites.map (fun c => c.payload)) ms b s := by
  refine ⟨(List.getElem?_eq_some.mp hb).1, ?_, ?_⟩
  · intro k hk
    simp only [hpc, slotsDone, if_true, Option.some.injEq] at hk
    subst hk
    exact ⟨Nat.zero_le _, hb, by simp [toWrite]⟩
  · intro hk; simp [hpc, slotsDone] at hk

/-- C1 (DeviceWriter batch correctness).  Take any reachable state in which
the goroutine of `runTunWriteThread` has just received a batch `ms` from
`udpReadChan`, with count `0 <= msgCount <= 25` and every received length of
the first `msgCount` slots between 0 and `mtu`.

Under every schedule from there, whatever the other goroutines do in between:
as long as the device writer is processing the batch, having dealt with `k`
slots (`slotsDone`), `k <= msgCount`, the batch is still as it was received and
the payloads written are those written before followed by exactly the
payloads `Buffers[0][:N]` of the slots `i < k` with `N != 0`, in slot order;
once it is no longer processing the batch, no pool, channel or goroutine holds
the batch (so the device writer does not come back to it) and the payloads
written are those written before, then exactly the payloads of the slots
`i < msgCount` with `N != 0`, in slot order, then writes of later batches.

Their number is `msgCount` minus the number of zero-length slots, each carries
the slot's bytes and has length `N`, and no other slot is written.  On the
schedule on which the device writer runs alone and every `Write` succeeds
(`drainBatch`) it is back at the channel after at most 76 statements, with
exactly these writes issued. -/
theorem deviceWriter_batch_correct (addr : String) (acts : List Action) (s : State)
    (ms : Nat) (b : SocketMessages) (n : Nat)
    (hs : s = exec acts (init addr)) (hh : s.halted = none)
    (hpc : s.tunWriter = .loop ms 0) (hb : s.batchHeap[ms]? = some b)
    (hk0 : 0 ≤ b.msgCount) (hk : b.msgCount ≤ 25)
    (hN : ∀ m ∈ b.messages.take b.msgCount.toNat, 0 ≤ m.N ∧ m.N ≤ (mtu : Int))
    (hn : 76 ≤ n) :
    (∀ sched : List Action,
      (∀ k, slotsDone ms (exec sched s).tunWriter = some k →
        k ≤ b.msgCount.toNat ∧ (exec sched s).batchHeap[ms]? = some b ∧
        (exec sched s).tunWrites.map (fun c => c.payload) =
          s.tunWrites.map (fun c => c.payload) ++
            ((((b.messages.take b.msgCount.toNat).take k).filter
              (fun m => decide (m.N ≠ 0))).map payloadOf)) ∧
      (slotsDone ms (exec sched s).tunWriter = none →
        ownersB (exec sched s) ms = 0 ∧
        ∃ later, (exec sched s).tunWrites.map (fun c => c.payload) =
          s.tunWrites.map (fun c => c.payload) ++
            (((b.messages.take b.msgCount.toNat).filter
              (fun m => decide (m.N ≠ 0))).map payloadOf) ++ later)) ∧
    (drainBatch n s).tunWriter = .pop ∧ (drainBatch n s).halted = none ∧
    (drainBatch n s).tunWrites =
      s.tunWrites ++ writeCalls
        (((b.messages.take b.msgCount.toNat).filter
          (fun m => decide (m.N ≠ 0))).map payloadOf) ∧
    ((b.messages.take b.msgCount.toNat).filter (fun m => decide (m.N ≠ 0))).length +
      ((b.messages.take b.msgCount.toNat).filter (fun m => decide (m.N = 0))).length =
        b.msgCount.toNat ∧
    (∀ m ∈ b.messages.take b.msgCount.toNat, ∃ buf, m.Buffers[0]? = some buf ∧
      sliceTo buf m.N = some (payloadOf m) ∧ ((payloadOf m).length : Int) = m.N) := by
  have hinv0 : Inv s := by rw [hs]; exact inv_reachable addr acts
  have hinv : InvB s := hinv0.2
  have hshape := hinv.heap_ok b (List.getElem?_mem hb)
  have hlen := shape_length hshape
  have hk2 : b.msgCount ≤ (batchLen : Int) := by simpa [batchLen] using hk
  have hd := drainBatch_loop (b.msgCount.toNat - 0) s ms 0 b n hh hpc hb hshape hk2 hN rfl
    (by simp only [batchLen] at hk2; omega)
  rw [hd]
  refine ⟨?_, rfl, hh, ?_, ?_, ?_⟩
  · intro sched
    have hr := batchRun_exec sched s hinv0 (batchRun_start hpc hb)
    refine ⟨fun k hk1 => ?_, fun hk1 => ?_⟩
    · exact hr.busy k hk1
    · exact hr.finished hk1
  · simp [toWrite]
  · have := toWrite_length (b.messages.take b.msgCount.toNat)
    simp only [toWrite, List.length_map, List.length_take] at this
    simp only [batchLen] at hk2 hlen
    omega
  · intro m hm
    obtain ⟨buf, hbuf, hl⟩ := shape_buffers hshape (List.mem_of_mem_take hm)
    exact ⟨buf, payloadOf_slice hbuf hl (hN m hm).1 (hN m hm).2⟩

set_option maxRecDepth 1000000 in
/-- C1 on the scenario of the specification: a batch with count 3 and slot
lengths 50, 0 and 80 gives exactly two writes, of 50 and of 80 bytes; and on
the schedule `interleaved3`, after which the device writer has dealt with slot
0 and has written its 50 bytes. -/
theorem deviceWriter_batch_correct_witness :
    (drainBatch 76 (exec recvBatch3 (init "peer"))).tunWrites.map (fun w => w.payload.length)
      = [50, 80] ∧
    (drainBatch 76 (exec recvBatch3 (init "peer"))).tunWriter = .pop ∧
    (exec interleaved3 (exec recvBatch3 (init "peer"))).batchHeap[0]? =
      some { messages := batch3, msgCount := 3 } ∧
    (exec interleaved3 (exec recvBatch3 (init "peer"))).tunWrites.map (fun c => c.payload) =
      [List.replicate 50 7] := by
  have h := deviceWriter_batch_correct "peer" recvBatch3 (exec recvBatch3 (init "peer")) 0
    { messages := batch3, msgCount := 3 } 76 rfl (by rfl) (by rfl) (by rfl) (by decide)
    (by decide) (by decide) (by decide)
  have h1 := (h.1 interleaved3).1 1 (by rfl)
  refine ⟨?_, h.2.1, h1.2.1, ?_⟩
  · rw [h.2.2.2.1]
    rfl
  · rw [h1.2.2]
    rfl

/-- The socket receiver does not look at the packets. -/
theorem runUDPReadThread_packetHeap (a : UdpReadAct) (s : State) (heap : List DataPacket) :
    runUDPReadThread a { s with packetHeap := heap } =
      (runUDPReadThread a s).map (fun t => { t with packetHeap := heap }) := by
  unfold runUDPReadThread
  cases hpc : s.udpReader <;> cases a <;> simp only [hpc, Option.map_none']
  · rename_i reuse
    cases reuse with
    | none => simp [getSocketMessages]
    | some p =>
      by_cases hm : p ∈ s.messagesPool <;> simp [getSocketMessages, hm]
  · rename_i ms msgs msgCount err
    cases hb : s.batchHeap[ms]? with
    | none => simp [State.halt, hpc]
    | some b =>
      simp only
      split <;> simp
  · rename_i ms msgCount err
    split <;> simp [State.halt, hpc]
  · rename_i ms msgCount
    cases hb : s.batchHeap[ms]? <;> simp [State.halt, hpc]
  · rename_i ms
    split <;> simp

/-- The device writer does not look at the packets. -/
theorem runTunWriteThread_packetHeap (a : TunWriteAct) (s : State) (heap : List DataPacket) :
    runTunWriteThread a { s with packetHeap := heap } =
      (runTunWriteThread a s).map (fun t => { t with packetHeap := heap }) := by
  unfold runTunWriteThread
  cases hpc : s.tunWriter <;> cases a <;> simp only [hpc, Option.map_none']
  · cases hc : s.udpReadChan <;> simp
  · rename_i ms i
    cases hb : s.batchHeap[ms]? with
    | none => simp [State.halt, hpc]
    | some b =>
      simp only
      split
      · cases hm : b.messages[i]? with
        | none => simp [State.halt, hpc]
        | some m =>
          simp only
          split <;> simp
      · simp
  · rename_i ms i plen err
    cases hp : writePayload s.batchHeap ms i plen <;> simp [State.halt, hpc]
  · rename_i ms i err
    split <;> simp [State.halt, hpc]

/-- In two states that agree on everything but the contents of the packets,
the payload the sender is about to hand to `WriteTo` is the same: it is the
oldest packet read from the device and not yet sent. -/
theorem payloadAt_lockstep {t : State} {heap : List DataPacket} {pkt : Nat}
    (h1 : InvP t) (h2 : InvP { t with packetHeap := heap }) (hpc : t.udpWriter = .send pkt) :
    payloadAt heap pkt = payloadAt t.packetHeap pkt := by
  have c1 := h1.content
  have c2 := h2.content
  rw [← c1] at c2
  have c3 := List.append_cancel_left c2
  simp only [pendingP, pendingUdpWriter, hpc, List.singleton_append, List.cons_append] at c3
  exact (List.cons.inj c3).1

/-- One schedule slot keeps two runs that differ only in the contents of the
packets in step: the same statement runs in both, with the same outcome for
everything but the contents of the packets. -/
theorem lockstep_next (a : Action) (t : State) (heap : List DataPacket)
    (hl : heap.length = t.packetHeap.length) (h1 : InvP t)
    (h2 : InvP { t with packetHeap := heap }) :
    ∃ heap2, next { t with packetHeap := heap } a = { next t a with packetHeap := heap2 } ∧
      heap2.length = (next t a).packetHeap.length := by
  by_cases hh : t.halted.isSome = true
  · exact ⟨heap, by simp [next, step, hh], by simpa [next, step, hh] using hl⟩
  cases a with
  | udpReader x =>
    cases hst : runUDPReadThread x t with
    | none =>
      exact ⟨heap, by simp [next, step, hh, runUDPReadThread_packetHeap, hst],
        by simpa [next, step, hh, hst] using hl⟩
    | some u =>
      have hp := (runUDPReadThread_sameP hst).1
      exact ⟨heap, by simp [next, step, hh, runUDPReadThread_packetHeap, hst],
        by simpa [next, step, hh, hst, hp] using hl⟩
  | tunWriter x =>
    cases hst : runTunWriteThread x t with
    | none =>
      exact ⟨heap, by simp [next, step, hh, runTunWriteThread_packetHeap, hst],
        by simpa [next, step, hh, hst] using hl⟩
    | some u =>
      have hp := (runTunWriteThread_sameP hst).1
      exact ⟨heap, by simp [next, step, hh, runTunWriteThread_packetHeap, hst],
        by simpa [next, step, hh, hst, hp] using hl⟩
  | tunReader x =>
    cases hpc : t.tunReader with
    | read =>
      cases x with
      | read buf plen err =>
        by_cases hb : buf.length = t.packet.length
        · exact ⟨heap, by simp [next, step, hh, runTunReadThread, hpc, hb],
            by simpa [next, step, hh, runTunReadThread, hpc, hb] using hl⟩
        · exact ⟨heap, by simp [next, step, hh, runTunReadThread, hpc, hb],
            by simpa [next, step, hh, runTunReadThread, hpc, hb] using hl⟩
      | get reuse =>
        exact ⟨heap, by simp [next, step, hh, runTunReadThread, hpc],
          by simpa [next, step, hh, runTunReadThread, hpc] using hl⟩
      | run =>
        exact ⟨heap, by simp [next, step, hh, runTunReadThread, hpc],
          by simpa [next, step, hh, runTunReadThread, hpc] using hl⟩
    | check plen err =>
      cases x with
      | run =>
        cases err
        · exact ⟨heap, by simp [next, step, hh, runTunReadThread, hpc],
            by simpa [next, step, hh, runTunReadThread, hpc] using hl⟩
        · exact ⟨heap, by simp [next, step, hh, runTunReadThread, hpc, State.halt],
            by simpa [next, step, hh, runTunReadThread, hpc, State.halt] using hl⟩
      | read buf plen err =>
        exact ⟨heap, by simp [next, step, hh, runTunReadThread, hpc],
          by simpa [next, step, hh, runTunReadThread, hpc] using hl⟩
      | get reuse =>
        exact ⟨heap, by simp [next, step, hh, runTunReadThread, hpc],
          by simpa [next, step, hh, runTunReadThread, hpc] using hl⟩
    | get plen =>
      cases x with
      | get reuse =>
        cases reuse with
        | none =>
          exact ⟨heap ++ [newDataPacket],
            by simp [next, step, hh, runTunReadThread, hpc, getDataPacket, hl],
            by simp [next, step, hh, runTunReadThread, hpc, getDataPacket, hl]⟩
        | some p =>
          by_cases hm : p ∈ t.packetPool
          · exact ⟨heap, by simp [next, step, hh, runTunReadThread, hpc, getDataPacket, hm],
              by simpa [next, step, hh, runTunReadThread, hpc, getDataPacket, hm] using hl⟩
          · exact ⟨heap, by simp [next, step, hh, runTunReadThread, hpc, getDataPacket, hm],
              by simpa [next, step, hh, runTunReadThread, hpc, getDataPacket, hm] using hl⟩
      | read buf plen err =>
        exact ⟨heap, by simp [next, step, hh, runTunReadThread, hpc],
          by simpa [next, step, hh, runTunReadThread, hpc] using hl⟩
      | run =>
        exact ⟨heap, by simp [next, step, hh, runTunReadThread, hpc],
          by simpa [next, step, hh, runTunReadThread, hpc] using hl⟩
    | fill plen dp =>
      have hdp : dp < t.packetHeap.length := heldTunReader_lt h1 (by simp [hpc, heldTunReader])
      have hg1 : t.packetHeap[dp]? = some t.packetHeap[dp] := List.getElem?_eq_getElem hdp
      have hg2 : heap[dp]? = some (heap[dp]) := List.getElem?_eq_getElem (by omega)
      cases x with
      | run =>
        cases hsl : sliceTo t.packet plen with
        | none =>
          exact ⟨heap, by simp [next, step, hh, runTunReadThread, hpc, hsl, State.halt],
            by simpa [next, step, hh, runTunReadThread, hpc, hsl, State.halt] using hl⟩
        | some src =>
          exact ⟨heap.set dp { heap[dp] with data := goCopy (heap[dp]).data src },
            by simp [next, step, hh, runTunReadThread, hpc, hsl, hg1, hg2],
            by simp [next, step, hh, runTunReadThread, hpc, hsl, hg1, hg2, hl]⟩
      | read buf plen err =>
        exact ⟨heap, by simp [next, step, hh, runTunReadThread, hpc],
          by simpa [next, step, hh, runTunReadThread, hpc] using hl⟩
      | get reuse =>
        exact ⟨heap, by simp [next, step, hh, runTunReadThread, hpc],
          by simpa [next, step, hh, runTunReadThread, hpc] using hl⟩
    | setLen plen dp =>
      have hdp : dp < t.packetHeap.length := heldTunReader_lt h1 (by simp [hpc, heldTunReader])
      have hg1 : t.packetHeap[dp]? = some t.packetHeap[dp] := List.getElem?_eq_getElem hdp
      have hg2 : heap[dp]? = some (heap[dp]) := List.getElem?_eq_getElem (by omega)
      cases x with
      | run =>
        exact ⟨heap.set dp { heap[dp] with packetLen := plen },
          by simp [next, step, hh, runTunReadThread, hpc, hg1, hg2],
          by simp [next, step, hh, runTunReadThread, hpc, hg1, hg2, hl]⟩
      | read buf plen err =>
        exact ⟨heap, by simp [next, step, hh, runTunReadThread, hpc],
          by simpa [next, step, hh, runTunReadThread, hpc] using hl⟩
      | get reuse =>
        exact ⟨heap, by simp [next, step, hh, runTunReadThread, hpc],
          by simpa [next, step, hh, runTunReadThread, hpc] using hl⟩
    | push dp =>
      cases x with
      | run =>
        by_cases hc : t.tunReadChan.length < chanCap
        · exact ⟨heap, by simp [next, step, hh, runTunReadThread, hpc, hc],
            by simpa [next, step, hh, runTunReadThread, hpc, hc] using hl⟩
        · exact ⟨heap, by simp [next, step, hh, runTunReadThread, hpc, hc],
            by simpa [next, step, hh, runTunReadThread, hpc, hc] using hl⟩
      | read buf plen err =>
        exact ⟨heap, by simp [next, step, hh, runTunReadThread, hpc],
          by simpa [next, step, hh, runTunReadThread, hpc] using hl⟩
      | get reuse =>
        exact ⟨heap, by simp [next, step, hh, runTunReadThread, hpc],
          by simpa [next, step, hh, runTunReadThread, hpc] using hl⟩
  | udpWriter x =>
    cases hpc : t.udpWriter with
    | pop =>
      cases x with
      | run =>
        cases hc : t.tunReadChan with
        | nil =>
          exact ⟨heap, by simp [next, step, hh, runUDPWriteThread, hpc, hc],
            by simpa [next, step, hh, runUDPWriteThread, hpc, hc] using hl⟩
        | cons pkt rest =>
          exact ⟨heap, by simp [next, step, hh, runUDPWriteThread, hpc, hc],
            by simpa [next, step, hh, runUDPWriteThread, hpc, hc] using hl⟩
      | send err =>
        exact ⟨heap, by simp [next, step, hh, runUDPWriteThread, hpc],
          by simpa [next, step, hh, runUDPWriteThread, hpc] using hl⟩
    | send pkt =>
      cases x with
      | send err =>
        have hlt : pkt < t.packetHeap.length :=
          heldUdpWriter_lt h1 (by simp [hpc, heldUdpWriter])
        have hp1 := sendPayload_ok h1 hlt
        have hp2 : sendPayload heap pkt = some (payloadAt heap pkt) :=
          sendPayload_ok h2 (show pkt < heap.length by omega)
        have he := payloadAt_lockstep h1 h2 hpc
        exact ⟨heap, by simp [next, step, hh, runUDPWriteThread, hpc, hp1, hp2, he],
          by simpa [next, step, hh, runUDPWriteThread, hpc, hp1] using hl⟩
      | run =>
        exact ⟨heap, by simp [next, step, hh, runUDPWriteThread, hpc],
          by simpa [next, step, hh, runUDPWriteThread, hpc] using hl⟩
    | put pkt err =>
      cases x with
      | run =>
        exact ⟨heap, by simp [next, step, hh, runUDPWriteThread, hpc, putDataPacket],
          by simpa [next, step, hh, runUDPWriteThread, hpc, putDataPacket] using hl⟩
      | send err =>
        exact ⟨heap, by simp [next, step, hh, runUDPWriteThread, hpc],
          by simpa [next, step, hh, runUDPWriteThread, hpc] using hl⟩
    | check err =>
      cases x with
      | run =>
        cases err
        · exact ⟨heap, by simp [next, step, hh, runUDPWriteThread, hpc],
            by simpa [next, step, hh, runUDPWriteThread, hpc] using hl⟩
        · exact ⟨heap, by simp [next, step, hh, runUDPWriteThread, hpc, State.halt],
            by simpa [next, step, hh, runUDPWriteThread, hpc, State.halt] using hl⟩
      | send err =>
        exact ⟨heap, by simp [next, step, hh, runUDPWriteThread, hpc],
          by simpa [next, step, hh, runUDPWriteThread, hpc] using hl⟩

theorem lockstep_exec (acts : List Action) : ∀ (t : State) (heap : List DataPacket),
    heap.length = t.packetHeap.length → Inv t → Inv { t with packetHeap := heap } →
    ∃ heap2, exec acts { t with packetHeap := heap } = { exec acts t with packetHeap := heap2 } ∧
      heap2.length = (exec acts t).packetHeap.length := by
  induction acts with
  | nil => intro t heap hl _ _; exact ⟨heap, rfl, hl⟩
  | cons a rest ih =>
    intro t heap hl h1 h2
    obtain ⟨heap2, e, hl2⟩ := lockstep_next a t heap hl h1.1 h2.1
    have h3 : Inv { next t a with packetHeap := heap2 } := by rw [← e]; exact inv_next a h2
    obtain ⟨heap3, e3, hl3⟩ := ih (next t a) heap2 hl2 (inv_next a h1) h3
    exact ⟨heap3, by rw [exec_cons, exec_cons, e, e3], by rw [exec_cons]; exact hl3⟩

/-- Overwriting a pooled packet with any packet of the right shape keeps the
invariant: nothing in flight refers to a pooled packet. -/
theorem inv_setPooled {s : State} {dp : Nat} {old : DataPacket} (hi : Inv s)
    (hpool : dp ∈ s.packetPool)
    (hold : old.data.length = mtu ∧ 0 ≤ old.packetLen ∧ old.packetLen ≤ (mtu : Int)) :
    Inv { s with packetHeap := s.packetHeap.set dp old } := by
  have hcount := List.count_pos_iff.mpr hpool
  have hown := (hi.1.own dp).1
  have hne : ∀ id, id ∈ s.tunReadChan ∨ id ∈ heldUdpWriter s.udpWriter ∨
      id ∈ heldTunReader s.tunReader → id ≠ dp := by
    intro id hid
    rintro rfl
    unfold ownersP at hown
    rcases hid with hid | hid | hid
    · have := List.count_pos_iff.mpr hid; omega
    · have := List.count_pos_iff.mpr hid; omega
    · have := List.count_pos_iff.mpr hid; omega
  refine ⟨⟨hi.1.packet_len, ?_, ?_, ?_, ?_, hi.1.addr_ok⟩, InvB_frame hi.2 (by simp [sameB])⟩
  · intro q hq
    rcases List.mem_or_eq_of_mem_set hq with hq | rfl
    · exact hi.1.heap_ok q hq
    · exact hold
  · intro id
    have := hi.1.own id
    simpa [ownersP] using this
  · intro plen dp2 hh
    obtain ⟨h0, hle, p, hp, ht⟩ := hi.1.at_setLen plen dp2 hh
    have hn : dp2 ≠ dp := hne dp2 (Or.inr (Or.inr (by
      change s.tunReader = _ at hh
      simp [hh, heldTunReader])))
    exact ⟨h0, hle, p, by
      show (s.packetHeap.set dp old)[dp2]? = some p
      rw [List.getElem?_set_ne (Ne.symm hn)]; exact hp, ht⟩
  · have hc := hi.1.content
    have hf := pending_frame s (s.packetHeap.set dp old) (fun id hid =>
      payloadAt_set_ne _ _ _ _ (hne id (hid.elim Or.inl (fun x => Or.inr (Or.inl x)))))
    have hr : pendingTunReader s.tunReader s.packet (s.packetHeap.set dp old) =
        pendingTunReader s.tunReader s.packet s.packetHeap := by
      cases hpc : s.tunReader with
      | push dp2 =>
        simp only [pendingTunReader]
        rw [payloadAt_set_ne _ _ _ _ (hne dp2 (Or.inr (Or.inr (by simp [hpc, heldTunReader]))))]
      | _ => rfl
    simp only [pendingP] at hc ⊢
    rw [hf, hr]; exact hc

/-- The payloads sent so far are the first packets read from the device. -/
theorem sends_prefix {t : State} (hi : InvP t) :
    t.udpSends.map (fun c => c.payload) = t.tunReads.take t.udpSends.length := by
  rw [← hi.content, List.take_left' (by simp)]

/-- The payload the sender is about to hand to `WriteTo` is the oldest packet
read from the device and not yet sent. -/
theorem send_next_read {t : State} (hi : InvP t) {pkt : Nat} (hpc : t.udpWriter = .send pkt) :
    t.tunReads[t.udpSends.length]? = some (payloadAt t.packetHeap pkt) ∧
      sendPayload t.packetHeap pkt = some (payloadAt t.packetHeap pkt) := by
  have hlt : pkt < t.packetHeap.length := heldUdpWriter_lt hi (by simp [hpc, heldUdpWriter])
  refine ⟨?_, sendPayload_ok hi hlt⟩
  rw [← hi.content]
  simp only [pendingP, pendingUdpWriter, hpc, List.singleton_append, List.cons_append]
  rw [List.getElem?_append_right (by simp)]
  simp

/-- The payload of the packet the reader is about to put on the channel is the
packet it has just read from the device. -/
theorem push_last_read {t : State} (hi : InvP t) {dp : Nat} (hpc : t.tunReader = .push dp) :
    t.tunReads.getLast? = some (payloadAt t.packetHeap dp) ∧
      sendPayload t.packetHeap dp = some (payloadAt t.packetHeap dp) := by
  have hlt : dp < t.packetHeap.length := heldTunReader_lt hi (by simp [hpc, heldTunReader])
  refine ⟨?_, sendPayload_ok hi hlt⟩
  rw [← hi.content]
  simp only [pendingP, pendingTunReader, hpc]
  rw [← List.append_assoc, List.getLast?_append]
  simp

/-- What two states that agree on everything but the contents of the packets,
both satisfying the invariant, have in common. -/
theorem lockstep_facts {t1 t2 : State} {heap2 : List DataPacket}
    (e : t2 = { t1 with packetHeap := heap2 }) (j1 : InvP t1) (j2 : InvP t2) :
    t2.udpSends = t1.udpSends ∧ t2.tunReads = t1.tunReads ∧
    t2.tunReadChan = t1.tunReadChan ∧ t2.tunReader = t1.tunReader ∧
    t2.udpWriter = t1.udpWriter ∧ t2.halted = t1.halted ∧
    t1.udpSends.map (fun c => c.payload) = t1.tunReads.take t1.udpSends.length ∧
    (∀ pkt, t1.udpWriter = .send pkt →
      ∃ P, t1.tunReads[t1.udpSends.length]? = some P ∧
        sendPayload t1.packetHeap pkt = some P ∧ sendPayload t2.packetHeap pkt = some P) ∧
    (∀ pkt, t1.tunReader = .push pkt →
      ∃ P, t1.tunReads.getLast? = some P ∧
        sendPayload t1.packetHeap pkt = some P ∧ sendPayload t2.packetHeap pkt = some P) := by
  have es : t2.udpSends = t1.udpSends := by rw [e]
  have et : t2.tunReads = t1.tunReads := by rw [e]
  have ew : t2.udpWriter = t1.udpWriter := by rw [e]
  have er : t2.tunReader = t1.tunReader := by rw [e]
  refine ⟨es, et, by rw [e], er, ew, by rw [e], sends_prefix j1, ?_, ?_⟩
  · intro pkt hpc
    have a1 := send_next_read j1 hpc
    have a2 := send_next_read j2 (ew.trans hpc)
    have a3 := a2.1
    rw [et, es, a1.1] at a3
    exact ⟨_, a1.1, a1.2, by rw [a2.2]; exact a3.symm⟩
  · intro pkt hpc
    have a1 := push_last_read j1 hpc
    have a2 := push_last_read j2 (er.trans hpc)
    have a3 := a2.1
    rw [et, a1.1] at a3
    exact ⟨_, a1.1, a1.2, by rw [a2.2]; exact a3.symm⟩

/-- C7 (Pool safety, no stale leakage).  Take a reachable state `s` and a
packet `dp` in the pool, and two states that differ from `s` only in what the
previous use left in `dp`: any bytes in its `mtu` byte buffer, any `packetLen`.

(1) With both `packetLen` between 0 and `mtu`, as every use leaves them, run
the same schedule from both, any schedule: the same device reads, the
same choices of the pool (it may hand out `dp`), the goroutines interleaved in
any way.  The two runs issue exactly the same `WriteTo` calls, read the same
packets and keep the same control state and channel.  In each run the payloads
sent are the first packets read from the device, in order; whenever the sender
is about to call `WriteTo` on a packet, the payload `data[:packetLen]` it
passes is, in both runs, the oldest packet read and not yet sent; whenever the
reader is about to put a packet on the channel, its payload is, in both runs,
the packet just read.  So nothing that is sent depends on what the previous
use left in the buffer.

(2) One iteration of the device reader run from `s` that reads the packet
`buf[:plen]`, `0 <= plen <= mtu`, into `dp` puts `dp` on the channel in both
runs, with payload `data[:packetLen]` the packet just read. -/
theorem no_stale_leakage (addr : String) (acts : List Action) (s : State) (dp : Nat)
    (old1 old2 : DataPacket) (hs : s = exec acts (init addr)) (hpool : dp ∈ s.packetPool)
    (hold1 : old1.data.length = mtu) (hold2 : old2.data.length = mtu) :
    (0 ≤ old1.packetLen → old1.packetLen ≤ (mtu : Int) →
      0 ≤ old2.packetLen → old2.packetLen ≤ (mtu : Int) → ∀ sched : List Action,
      (exec sched { s with packetHeap := s.packetHeap.set dp old2 }).udpSends =
        (exec sched { s with packetHeap := s.packetHeap.set dp old1 }).udpSends ∧
      (exec sched { s with packetHeap := s.packetHeap.set dp old2 }).tunReads =
        (exec sched { s with packetHeap := s.packetHeap.set dp old1 }).tunReads ∧
      (exec sched { s with packetHeap := s.packetHeap.set dp old2 }).tunReadChan =
        (exec sched { s with packetHeap := s.packetHeap.set dp old1 }).tunReadChan ∧
      (exec sched { s with packetHeap := s.packetHeap.set dp old2 }).tunReader =
        (exec sched { s with packetHeap := s.packetHeap.set dp old1 }).tunReader ∧
      (exec sched { s with packetHeap := s.packetHeap.set dp old2 }).udpWriter =
        (exec sched { s with packetHeap := s.packetHeap.set dp old1 }).udpWriter ∧
      (exec sched { s with packetHeap := s.packetHeap.set dp old2 }).halted =
        (exec sched { s with packetHeap := s.packetHeap.set dp old1 }).halted ∧
      (exec sched { s with packetHeap := s.packetHeap.set dp old1 }).udpSends.map
          (fun c => c.payload) =
        (exec sched { s with packetHeap := s.packetHeap.set dp old1 }).tunReads.take
          (exec sched { s with packetHeap := s.packetHeap.set dp old1 }).udpSends.length ∧
      (∀ pkt, (exec sched { s with packetHeap := s.packetHeap.set dp old1 }).udpWriter =
          .send pkt →
        ∃ P, (exec sched { s with packetHeap := s.packetHeap.set dp old1 }).tunReads[
            (exec sched { s with packetHeap := s.packetHeap.set dp old1 }).udpSends.length]? =
              some P ∧
          sendPayload (exec sched { s with packetHeap := s.packetHeap.set dp old1 }).packetHeap
            pkt = some P ∧
          sendPayload (exec sched { s with packetHeap := s.packetHeap.set dp old2 }).packetHeap
            pkt = some P) ∧
      (∀ pkt, (exec sched { s with packetHeap := s.packetHeap.set dp old1 }).tunReader =
          .push pkt →
        ∃ P, (exec sched { s with packetHeap := s.packetHeap.set dp old1 }).tunReads.getLast? =
            some P ∧
          sendPayload (exec sched { s with packetHeap := s.packetHeap.set dp old1 }).packetHeap
            pkt = some P ∧
          sendPayload (exec sched { s with packetHeap := s.packetHeap.set dp old2 }).packetHeap
            pkt = some P)) ∧
    (∀ (buf : List Byte) (plen : Int), s.halted = none → s.tunReader = .read →
      buf.length = mtu → 0 ≤ plen → plen ≤ (mtu : Int) → s.tunReadChan.length < chanCap →
      (exec (readerIteration buf plen dp)
        { s with packetHeap := s.packetHeap.set dp old1 }).tunReadChan = s.tunReadChan ++ [dp] ∧
      (exec (readerIteration buf plen dp)
        { s with packetHeap := s.packetHeap.set dp old2 }).tunReadChan = s.tunReadChan ++ [dp] ∧
      sendPayload (exec (readerIteration buf plen dp)
        { s with packetHeap := s.packetHeap.set dp old1 }).packetHeap dp =
          some (buf.take plen.toNat) ∧
      sendPayload (exec (readerIteration buf plen dp)
        { s with packetHeap := s.packetHeap.set dp old2 }).packetHeap dp =
          some (buf.take plen.toNat)) := by
  have hinv : Inv s := by rw [hs]; exact inv_reachable addr acts
  have hdp : dp < s.packetHeap.length := by
    apply owned_lt hinv.1
    have := List.count_pos_iff.mpr hpool
    unfold ownersP; omega
  refine ⟨?_, ?_⟩
  · intro h10 h11 h20 h21 sched
    have hi1 := inv_setPooled hinv hpool ⟨hold1, h10, h11⟩
    have hi2 := inv_setPooled hinv hpool ⟨hold2, h20, h21⟩
    obtain ⟨heap2, e, _⟩ := lockstep_exec sched { s with packetHeap := s.packetHeap.set dp old1 }
      (s.packetHeap.set dp old2) (by simp) hi1 hi2
    have e2 : exec sched { s with packetHeap := s.packetHeap.set dp old2 } =
        { exec sched { s with packetHeap := s.packetHeap.set dp old1 } with
          packetHeap := heap2 } := e
    have j1 := (inv_exec sched hi1).1
    have j2 := (inv_exec sched hi2).1
    exact lockstep_facts e2 j1 j2
  · intro buf plen hh hpc hbuf h0 hle hcap
    have hpk := hinv.1.packet_len
    have r1 := readerIteration_reuse { s with packetHeap := s.packetHeap.set dp old1 } dp old1
      buf plen hh hpc hpool (List.getElem?_set_self hdp) hold1 hbuf hpk h0 hle hcap
    have r2 := readerIteration_reuse { s with packetHeap := s.packetHeap.set dp old2 } dp old2
      buf plen hh hpc hpool (List.getElem?_set_self hdp) hold2 hbuf hpk h0 hle hcap
    exact ⟨r1.1, r2.1, r1.2.2, r2.2.2⟩

set_option maxRecDepth 1000000 in
/-- C7 on the pooled packet of `relayPacket3`: whether the previous use left
1500 bytes `9` and length 1400 or zeroes and length 0, on the schedule
`reuseAndSend` the sender sends `[1, 2]`, and one reader iteration reading
`[1, 2]` into the packet makes its payload `[1, 2]`. -/
theorem no_stale_leakage_witness :
    (exec reuseAndSend { exec relayPacket3 (init "peer") with
        packetHeap := (exec relayPacket3 (init "peer")).packetHeap.set 0
          { data := List.replicate mtu 9, packetLen := 1400 } }).udpSends.map
        (fun c => c.payload) = [[7, 7, 7], [1, 2]] ∧
    (exec reuseAndSend { exec relayPacket3 (init "peer") with
        packetHeap := (exec relayPacket3 (init "peer")).packetHeap.set 0
          { data := List.replicate mtu 0, packetLen := 0 } }).udpSends.map
        (fun c => c.payload) = [[7, 7, 7], [1, 2]] ∧
    sendPayload (exec (readerIteration ([1, 2] ++ List.replicate (mtu - 2) 0) 2 0)
      { exec relayPacket3 (init "peer") with
        packetHeap := (exec relayPacket3 (init "peer")).packetHeap.set 0
          { data := List.replicate mtu 9, packetLen := 1400 } }).packetHeap 0 = some [1, 2] ∧
    sendPayload (exec (readerIteration ([1, 2] ++ List.replicate (mtu - 2) 0) 2 0)
      { exec relayPacket3 (init "peer") with
        packetHeap := (exec relayPacket3 (init "peer")).packetHeap.set 0
          { data := List.replicate mtu 0, packetLen := 0 } }).packetHeap 0 = some [1, 2] := by
  have h := no_stale_leakage "peer" relayPacket3 (exec relayPacket3 (init "peer")) 0
    { data := List.replicate mtu 9, packetLen := 1400 }
    { data := List.replicate mtu 0, packetLen := 0 } rfl (by decide)
    (by simp) (by simp)
  have h2 := h.2 ([1, 2] ++ List.replicate (mtu - 2) 0) 2 (by rfl) (by rfl) (by decide)
    (by decide) (by decide) (by decide)
  have e : (exec reuseAndSend { exec relayPacket3 (init "peer") with
      packetHeap := (exec relayPacket3 (init "peer")).packetHeap.set 0
        { data := List.replicate mtu 9, packetLen := 1400 } }).udpSends.map
      (fun c => c.payload) = [[7, 7, 7], [1, 2]] := by rfl
  refine ⟨e, ?_, h2.2.2.1, h2.2.2.2⟩
  rw [(h.1 (by decide) (by decide) (by decide) (by decide) reuseAndSend).1]
  exact e

end TunUdp
